import Mathlib

/-! Scatter-gather coordinator of `src/ch08/example01.go`, `example02.go`, `example03.go`.

Shallow embedding of the three variants of `GatherAndProcess`.  Every goroutine is a
program counter, every buffered channel is a list bounded by its capacity, and a run is a
list of scheduler actions executed by an executable `step` function (interleaving
semantics: `step` returns `none` when the chosen goroutine cannot move, because it is
blocked or because the action does not apply to its program counter).  A `select` whose
branches are ready may take any of them, as in Go.  The opaque remote calls are
parameters of the model; the stubs written in the source are given as `refServices`.
In `example01.go` and `example02.go` the context derived by `context.WithTimeout` from
the `ctx` parameter is ended by the 50 ms deadline (`ctx.Err()` is then
`context.DeadlineExceeded`, also when the caller's own deadline is the earlier one), by
the cancellation of the caller's context (`context.Canceled`), or by the deferred
`cancel()` at the return.

Fields whose doc comment says "History" are not program variables: they record what has
happened so far (numbers of sends and receives, arguments of calls) so that statements
about "ever sent" or "never invoked" can be phrased on states.
-/

namespace LearningGo

/-! Data model shared by the three files. -/

/-- Go `float64`, carried by its IEEE-754 bit pattern; the programs only copy scores. -/
structure Float64 where
  bits : Nat
deriving DecidableEq, Repr

/-- The literal `96.5`. -/
def score96_5 : Float64 := ⟨0x4058200000000000⟩

/-- Go `error` values that occur: the two context errors and `errors.New(msg)`;
the `error` interface itself is `Option GoError`, `none` being `nil`. -/
inductive GoError where
  | deadlineExceeded
  | canceled
  | errorsNew (msg : String)
deriving DecidableEq, Repr

structure AOut where
  name : String
  age : Int
deriving DecidableEq, Repr

structure BOut where
  subject : String
  score : Float64
deriving DecidableEq, Repr

structure CIn where
  A : AOut
  B : BOut
deriving DecidableEq, Repr

structure COut where
  name : String
  subject : String
  score : Float64
deriving DecidableEq, Repr

/-- Zero value `AOut{}`. -/
def AOut.zero : AOut := ⟨"", 0⟩

/-- Zero value `BOut{}`. -/
def BOut.zero : BOut := ⟨"", ⟨0⟩⟩

/-- Zero value `CIn{}` (also `var inputC CIn`). -/
def CIn.zero : CIn := ⟨AOut.zero, BOut.zero⟩

/-- Zero value `COut{}`. -/
def COut.zero : COut := ⟨"", "", ⟨0⟩⟩

/-- The value `COut{name: c.A.name, subject: c.B.subject, score: c.B.score}` built by
stage C in all three files. -/
def joinedData (c : CIn) : COut := ⟨c.A.name, c.B.subject, c.B.score⟩

/-- Send on a buffered channel of capacity `cap`: `none` when the buffer is full (the
sender blocks). -/
def chanSend {α : Type} (cap : Nat) (buf : List α) (v : α) : Option (List α) :=
  if buf.length < cap then some (buf ++ [v]) else none

/-- Program counter of a producer goroutine: before its call, at the send of its result,
at the send of its error, finished. -/
inductive Stage (α : Type) where
  | ready
  | sendOut (v : α)
  | sendErr (e : GoError)
  | done
deriving DecidableEq, Repr

/-- The three remote calls, opaque to the coordinator (the `ctx` argument is not used by
the coordinator's logic and is dropped). -/
structure Services where
  callWebServiceA : String → AOut × Option GoError
  callWebServiceB : String → BOut × Option GoError
  callWebServiceC : CIn → COut × Option GoError

/-! The file `example01.go`: context deadline, stage C launched eagerly. -/

namespace Ex01

structure Input where
  A : String
  B : String
  C : String
deriving DecidableEq, Repr

/-- Stub `callWebServiceA` of the file. -/
def callWebServiceA (_a : String) : AOut × Option GoError := (⟨"grey", 20⟩, none)

/-- Stub `callWebServiceB` of the file. -/
def callWebServiceB (_b : String) : BOut × Option GoError := (⟨"Physics", score96_5⟩, none)

/-- The file's `callWebServiceC`. -/
def callWebServiceC (c : CIn) : COut × Option GoError := (joinedData c, none)

/-- The services as written in the file. -/
def refServices : Services := ⟨callWebServiceA, callWebServiceB, callWebServiceC⟩

/-- Program counter of the goroutine running `GatherAndProcess`. -/
inductive Coord where
  | waitForAB (inputC : CIn) (count : Nat)
  | handoff (inputC : CIn)
  | waitForC
  | returned (out : COut) (err : Option GoError)
deriving DecidableEq, Repr

/-- Whether the coordinator has returned. -/
def Coord.isReturned : Coord → Bool
  | .returned _ _ => true
  | _ => false

/-- One invocation of `GatherAndProcess`: the derived context, the five channels of
`processor`, the three goroutines of `launch`, the coordinator, and history counters. -/
structure State where
  /-- The value of `ctx.Err()`: `none` while `ctx.Done()` is open. -/
  ctx : Option GoError
  outA : List AOut
  outB : List BOut
  inC : List CIn
  outC : List COut
  errs : List GoError
  goA : Stage AOut
  goB : Stage BOut
  goC : Stage COut
  main : Coord
  /-- History: values ever sent on `outA`. -/
  sentA : Nat
  /-- History: values ever sent on `outB`. -/
  sentB : Nat
  /-- History: values ever sent on `inC`. -/
  sentInC : Nat
  /-- History: values ever sent on `outC`. -/
  sentOutC : Nat
  /-- History: errors sent on `errs` by the stage-A goroutine. -/
  errA : Nat
  /-- History: errors sent on `errs` by the stage-B goroutine. -/
  errB : Nat
  /-- History: errors sent on `errs` by the stage-C goroutine. -/
  errC : Nat
  /-- History: receipts from `outA` by `waitForAB`. -/
  rcvA : Nat
  /-- History: receipts from `outB` by `waitForAB`. -/
  rcvB : Nat
  /-- History: receipts from `errs` by the coordinator. -/
  rcvErr : Nat
  /-- History: receipts from `outC` by `waitForC`. -/
  rcvOutC : Nat
  /-- History: `select` statements executed by `waitForAB`. -/
  polls : Nat
  /-- History: arguments of the calls of `callWebServiceC`, latest first. -/
  callsC : List CIn
  /-- History: what `waitForAB` returned, once it has. -/
  joined : Option (CIn × Option GoError)
  /-- History: whether the cancellation of the caller's context closed `ctx.Done()`. -/
  cancelled : Bool
deriving DecidableEq, Repr

/-- Number of failures ever sent on `errs`. -/
def State.sentErrs (s : State) : Nat := s.errA + s.errB + s.errC

/-- State right after `p.launch(ctx, data)`: channels made by `GatherAndProcess` are
empty, the three goroutines exist, the coordinator enters `waitForAB`.  No goroutine has
looked at `ctx.Done()` yet; a `ctx` parameter that is cancelled (or past its deadline)
already at the call is the run that starts with `callerCancel` (or `deadline`). -/
def init : State where
  ctx := none
  outA := []
  outB := []
  inC := []
  outC := []
  errs := []
  goA := .ready
  goB := .ready
  goC := .ready
  main := .waitForAB CIn.zero 0
  sentA := 0
  sentB := 0
  sentInC := 0
  sentOutC := 0
  errA := 0
  errB := 0
  errC := 0
  rcvA := 0
  rcvB := 0
  rcvErr := 0
  rcvOutC := 0
  polls := 0
  callsC := []
  joined := none
  cancelled := false

/-- Scheduler choices.  `deadline` is the 50 ms timer of `context.WithTimeout` (or an
earlier deadline of the caller's context), `callerCancel` the cancellation of the caller's
context; both only have an effect while `ctx.Done()` is open.  The other actions are one
statement of one goroutine, `select` branches being separate actions. -/
inductive Action where
  | deadline
  | callerCancel
  | callA
  | deliverA
  | callB
  | deliverB
  | cDone
  | cRecv
  | deliverC
  | abRecvA
  | abRecvB
  | abRecvErr
  | abDone
  | handoff
  | wcRecvOut
  | wcRecvErr
  | wcDone
deriving DecidableEq, Repr

/-- Return of `GatherAndProcess`; the deferred `cancel()` closes `ctx.Done()` if it is
still open. -/
def ret (s : State) (out : COut) (err : Option GoError) : State :=
  { s with main := .returned out err, ctx := some (s.ctx.getD .canceled) }

/-- Return of `waitForAB` with an error, followed by `return COut{}, err`. -/
def abFail (s : State) (e : GoError) : State :=
  ret { s with polls := s.polls + 1, joined := some (CIn.zero, some e) } COut.zero (some e)

/-- End of one loop iteration of `waitForAB` after a receipt: loop again while
`count < 2`, otherwise `return inputC, nil`. -/
def abNext (s : State) (inputC : CIn) (count : Nat) : State :=
  if count < 2 then
    { s with main := .waitForAB inputC count, polls := s.polls + 1 }
  else
    { s with main := .handoff inputC, polls := s.polls + 1, joined := some (inputC, none) }

/-- One scheduler action; `none` when it is not enabled. -/
def step (svc : Services) (data : Input) (s : State) : Action → Option State
  | .deadline =>
    match s.ctx with
    | none => some { s with ctx := some .deadlineExceeded }
    | some _ => none
  | .callerCancel =>
    match s.ctx with
    | none => some { s with ctx := some .canceled, cancelled := true }
    | some _ => none
  | .callA =>
    match s.goA with
    | .ready =>
      match svc.callWebServiceA data.A with
      | (_, some e) => some { s with goA := .sendErr e }
      | (aOut, none) => some { s with goA := .sendOut aOut }
    | _ => none
  | .deliverA =>
    match s.goA with
    | .sendErr e =>
      (chanSend 2 s.errs e).map fun q => { s with errs := q, goA := .done, errA := s.errA + 1 }
    | .sendOut a =>
      (chanSend 1 s.outA a).map fun q => { s with outA := q, goA := .done, sentA := s.sentA + 1 }
    | _ => none
  | .callB =>
    match s.goB with
    | .ready =>
      match svc.callWebServiceB data.B with
      | (_, some e) => some { s with goB := .sendErr e }
      | (bOut, none) => some { s with goB := .sendOut bOut }
    | _ => none
  | .deliverB =>
    match s.goB with
    | .sendErr e =>
      (chanSend 2 s.errs e).map fun q => { s with errs := q, goB := .done, errB := s.errB + 1 }
    | .sendOut b =>
      (chanSend 1 s.outB b).map fun q => { s with outB := q, goB := .done, sentB := s.sentB + 1 }
    | _ => none
  | .cDone =>
    match s.goC, s.ctx with
    | .ready, some _ => some { s with goC := .done }
    | _, _ => none
  | .cRecv =>
    match s.goC, s.inC with
    | .ready, inputC :: rest =>
      match svc.callWebServiceC inputC with
      | (_, some e) => some { s with inC := rest, goC := .sendErr e, callsC := inputC :: s.callsC }
      | (cOut, none) =>
        some { s with inC := rest, goC := .sendOut cOut, callsC := inputC :: s.callsC }
    | _, _ => none
  | .deliverC =>
    match s.goC with
    | .sendErr e =>
      (chanSend 2 s.errs e).map fun q => { s with errs := q, goC := .done, errC := s.errC + 1 }
    | .sendOut c =>
      (chanSend 1 s.outC c).map fun q =>
        { s with outC := q, goC := .done, sentOutC := s.sentOutC + 1 }
    | _ => none
  | .abRecvA =>
    match s.main, s.outA with
    | .waitForAB inputC count, a :: rest =>
      some (abNext { s with outA := rest, rcvA := s.rcvA + 1 } { inputC with A := a } (count + 1))
    | _, _ => none
  | .abRecvB =>
    match s.main, s.outB with
    | .waitForAB inputC count, b :: rest =>
      some (abNext { s with outB := rest, rcvB := s.rcvB + 1 } { inputC with B := b } (count + 1))
    | _, _ => none
  | .abRecvErr =>
    match s.main, s.errs with
    | .waitForAB _ _, err :: rest =>
      some (abFail { s with errs := rest, rcvErr := s.rcvErr + 1 } err)
    | _, _ => none
  | .abDone =>
    match s.main, s.ctx with
    | .waitForAB _ _, some e => some (abFail s e)
    | _, _ => none
  | .handoff =>
    match s.main with
    | .handoff inputC =>
      (chanSend 1 s.inC inputC).map fun q =>
        { s with inC := q, main := .waitForC, sentInC := s.sentInC + 1 }
    | _ => none
  | .wcRecvOut =>
    match s.main, s.outC with
    | .waitForC, outC :: rest =>
      some (ret { s with outC := rest, rcvOutC := s.rcvOutC + 1 } outC none)
    | _, _ => none
  | .wcRecvErr =>
    match s.main, s.errs with
    | .waitForC, err :: rest =>
      some (ret { s with errs := rest, rcvErr := s.rcvErr + 1 } COut.zero (some err))
    | _, _ => none
  | .wcDone =>
    match s.main, s.ctx with
    | .waitForC, some _ =>
      some (ret s COut.zero (some (.errorsNew "timeout while waiting for C")))
    | _, _ => none

/-- Execute a schedule; `none` if some action of it is not enabled when its turn comes. -/
def run (svc : Services) (data : Input) (s : State) : List Action → Option State
  | [] => some s
  | a :: as => (step svc data s a).bind fun t => run svc data t as

/-- The state a schedule leads to from `init` (`init` itself when it cannot be run). -/
def after (svc : Services) (data : Input) (as : List Action) : State :=
  (run svc data init as).getD init

/-- The input of the reference scenario. -/
def refInput : Input := ⟨"x", "y", "z"⟩

/-- A complete schedule in which the joiner receives stage A's output first. -/
def scheduleAB : List Action :=
  [.callA, .deliverA, .callB, .deliverB, .abRecvA, .abRecvB, .handoff, .cRecv, .deliverC,
    .wcRecvOut]

/-- A complete schedule in which the joiner receives stage B's output first. -/
def scheduleBA : List Action :=
  [.callB, .deliverB, .callA, .deliverA, .abRecvB, .abRecvA, .handoff, .cRecv, .deliverC,
    .wcRecvOut]

/-- Services whose stage A fails with `errors.New("A failed")` and whose stage B fails with
`errors.New("B failed")`. -/
def failingServices : Services :=
  ⟨fun _ => (AOut.zero, some (.errorsNew "A failed")),
   fun _ => (BOut.zero, some (.errorsNew "B failed")), callWebServiceC⟩

/-- Services whose stage A fails with `errors.New("A failed")` while stage B is the stub
of the file. -/
def failingAServices : Services :=
  ⟨fun _ => (AOut.zero, some (.errorsNew "A failed")), callWebServiceB, callWebServiceC⟩

/-- A schedule in which stage B delivers, stage A fails, and the joiner receives stage B's
output and then stage A's failure. -/
def scheduleFailA : List Action :=
  [.callB, .deliverB, .callA, .deliverA, .abRecvB, .abRecvErr]

/-- A schedule in which A and B are joined and the deadline elapses while stage C has not
been scheduled. -/
def scheduleHangC : List Action :=
  [.callA, .deliverA, .callB, .deliverB, .abRecvA, .abRecvB, .handoff, .deadline]

/-- The `select` branches of `waitForAB`. -/
def Action.isPoll : Action → Bool
  | .abRecvA | .abRecvB | .abRecvErr | .abDone => true
  | _ => false

/-- Statements a producer goroutine still has to execute. -/
def stageFuel {α : Type} : Stage α → Nat
  | .ready => 2
  | .sendOut _ => 1
  | .sendErr _ => 1
  | .done => 0

/-- Upper bound on the statements the coordinator still has to execute. -/
def coordFuel : Coord → Nat
  | .waitForAB _ count => 3 + (2 - count)
  | .handoff _ => 2
  | .waitForC => 1
  | .returned _ _ => 0

/-- Upper bound on the number of actions that can still happen. -/
def fuel (s : State) : Nat :=
  stageFuel s.goA + stageFuel s.goB + stageFuel s.goC + coordFuel s.main +
    (if s.ctx = none then 1 else 0)

/-- Outcome of stage A's call in this invocation. -/
abbrev resA (svc : Services) (data : Input) : AOut × Option GoError :=
  svc.callWebServiceA data.A

/-- Outcome of stage B's call in this invocation. -/
abbrev resB (svc : Services) (data : Input) : BOut × Option GoError :=
  svc.callWebServiceB data.B

/-- The joined value `CIn{A: a, B: b}` of the two stage outputs. -/
abbrev joinAB (svc : Services) (data : Input) : CIn :=
  ⟨(svc.callWebServiceA data.A).1, (svc.callWebServiceB data.B).1⟩

/-- Outcome of stage C's call on the joined value. -/
abbrev resC (svc : Services) (data : Input) : COut × Option GoError :=
  svc.callWebServiceC (joinAB svc data)

/-- The inductive invariant of `GatherAndProcess`: it ties every program counter to the
history counters and every buffered value to the call that produced it. -/
structure Inv (svc : Services) (data : Input) (s : State) : Prop where
  a_le : s.sentA + s.errA ≤ 1
  b_le : s.sentB + s.errB ≤ 1
  outA_len : s.outA.length + s.rcvA = s.sentA
  outB_len : s.outB.length + s.rcvB = s.sentB
  errs_len : s.errs.length + s.rcvErr = s.errA + s.errB + s.errC
  inC_len : s.inC.length + s.callsC.length = s.sentInC
  outC_len : s.outC.length + s.rcvOutC = s.sentOutC
  c_le : s.sentOutC + s.errC ≤ s.callsC.length
  join_a : s.sentInC ≤ s.rcvA
  join_b : s.sentInC ≤ s.rcvB
  in_le : s.sentInC ≤ 1
  polls_le : s.polls ≤ 2
  a_ok : s.sentA = 1 → (resA svc data).2 = none
  a_ko : s.errA = 1 → (resA svc data).2 ≠ none
  b_ok : s.sentB = 1 → (resB svc data).2 = none
  b_ko : s.errB = 1 → (resB svc data).2 ≠ none
  c_ok : s.sentOutC = 1 → (resC svc data).2 = none
  c_ko : s.errC = 1 → (resC svc data).2 ≠ none
  outA_val : ∀ x ∈ s.outA, (resA svc data).1 = x
  outB_val : ∀ x ∈ s.outB, (resB svc data).1 = x
  inC_val : ∀ x ∈ s.inC, joinAB svc data = x
  calls : ∀ x ∈ s.callsC, joinAB svc data = x
  outC_val : ∀ c ∈ s.outC, resC svc data = (c, none)
  errs_val : ∀ e ∈ s.errs, (resA svc data).2 = some e ∨ (resB svc data).2 = some e ∨
    (0 < s.errC ∧ (resC svc data).2 = some e)
  a_pc : match s.goA with
    | .ready => s.sentA + s.errA = 0
    | .sendOut a => s.sentA + s.errA = 0 ∧ resA svc data = (a, none)
    | .sendErr e => s.sentA + s.errA = 0 ∧ (resA svc data).2 = some e
    | .done => s.sentA + s.errA = 1
  b_pc : match s.goB with
    | .ready => s.sentB + s.errB = 0
    | .sendOut b => s.sentB + s.errB = 0 ∧ resB svc data = (b, none)
    | .sendErr e => s.sentB + s.errB = 0 ∧ (resB svc data).2 = some e
    | .done => s.sentB + s.errB = 1
  c_pc : match s.goC with
    | .ready => s.callsC = []
    | .sendOut c => s.sentOutC + s.errC = 0 ∧ s.callsC.length = 1 ∧
        resC svc data = (c, none)
    | .sendErr e => s.sentOutC + s.errC = 0 ∧ s.callsC.length = 1 ∧
        (resC svc data).2 = some e
    | .done => s.sentOutC + s.errC = s.callsC.length
  c_idle : s.goC = .done → s.callsC = [] → s.ctx ≠ none
  ctx_ok : s.ctx = none ∨ s.ctx = some .deadlineExceeded ∨
    (s.ctx = some .canceled ∧ (s.main.isReturned = true ∨ s.cancelled = true))
  ctx_ret : s.main.isReturned = true → s.ctx ≠ none
  m_pc : match s.main with
    | .waitForAB i c =>
        s.rcvA + s.rcvB = c ∧ c < 2 ∧ s.polls = c ∧
        CIn.mk (if s.rcvA = 0 then AOut.zero else (resA svc data).1)
               (if s.rcvB = 0 then BOut.zero else (resB svc data).1) = i ∧
        s.sentInC = 0 ∧ s.rcvErr = 0 ∧ s.rcvOutC = 0 ∧ s.joined = none
    | .handoff i =>
        joinAB svc data = i ∧ s.rcvA = 1 ∧ s.rcvB = 1 ∧ s.polls = 2 ∧ s.sentInC = 0 ∧
        s.rcvErr = 0 ∧ s.rcvOutC = 0 ∧ s.joined = some (i, none)
    | .waitForC =>
        s.rcvA = 1 ∧ s.rcvB = 1 ∧ s.polls = 2 ∧ s.sentInC = 1 ∧ s.rcvErr = 0 ∧
        s.rcvOutC = 0 ∧ s.joined = some (joinAB svc data, none)
    | .returned out err =>
        (∃ e, s.joined = some (CIn.zero, some e) ∧ out = COut.zero ∧ err = some e ∧
          s.sentInC = 0 ∧ s.rcvOutC = 0 ∧ s.rcvA + s.rcvB < 2 ∧
          ((s.rcvErr = 0 ∧ s.ctx = some e ∧
              (e = .deadlineExceeded ∨ (e = .canceled ∧ s.cancelled = true))) ∨
           (s.rcvErr = 1 ∧ ((resA svc data).2 = some e ∨ (resB svc data).2 = some e)))) ∨
        (s.joined = some (joinAB svc data, none) ∧
          s.rcvA = 1 ∧ s.rcvB = 1 ∧ s.polls = 2 ∧ s.sentInC = 1 ∧
          ((err = none ∧ s.rcvOutC = 1 ∧ s.rcvErr = 0 ∧ resC svc data = (out, none)) ∨
           (out = COut.zero ∧ s.rcvOutC = 0 ∧ s.rcvErr = 1 ∧ err ≠ none ∧
              err = (resC svc data).2) ∨
           (out = COut.zero ∧ s.rcvOutC = 0 ∧ s.rcvErr = 0 ∧
              err = some (.errorsNew "timeout while waiting for C") ∧
              (s.ctx = some .deadlineExceeded ∨
                (s.ctx = some .canceled ∧ s.cancelled = true)))))

end Ex01

/-! The file `example02.go`: context deadline, stage C called after the join. -/

namespace Ex02

structure Input where
  A : String
  B : String
  C : String
deriving DecidableEq, Repr

/-- The two remote calls that are opaque in this file; `callWebServiceC` is the code of
the file itself and is part of `step`. -/
structure Services where
  callWebServiceA : String → AOut × Option GoError
  callWebServiceB : String → BOut × Option GoError

/-- Stub `callWebServiceA` of the file. -/
def callWebServiceA (_a : String) : AOut × Option GoError := (⟨"grey", 20⟩, none)

/-- Stub `callWebServiceB` of the file. -/
def callWebServiceB (_b : String) : BOut × Option GoError := (⟨"Physics", score96_5⟩, none)

/-- The services as written in the file. -/
def refServices : Services := ⟨callWebServiceA, callWebServiceB⟩

/-- Program counter of the goroutine started inside `callWebServiceC`: not started, at
`resultChan <- joinedData`, finished. -/
inductive Worker where
  | absent
  | send (joinedData : COut)
  | done
deriving DecidableEq, Repr

/-- Program counter of the goroutine running `GatherAndProcess`: in `waitForAB`, at the
call of `callWebServiceC`, at the `select` inside it, returned. -/
inductive Coord where
  | waitForAB (inputC : CIn) (count : Nat)
  | callC (c : CIn)
  | selectC
  | returned (out : COut) (err : Option GoError)
deriving DecidableEq, Repr

/-- Whether the coordinator has returned. -/
def Coord.isReturned : Coord → Bool
  | .returned _ _ => true
  | _ => false

/-- One invocation of `GatherAndProcess`. -/
structure State where
  /-- The value of `ctx.Err()`: `none` while `ctx.Done()` is open. -/
  ctx : Option GoError
  outA : List AOut
  outB : List BOut
  errs : List GoError
  resultChan : List COut
  goA : Stage AOut
  goB : Stage BOut
  goC : Worker
  main : Coord
  /-- History: values ever sent on `outA`. -/
  sentA : Nat
  /-- History: values ever sent on `outB`. -/
  sentB : Nat
  /-- History: errors sent on `errs` by the stage-A goroutine. -/
  errA : Nat
  /-- History: errors sent on `errs` by the stage-B goroutine. -/
  errB : Nat
  /-- History: receipts from `outA` by `waitForAB`. -/
  rcvA : Nat
  /-- History: receipts from `outB` by `waitForAB`. -/
  rcvB : Nat
  /-- History: receipts from `errs` by `waitForAB`. -/
  rcvErr : Nat
  /-- History: what `waitForAB` returned, once it has. -/
  joined : Option (CIn × Option GoError)
  /-- History: whether the cancellation of the caller's context closed `ctx.Done()`. -/
  cancelled : Bool
deriving DecidableEq, Repr

/-- State right after `p.launch(ctx, data)`.  No goroutine has looked at `ctx.Done()`
yet; a `ctx` parameter that is cancelled (or past its deadline) already at the call is the
run that starts with `callerCancel` (or `deadline`). -/
def init : State where
  ctx := none
  outA := []
  outB := []
  errs := []
  resultChan := []
  goA := .ready
  goB := .ready
  goC := .absent
  main := .waitForAB CIn.zero 0
  sentA := 0
  sentB := 0
  errA := 0
  errB := 0
  rcvA := 0
  rcvB := 0
  rcvErr := 0
  joined := none
  cancelled := false

/-- Scheduler choices; `deadline` is the 50 ms timer of `context.WithTimeout` (or an
earlier deadline of the caller's context), `callerCancel` the cancellation of the caller's
context. -/
inductive Action where
  | deadline
  | callerCancel
  | callA
  | deliverA
  | callB
  | deliverB
  | abRecvA
  | abRecvB
  | abRecvErr
  | abDone
  | spawnC
  | workerSend
  | selDone
  | selRecv
deriving DecidableEq, Repr

/-- Return of `GatherAndProcess`; the deferred `cancel()` closes `ctx.Done()` if it is
still open. -/
def ret (s : State) (out : COut) (err : Option GoError) : State :=
  { s with main := .returned out err, ctx := some (s.ctx.getD .canceled) }

/-- Return of `waitForAB` with an error, followed by `return COut{}, err`. -/
def abFail (s : State) (e : GoError) : State :=
  ret { s with joined := some (CIn.zero, some e) } COut.zero (some e)

/-- End of one loop iteration of `waitForAB` after a receipt. -/
def abNext (s : State) (inputC : CIn) (count : Nat) : State :=
  if count < 2 then
    { s with main := .waitForAB inputC count }
  else
    { s with main := .callC inputC, joined := some (inputC, none) }

/-- One scheduler action; `none` when it is not enabled. -/
def step (svc : Services) (data : Input) (s : State) : Action → Option State
  | .deadline =>
    match s.ctx with
    | none => some { s with ctx := some .deadlineExceeded }
    | some _ => none
  | .callerCancel =>
    match s.ctx with
    | none => some { s with ctx := some .canceled, cancelled := true }
    | some _ => none
  | .callA =>
    match s.goA with
    | .ready =>
      match svc.callWebServiceA data.A with
      | (_, some e) => some { s with goA := .sendErr e }
      | (aOut, none) => some { s with goA := .sendOut aOut }
    | _ => none
  | .deliverA =>
    match s.goA with
    | .sendErr e =>
      (chanSend 2 s.errs e).map fun q => { s with errs := q, goA := .done, errA := s.errA + 1 }
    | .sendOut a =>
      (chanSend 1 s.outA a).map fun q => { s with outA := q, goA := .done, sentA := s.sentA + 1 }
    | _ => none
  | .callB =>
    match s.goB with
    | .ready =>
      match svc.callWebServiceB data.B with
      | (_, some e) => some { s with goB := .sendErr e }
      | (bOut, none) => some { s with goB := .sendOut bOut }
    | _ => none
  | .deliverB =>
    match s.goB with
    | .sendErr e =>
      (chanSend 2 s.errs e).map fun q => { s with errs := q, goB := .done, errB := s.errB + 1 }
    | .sendOut b =>
      (chanSend 1 s.outB b).map fun q => { s with outB := q, goB := .done, sentB := s.sentB + 1 }
    | _ => none
  | .abRecvA =>
    match s.main, s.outA with
    | .waitForAB inputC count, a :: rest =>
      some (abNext { s with outA := rest, rcvA := s.rcvA + 1 } { inputC with A := a } (count + 1))
    | _, _ => none
  | .abRecvB =>
    match s.main, s.outB with
    | .waitForAB inputC count, b :: rest =>
      some (abNext { s with outB := rest, rcvB := s.rcvB + 1 } { inputC with B := b } (count + 1))
    | _, _ => none
  | .abRecvErr =>
    match s.main, s.errs with
    | .waitForAB _ _, err :: rest =>
      some (abFail { s with errs := rest, rcvErr := s.rcvErr + 1 } err)
    | _, _ => none
  | .abDone =>
    match s.main, s.ctx with
    | .waitForAB _ _, some e => some (abFail s e)
    | _, _ => none
  | .spawnC =>
    match s.main with
    | .callC c =>
      some { s with resultChan := [], goC := .send (joinedData c), main := .selectC }
    | _ => none
  | .workerSend =>
    match s.goC with
    | .send v => (chanSend 1 s.resultChan v).map fun q => { s with resultChan := q, goC := .done }
    | _ => none
  | .selDone =>
    match s.main, s.ctx with
    | .selectC, some e => some (ret s COut.zero (some e))
    | _, _ => none
  | .selRecv =>
    match s.main, s.resultChan with
    | .selectC, result :: rest => some (ret { s with resultChan := rest } result none)
    | _, _ => none

/-- Execute a schedule; `none` if some action of it is not enabled when its turn comes. -/
def run (svc : Services) (data : Input) (s : State) : List Action → Option State
  | [] => some s
  | a :: as => (step svc data s a).bind fun t => run svc data t as

/-- The input of the reference scenario. -/
def refInput : Input := ⟨"x", "y", "z"⟩

/-- The state a schedule leads to from `init` (`init` itself when it cannot be run). -/
def after (svc : Services) (data : Input) (as : List Action) : State :=
  (run svc data init as).getD init

/-- Services whose stage A fails with `errors.New("A failed")` and whose stage B fails with
`errors.New("B failed")`. -/
def failingServices : Services :=
  ⟨fun _ => (AOut.zero, some (.errorsNew "A failed")),
   fun _ => (BOut.zero, some (.errorsNew "B failed"))⟩

/-- Services whose stage A fails with `errors.New("A failed")` while stage B is the stub
of the file. -/
def failingAServices : Services :=
  ⟨fun _ => (AOut.zero, some (.errorsNew "A failed")), callWebServiceB⟩

/-- A schedule in which stage B delivers, stage A fails, and the joiner receives stage B's
output and then stage A's failure. -/
def scheduleFailA : List Action :=
  [.callB, .deliverB, .callA, .deliverA, .abRecvB, .abRecvErr]

/-- A schedule in which A and B are joined and the deadline elapses while the goroutine of
`callWebServiceC` has not been scheduled. -/
def scheduleHangC : List Action :=
  [.callA, .deliverA, .callB, .deliverB, .abRecvA, .abRecvB, .spawnC, .deadline]

/-- A complete schedule without failure or deadline. -/
def scheduleAll : List Action :=
  [.callA, .deliverA, .callB, .deliverB, .abRecvA, .abRecvB, .spawnC, .workerSend, .selRecv]

/-- Outcome of stage A's call in this invocation. -/
abbrev resA (svc : Services) (data : Input) : AOut × Option GoError :=
  svc.callWebServiceA data.A

/-- Outcome of stage B's call in this invocation. -/
abbrev resB (svc : Services) (data : Input) : BOut × Option GoError :=
  svc.callWebServiceB data.B

/-- The joined value `CIn{A: a, B: b}` of the two stage outputs. -/
abbrev joinAB (svc : Services) (data : Input) : CIn :=
  ⟨(svc.callWebServiceA data.A).1, (svc.callWebServiceB data.B).1⟩

/-- The inductive invariant of `GatherAndProcess`. -/
structure Inv (svc : Services) (data : Input) (s : State) : Prop where
  a_le : s.sentA + s.errA ≤ 1
  b_le : s.sentB + s.errB ≤ 1
  outA_len : s.outA.length + s.rcvA = s.sentA
  outB_len : s.outB.length + s.rcvB = s.sentB
  errs_len : s.errs.length + s.rcvErr = s.errA + s.errB
  a_ok : s.sentA = 1 → (resA svc data).2 = none
  a_ko : s.errA = 1 → (resA svc data).2 ≠ none
  b_ok : s.sentB = 1 → (resB svc data).2 = none
  b_ko : s.errB = 1 → (resB svc data).2 ≠ none
  outA_val : ∀ x ∈ s.outA, (resA svc data).1 = x
  outB_val : ∀ x ∈ s.outB, (resB svc data).1 = x
  res_val : ∀ c ∈ s.resultChan, joinedData (joinAB svc data) = c
  errs_val : ∀ e ∈ s.errs, (resA svc data).2 = some e ∨ (resB svc data).2 = some e
  a_pc : match s.goA with
    | .ready => s.sentA + s.errA = 0
    | .sendOut a => s.sentA + s.errA = 0 ∧ resA svc data = (a, none)
    | .sendErr e => s.sentA + s.errA = 0 ∧ (resA svc data).2 = some e
    | .done => s.sentA + s.errA = 1
  b_pc : match s.goB with
    | .ready => s.sentB + s.errB = 0
    | .sendOut b => s.sentB + s.errB = 0 ∧ resB svc data = (b, none)
    | .sendErr e => s.sentB + s.errB = 0 ∧ (resB svc data).2 = some e
    | .done => s.sentB + s.errB = 1
  w_pc : match s.goC with
    | .absent => s.resultChan = []
    | .send v => joinedData (joinAB svc data) = v ∧ s.resultChan = []
    | .done => True
  ctx_ok : s.ctx = none ∨ s.ctx = some .deadlineExceeded ∨
    (s.ctx = some .canceled ∧ (s.main.isReturned = true ∨ s.cancelled = true))
  ctx_ret : s.main.isReturned = true → s.ctx ≠ none
  m_pc : match s.main with
    | .waitForAB i c =>
        s.rcvA + s.rcvB = c ∧ c < 2 ∧
        CIn.mk (if s.rcvA = 0 then AOut.zero else (resA svc data).1)
               (if s.rcvB = 0 then BOut.zero else (resB svc data).1) = i ∧
        s.rcvErr = 0 ∧ s.joined = none ∧ s.goC = .absent
    | .callC i =>
        joinAB svc data = i ∧ s.rcvA = 1 ∧ s.rcvB = 1 ∧ s.rcvErr = 0 ∧
        s.joined = some (i, none) ∧ s.goC = .absent
    | .selectC =>
        s.rcvA = 1 ∧ s.rcvB = 1 ∧ s.rcvErr = 0 ∧ s.joined = some (joinAB svc data, none) ∧
        s.goC ≠ .absent
    | .returned out err =>
        (∃ e, s.joined = some (CIn.zero, some e) ∧ out = COut.zero ∧ err = some e ∧
          s.rcvA + s.rcvB < 2 ∧ s.goC = .absent ∧
          ((s.rcvErr = 0 ∧ s.ctx = some e ∧
              (e = .deadlineExceeded ∨ (e = .canceled ∧ s.cancelled = true))) ∨
           (s.rcvErr = 1 ∧ ((resA svc data).2 = some e ∨ (resB svc data).2 = some e)))) ∨
        (s.joined = some (joinAB svc data, none) ∧ s.rcvA = 1 ∧ s.rcvB = 1 ∧ s.rcvErr = 0 ∧
          ((err = none ∧ out = joinedData (joinAB svc data)) ∨
           (∃ e, out = COut.zero ∧ err = some e ∧ s.ctx = some e ∧
              (e = .deadlineExceeded ∨ (e = .canceled ∧ s.cancelled = true)))))

end Ex02

/-! The file `example03.go`: one `time.After` timer per `select`, explicit clock. -/

namespace Ex03

structure Input where
  A : String
  B : String
deriving DecidableEq, Repr

/-- The values that the opaque stages A and B send on their channels (in this file the
calls have no error result). -/
structure Services where
  callWebServiceA : String → AOut
  callWebServiceB : String → BOut

/-- Value sent by the stub `callWebServiceA` of the file. -/
def callWebServiceA (_a : String) : AOut := ⟨"grey", 20⟩

/-- Value sent by the stub `callWebServiceB` of the file. -/
def callWebServiceB (_b : String) : BOut := ⟨"Physics", score96_5⟩

/-- The services as written in the file. -/
def refServices : Services := ⟨callWebServiceA, callWebServiceB⟩

/-- The timeout of every `time.After`, in milliseconds. -/
def timeout : Nat := 50

/-- The error `errors.New("timeout exceed in waitForAB")`. -/
def errWaitForAB : GoError := .errorsNew "timeout exceed in waitForAB"

/-- The error `errors.New("timeout exceed in waitForC")`. -/
def errWaitForC : GoError := .errorsNew "timeout exceed in waitForC"

/-- Program counter of the goroutines `go callWebServiceA(..)` and
`go callWebServiceB(..)`: before the send, finished. -/
inductive Producer where
  | ready
  | done
deriving DecidableEq, Repr

/-- Program counter of the goroutine `go callWebServiceC(inC, outC)`: not started, at
`inputC := <-in`, at `out <- COut{..}`, finished. -/
inductive StageC where
  | absent
  | recv
  | send (c : COut)
  | done
deriving DecidableEq, Repr

/-- Program counter of `gatherAndProcess`.  A `select` that is being waited on carries
the instant at which its `time.After(50 * time.Millisecond)` channel becomes ready. -/
inductive Coord where
  | waitForAB (inputC : CIn) (count : Nat) (timer : Nat)
  | handoff (inputC : CIn)
  | spawn
  | waitForC (timer : Nat)
  | returned (out : COut) (err : Option GoError)
deriving DecidableEq, Repr

/-- One invocation of `gatherAndProcess`, with the clock in milliseconds since the
invocation started. -/
structure State where
  now : Nat
  outA : List AOut
  outB : List BOut
  inC : List CIn
  outC : List COut
  goA : Producer
  goB : Producer
  goC : StageC
  main : Coord
  /-- History: values ever sent on `outA`. -/
  sentA : Nat
  /-- History: values ever sent on `outB`. -/
  sentB : Nat
  /-- History: values ever sent on `inC`. -/
  sentInC : Nat
  /-- History: values ever sent on `outC`. -/
  sentOutC : Nat
  /-- History: receipts from `outA` by `waitForAB`. -/
  rcvA : Nat
  /-- History: receipts from `outB` by `waitForAB`. -/
  rcvB : Nat
  /-- History: receipts from `outC` by `waitForC`. -/
  rcvOutC : Nat
  /-- History: inputs on which stage C computed its output, latest first. -/
  callsC : List CIn
  /-- History: what `waitForAB` returned, once it has. -/
  joined : Option (CIn × Option GoError)
  /-- History: instant of the latest receipt by `waitForAB` (0 before any). -/
  lastRcv : Nat
  /-- History: instant at which `gatherAndProcess` returned (0 before). -/
  retAt : Nat
deriving DecidableEq, Repr

/-- State when `gatherAndProcess` enters `waitForAB`: the four channels are empty, the
goroutines of stages A and B have been started, the first timer is armed at instant 0. -/
def init : State where
  now := 0
  outA := []
  outB := []
  inC := []
  outC := []
  goA := .ready
  goB := .ready
  goC := .absent
  main := .waitForAB CIn.zero 0 timeout
  sentA := 0
  sentB := 0
  sentInC := 0
  sentOutC := 0
  rcvA := 0
  rcvB := 0
  rcvOutC := 0
  callsC := []
  joined := none
  lastRcv := 0
  retAt := 0

/-- Scheduler choices: `tick` lets one millisecond pass, the others are one statement of
one goroutine, `select` branches being separate actions. -/
inductive Action where
  | tick
  | sendA
  | sendB
  | abRecvA
  | abRecvB
  | abTimeout
  | handoff
  | spawn
  | cRecv
  | cSend
  | wcRecv
  | wcTimeout
deriving DecidableEq, Repr

/-- Whether the coordinator can take a step now: a `select` branch is ready, or it is at
a statement that does not block. -/
def coordEnabled (s : State) : Bool :=
  match s.main with
  | .waitForAB _ _ timer => !s.outA.isEmpty || !s.outB.isEmpty || decide (timer ≤ s.now)
  | .handoff _ => decide (s.inC.length < 1)
  | .spawn => true
  | .waitForC timer => !s.outC.isEmpty || decide (timer ≤ s.now)
  | .returned _ _ => false

/-- End of one loop iteration of `waitForAB` after a receipt: the next iteration enters
`select` again and arms a new `time.After` timer; with `count = 2` the loop ends. -/
def abNext (s : State) (inputC : CIn) (count : Nat) : State :=
  if count < 2 then
    { s with main := .waitForAB inputC count (s.now + timeout), lastRcv := s.now }
  else
    { s with main := .handoff inputC, joined := some (inputC, none), lastRcv := s.now }

/-- Return of `gatherAndProcess`. -/
def ret (s : State) (out : COut) (err : Option GoError) : State :=
  { s with main := .returned out err, retAt := s.now }

/-- One scheduler action; `none` when it is not enabled.  The statements between two
`select`s take no time.  With `eager = true` the clock only advances while the coordinator
is blocked (it reacts to channel and timer events without latency); with `eager = false`
it may take a ready `select` branch arbitrarily late. -/
def step (eager : Bool) (svc : Services) (data : Input) (s : State) : Action → Option State
  | .tick =>
    if eager && coordEnabled s then none else some { s with now := s.now + 1 }
  | .sendA =>
    match s.goA with
    | .ready =>
      (chanSend 1 s.outA (svc.callWebServiceA data.A)).map fun q =>
        { s with outA := q, goA := .done, sentA := s.sentA + 1 }
    | .done => none
  | .sendB =>
    match s.goB with
    | .ready =>
      (chanSend 1 s.outB (svc.callWebServiceB data.B)).map fun q =>
        { s with outB := q, goB := .done, sentB := s.sentB + 1 }
    | .done => none
  | .abRecvA =>
    match s.main, s.outA with
    | .waitForAB inputC count _, a :: rest =>
      some (abNext { s with outA := rest, rcvA := s.rcvA + 1 } { inputC with A := a } (count + 1))
    | _, _ => none
  | .abRecvB =>
    match s.main, s.outB with
    | .waitForAB inputC count _, b :: rest =>
      some (abNext { s with outB := rest, rcvB := s.rcvB + 1 } { inputC with B := b } (count + 1))
    | _, _ => none
  | .abTimeout =>
    match s.main with
    | .waitForAB _ _ timer =>
      if timer ≤ s.now then
        some (ret { s with joined := some (CIn.zero, some errWaitForAB) } COut.zero
          (some errWaitForAB))
      else none
    | _ => none
  | .handoff =>
    match s.main with
    | .handoff inputC =>
      (chanSend 1 s.inC inputC).map fun q =>
        { s with inC := q, main := .spawn, sentInC := s.sentInC + 1 }
    | _ => none
  | .spawn =>
    match s.main with
    | .spawn => some { s with goC := .recv, main := .waitForC (s.now + timeout) }
    | _ => none
  | .cRecv =>
    match s.goC, s.inC with
    | .recv, inputC :: rest =>
      some { s with inC := rest,
                    goC := .send ⟨inputC.A.name, inputC.B.subject, inputC.B.score⟩,
                    callsC := inputC :: s.callsC }
    | _, _ => none
  | .cSend =>
    match s.goC with
    | .send c =>
      (chanSend 1 s.outC c).map fun q =>
        { s with outC := q, goC := .done, sentOutC := s.sentOutC + 1 }
    | _ => none
  | .wcRecv =>
    match s.main, s.outC with
    | .waitForC _, c :: rest =>
      some (ret { s with outC := rest, rcvOutC := s.rcvOutC + 1 } c none)
    | _, _ => none
  | .wcTimeout =>
    match s.main with
    | .waitForC timer =>
      if timer ≤ s.now then some (ret s COut.zero (some errWaitForC)) else none
    | _ => none

/-- Execute a schedule; `none` if some action of it is not enabled when its turn comes. -/
def run (eager : Bool) (svc : Services) (data : Input) (s : State) :
    List Action → Option State
  | [] => some s
  | a :: as => (step eager svc data s a).bind fun t => run eager svc data t as

/-- The input of the reference scenario. -/
def refInput : Input := ⟨"x", "y"⟩

/-- The state a schedule leads to from `init` (`init` itself when it cannot be run). -/
def after (eager : Bool) (svc : Services) (data : Input) (as : List Action) : State :=
  (run eager svc data init as).getD init

/-- Stage A hangs; stage B's result arrives and is received at 40 ms; the timer armed by
that receipt fires at 90 ms. -/
def scheduleLateB : List Action :=
  List.replicate 40 .tick ++ [.sendB, .abRecvB] ++ List.replicate 50 .tick ++ [.abTimeout]

/-- Both results arrive at once and are joined; stage C hangs for the 50 ms of the timer
of `waitForC`. -/
def scheduleHangC : List Action :=
  [.sendA, .sendB, .abRecvA, .abRecvB, .handoff, .spawn] ++ List.replicate 50 .tick

/-- Both results arrive at once, are joined, and stage C answers at once. -/
def scheduleAll : List Action :=
  [.sendA, .sendB, .abRecvA, .abRecvB, .handoff, .spawn, .cRecv, .cSend, .wcRecv]

/-- The joined value `CIn{A: a, B: b}` of the two stage outputs. -/
abbrev joinAB (svc : Services) (data : Input) : CIn :=
  ⟨svc.callWebServiceA data.A, svc.callWebServiceB data.B⟩

/-- The inductive invariant of `gatherAndProcess`. -/
structure Inv (eager : Bool) (svc : Services) (data : Input) (s : State) : Prop where
  outA_len : s.outA.length + s.rcvA = s.sentA
  outB_len : s.outB.length + s.rcvB = s.sentB
  inC_len : s.inC.length + s.callsC.length = s.sentInC
  outC_len : s.outC.length + s.rcvOutC = s.sentOutC
  c_le : s.sentOutC ≤ s.callsC.length
  join_a : s.sentInC ≤ s.rcvA
  join_b : s.sentInC ≤ s.rcvB
  in_le : s.sentInC ≤ 1
  rcv_le : s.lastRcv ≤ s.now
  outA_val : ∀ x ∈ s.outA, svc.callWebServiceA data.A = x
  outB_val : ∀ x ∈ s.outB, svc.callWebServiceB data.B = x
  inC_val : ∀ x ∈ s.inC, joinAB svc data = x
  calls : ∀ x ∈ s.callsC, joinAB svc data = x
  outC_val : ∀ c ∈ s.outC, joinedData (joinAB svc data) = c
  a_pc : match s.goA with
    | .ready => s.sentA = 0
    | .done => s.sentA = 1
  b_pc : match s.goB with
    | .ready => s.sentB = 0
    | .done => s.sentB = 1
  c_pc : match s.goC with
    | .absent => s.callsC = [] ∧ s.inC.length = s.sentInC
    | .recv => s.callsC = [] ∧ s.sentInC = 1
    | .send c => s.callsC.length = 1 ∧ s.sentOutC = 0 ∧ joinedData (joinAB svc data) = c
    | .done => s.callsC.length = 1 ∧ s.sentOutC = 1
  m_pc : match s.main with
    | .waitForAB i c timer =>
        s.rcvA + s.rcvB = c ∧ c < 2 ∧
        CIn.mk (if s.rcvA = 0 then AOut.zero else svc.callWebServiceA data.A)
               (if s.rcvB = 0 then BOut.zero else svc.callWebServiceB data.B) = i ∧
        s.sentInC = 0 ∧ s.rcvOutC = 0 ∧ s.joined = none ∧ s.goC = .absent ∧
        timer = s.lastRcv + timeout ∧ (c = 0 → s.lastRcv = 0) ∧
        (eager = true → s.now ≤ timer ∧ s.lastRcv ≤ timeout)
    | .handoff i =>
        joinAB svc data = i ∧ s.rcvA = 1 ∧ s.rcvB = 1 ∧ s.sentInC = 0 ∧ s.rcvOutC = 0 ∧
        s.joined = some (i, none) ∧ s.goC = .absent
    | .spawn =>
        s.rcvA = 1 ∧ s.rcvB = 1 ∧ s.sentInC = 1 ∧ s.rcvOutC = 0 ∧
        s.joined = some (joinAB svc data, none) ∧ s.goC = .absent
    | .waitForC timer =>
        s.rcvA = 1 ∧ s.rcvB = 1 ∧ s.sentInC = 1 ∧ s.rcvOutC = 0 ∧
        s.joined = some (joinAB svc data, none) ∧ s.goC ≠ .absent ∧
        (eager = true → s.now ≤ timer)
    | .returned out err =>
        (s.joined = some (CIn.zero, some errWaitForAB) ∧ out = COut.zero ∧
          err = some errWaitForAB ∧ s.sentInC = 0 ∧ s.rcvOutC = 0 ∧ s.rcvA + s.rcvB < 2 ∧
          s.goC = .absent ∧ (s.rcvA + s.rcvB = 0 → s.lastRcv = 0) ∧
          timeout ≤ s.retAt ∧ s.lastRcv + timeout ≤ s.retAt ∧
          (eager = true → s.retAt = s.lastRcv + timeout ∧ s.lastRcv ≤ timeout)) ∨
        (s.joined = some (joinAB svc data, none) ∧ s.rcvA = 1 ∧ s.rcvB = 1 ∧
          s.sentInC = 1 ∧ s.goC ≠ .absent ∧
          ((err = none ∧ out = joinedData (joinAB svc data) ∧ s.rcvOutC = 1) ∨
           (out = COut.zero ∧ err = some errWaitForC ∧ s.rcvOutC = 0)))

end Ex03

namespace Ex01

theorem inv_init (svc : Services) (data : Input) : Inv svc data init := by
  constructor <;> simp [init, CIn.zero, Coord.isReturned]

/-- The counting part of the invariant, for arithmetic. -/
theorem Inv.arith {svc : Services} {data : Input} {s : State} (h : Inv svc data s) :
    s.sentA + s.errA ≤ 1 ∧ s.sentB + s.errB ≤ 1 ∧
    s.outA.length + s.rcvA = s.sentA ∧ s.outB.length + s.rcvB = s.sentB ∧
    s.errs.length + s.rcvErr = s.errA + s.errB + s.errC ∧
    s.inC.length + s.callsC.length = s.sentInC ∧
    s.outC.length + s.rcvOutC = s.sentOutC ∧
    s.sentOutC + s.errC ≤ s.callsC.length ∧
    s.sentInC ≤ s.rcvA ∧ s.sentInC ≤ s.rcvB ∧ s.sentInC ≤ 1 ∧ s.polls ≤ 2 :=
  ⟨h.a_le, h.b_le, h.outA_len, h.outB_len, h.errs_len, h.inC_len, h.outC_len, h.c_le,
    h.join_a, h.join_b, h.in_le, h.polls_le⟩

theorem inv_deadline {svc : Services} {data : Input} {s t : State}
    (h : Inv svc data s) (hs : step svc data s .deadline = some t) : Inv svc data t := by
  simp only [step] at hs
  split at hs
  next hctx =>
    obtain rfl := Option.some.inj hs
    have hm := h.m_pc
    have hr := h.ctx_ret
    exact { h with
      c_idle := by simp
      ctx_ok := by simp
      ctx_ret := by simp
      m_pc := by
        simp only
        split <;> rename_i hM <;> rw [hM] at hm hr
        · exact hm
        · exact hm
        · exact hm
        · exact absurd hctx (hr rfl) }
  · cases hs

theorem inv_callerCancel {svc : Services} {data : Input} {s t : State}
    (h : Inv svc data s) (hs : step svc data s .callerCancel = some t) : Inv svc data t := by
  simp only [step] at hs
  split at hs
  next hctx =>
    obtain rfl := Option.some.inj hs
    have hm := h.m_pc
    have hr := h.ctx_ret
    exact { h with
      c_idle := by simp
      ctx_ok := by simp
      ctx_ret := by simp
      m_pc := by
        simp only
        split <;> rename_i hM <;> rw [hM] at hm hr
        · exact hm
        · exact hm
        · exact hm
        · exact absurd hctx (hr rfl) }
  · cases hs

theorem inv_callA {svc : Services} {data : Input} {s t : State}
    (h : Inv svc data s) (hs : step svc data s .callA = some t) : Inv svc data t := by
  simp only [step] at hs
  split at hs
  next hA =>
    have hpc := h.a_pc
    rw [hA] at hpc
    split at hs
    next e he =>
      obtain rfl := Option.some.inj hs
      exact { h with a_pc := by simpa [he] using hpc }
    next a ha =>
      obtain rfl := Option.some.inj hs
      exact { h with a_pc := by simpa [ha] using hpc }
  · cases hs

theorem inv_callB {svc : Services} {data : Input} {s t : State}
    (h : Inv svc data s) (hs : step svc data s .callB = some t) : Inv svc data t := by
  simp only [step] at hs
  split at hs
  next hB =>
    have hpc := h.b_pc
    rw [hB] at hpc
    split at hs
    next e he =>
      obtain rfl := Option.some.inj hs
      exact { h with b_pc := by simpa [he] using hpc }
    next b hb =>
      obtain rfl := Option.some.inj hs
      exact { h with b_pc := by simpa [hb] using hpc }
  · cases hs

theorem inv_deliverA {svc : Services} {data : Input} {s t : State}
    (h : Inv svc data s) (hs : step svc data s .deliverA = some t) : Inv svc data t := by
  obtain ⟨h1, h2, h3, h4, h5, h6, h7, h8, h9, h10, h11, h12⟩ := h.arith
  simp only [step, chanSend] at hs
  split at hs
  next e hA =>
    have hpc := h.a_pc
    rw [hA] at hpc
    split at hs
    · obtain rfl := Option.some.inj hs
      exact { h with
        a_le := by simp only; omega
        errs_len := by simp only [List.length_append, List.length_singleton]; omega
        a_ko := by simp [hpc.2]
        a_ok := by simp only; omega
        errs_val := by
          intro x hx
          simp only [List.mem_append, List.mem_singleton] at hx
          rcases hx with hx | rfl
          · exact h.errs_val x hx
          · exact Or.inl hpc.2
        a_pc := by simp only; omega }
    · cases hs
  next a hA =>
    have hpc := h.a_pc
    rw [hA] at hpc
    split at hs
    · obtain rfl := Option.some.inj hs
      exact { h with
        a_le := by simp only; omega
        outA_len := by simp only [List.length_append, List.length_singleton]; omega
        a_ok := by simp [hpc.2]
        a_ko := by simp only; omega
        outA_val := by
          intro x hx
          simp only [List.mem_append, List.mem_singleton] at hx
          rcases hx with hx | rfl
          · exact h.outA_val x hx
          · simp [hpc.2]
        a_pc := by simp only; omega }
    · cases hs
  · cases hs

theorem inv_deliverB {svc : Services} {data : Input} {s t : State}
    (h : Inv svc data s) (hs : step svc data s .deliverB = some t) : Inv svc data t := by
  obtain ⟨h1, h2, h3, h4, h5, h6, h7, h8, h9, h10, h11, h12⟩ := h.arith
  simp only [step, chanSend] at hs
  split at hs
  next e hB =>
    have hpc := h.b_pc
    rw [hB] at hpc
    split at hs
    · obtain rfl := Option.some.inj hs
      exact { h with
        b_le := by simp only; omega
        errs_len := by simp only [List.length_append, List.length_singleton]; omega
        b_ko := by simp [hpc.2]
        b_ok := by simp only; omega
        errs_val := by
          intro x hx
          simp only [List.mem_append, List.mem_singleton] at hx
          rcases hx with hx | rfl
          · exact h.errs_val x hx
          · exact Or.inr (Or.inl hpc.2)
        b_pc := by simp only; omega }
    · cases hs
  next b hB =>
    have hpc := h.b_pc
    rw [hB] at hpc
    split at hs
    · obtain rfl := Option.some.inj hs
      exact { h with
        b_le := by simp only; omega
        outB_len := by simp only [List.length_append, List.length_singleton]; omega
        b_ok := by simp [hpc.2]
        b_ko := by simp only; omega
        outB_val := by
          intro x hx
          simp only [List.mem_append, List.mem_singleton] at hx
          rcases hx with hx | rfl
          · exact h.outB_val x hx
          · simp [hpc.2]
        b_pc := by simp only; omega }
    · cases hs
  · cases hs

theorem inv_cDone {svc : Services} {data : Input} {s t : State}
    (h : Inv svc data s) (hs : step svc data s .cDone = some t) : Inv svc data t := by
  obtain ⟨h1, h2, h3, h4, h5, h6, h7, h8, h9, h10, h11, h12⟩ := h.arith
  simp only [step] at hs
  split at hs
  next hC hctx =>
    have hpc := h.c_pc
    rw [hC] at hpc
    obtain rfl := Option.some.inj hs
    simp only at hpc
    exact { h with
      c_pc := by simp only [hpc, List.length_nil] at h8 ⊢; omega
      c_idle := by simp [hctx] }
  · cases hs

theorem inv_cRecv {svc : Services} {data : Input} {s t : State}
    (h : Inv svc data s) (hs : step svc data s .cRecv = some t) : Inv svc data t := by
  obtain ⟨h1, h2, h3, h4, h5, h6, h7, h8, h9, h10, h11, h12⟩ := h.arith
  simp only [step] at hs
  split at hs
  next inputC rest hC hin =>
    have hpc := h.c_pc
    rw [hC] at hpc
    simp only at hpc
    have hJ : joinAB svc data = inputC := h.inC_val inputC (by simp [hin])
    have hval : ∀ x ∈ rest, joinAB svc data = x := fun x hx => h.inC_val x (by simp [hin, hx])
    simp only [hpc, hin, List.length_nil, List.length_cons] at h6 h8
    split at hs
    next e he =>
      obtain rfl := Option.some.inj hs
      exact { h with
        inC_len := by simp only [hpc, List.length_cons, List.length_nil]; omega
        c_le := by simp only [List.length_cons]; omega
        inC_val := hval
        calls := by simp [hpc, hJ]
        c_idle := by simp
        c_pc := ⟨by simp only; omega, by simp [hpc], by simp [resC, hJ, he]⟩ }
    next c hc =>
      obtain rfl := Option.some.inj hs
      exact { h with
        inC_len := by simp only [hpc, List.length_cons, List.length_nil]; omega
        c_le := by simp only [List.length_cons]; omega
        inC_val := hval
        calls := by simp [hpc, hJ]
        c_idle := by simp
        c_pc := ⟨by simp only; omega, by simp [hpc], by simp [resC, hJ, hc]⟩ }
  · cases hs

theorem inv_deliverC {svc : Services} {data : Input} {s t : State}
    (h : Inv svc data s) (hs : step svc data s .deliverC = some t) : Inv svc data t := by
  obtain ⟨h1, h2, h3, h4, h5, h6, h7, h8, h9, h10, h11, h12⟩ := h.arith
  simp only [step, chanSend] at hs
  split at hs
  next e hC =>
    have hpc := h.c_pc
    rw [hC] at hpc
    split at hs
    · obtain rfl := Option.some.inj hs
      exact { h with
        c_le := by simp only; omega
        errs_len := by simp only [List.length_append, List.length_singleton]; omega
        c_ko := by simp [hpc.2.2]
        c_ok := by simp only; omega
        errs_val := by
          intro x hx
          simp only [List.mem_append, List.mem_singleton] at hx
          rcases hx with hx | rfl
          · rcases h.errs_val x hx with hx | hx | hx
            · exact Or.inl hx
            · exact Or.inr (Or.inl hx)
            · exact Or.inr (Or.inr ⟨by simp, hx.2⟩)
          · exact Or.inr (Or.inr ⟨by simp, hpc.2.2⟩)
        c_idle := by
          intro _ hnil
          have hlen := hpc.2.1
          simp only at hnil
          rw [hnil] at hlen
          cases hlen
        c_pc := by simp only; omega }
    · cases hs
  next c hC =>
    have hpc := h.c_pc
    rw [hC] at hpc
    split at hs
    · obtain rfl := Option.some.inj hs
      exact { h with
        c_le := by simp only; omega
        outC_len := by simp only [List.length_append, List.length_singleton]; omega
        c_ok := by simp [hpc.2.2]
        c_ko := by simp only; omega
        outC_val := by
          intro x hx
          simp only [List.mem_append, List.mem_singleton] at hx
          rcases hx with hx | rfl
          · exact h.outC_val x hx
          · exact hpc.2.2
        c_idle := by
          intro _ hnil
          have hlen := hpc.2.1
          simp only at hnil
          rw [hnil] at hlen
          cases hlen
        c_pc := by simp only; omega }
    · cases hs
  · cases hs

theorem inv_abRecvA {svc : Services} {data : Input} {s t : State}
    (h : Inv svc data s) (hs : step svc data s .abRecvA = some t) : Inv svc data t := by
  obtain ⟨h1, h2, h3, h4, h5, h6, h7, h8, h9, h10, h11, h12⟩ := h.arith
  simp only [step] at hs
  split at hs
  next inputC count a rest hM hout =>
    have hpc := h.m_pc
    rw [hM] at hpc
    obtain ⟨p1, p2, p3, p4, p5, p6, p7, p8⟩ := hpc
    have hctx := h.ctx_ok
    simp only [hM, Coord.isReturned, Bool.false_eq_true, false_or] at hctx
    have ha : (resA svc data).1 = a := h.outA_val a (by simp [hout])
    have hval : ∀ x ∈ rest, (resA svc data).1 = x :=
      fun x hx => h.outA_val x (by simp [hout, hx])
    simp only [hout, List.length_cons] at h3
    obtain rfl := Option.some.inj hs
    simp only [abNext]
    split
    · exact { h with
        outA_len := by simp only; omega
        join_a := by simp only; omega
        polls_le := by simp only; omega
        outA_val := hval
        ctx_ok := by simp only [Coord.isReturned, Bool.false_eq_true, false_or]; exact hctx
        ctx_ret := by simp [Coord.isReturned]
        m_pc := by
          refine ⟨by simp only; omega, by omega, by simp only; omega, ?_, p5, p6, p7, p8⟩
          subst p4
          simp [ha] }
    · exact { h with
        outA_len := by simp only; omega
        join_a := by simp only; omega
        polls_le := by simp only; omega
        outA_val := hval
        ctx_ok := by simp only [Coord.isReturned, Bool.false_eq_true, false_or]; exact hctx
        ctx_ret := by simp [Coord.isReturned]
        m_pc := by
          have hb : s.rcvB = 1 := by omega
          refine ⟨?_, by simp only; omega, hb, by simp only; omega, p5, p6, p7, rfl⟩
          subst p4
          simp [ha, hb] }
  · cases hs

theorem inv_abRecvB {svc : Services} {data : Input} {s t : State}
    (h : Inv svc data s) (hs : step svc data s .abRecvB = some t) : Inv svc data t := by
  obtain ⟨h1, h2, h3, h4, h5, h6, h7, h8, h9, h10, h11, h12⟩ := h.arith
  simp only [step] at hs
  split at hs
  next inputC count b rest hM hout =>
    have hpc := h.m_pc
    rw [hM] at hpc
    obtain ⟨p1, p2, p3, p4, p5, p6, p7, p8⟩ := hpc
    have hctx := h.ctx_ok
    simp only [hM, Coord.isReturned, Bool.false_eq_true, false_or] at hctx
    have ha : (resB svc data).1 = b := h.outB_val b (by simp [hout])
    have hval : ∀ x ∈ rest, (resB svc data).1 = x :=
      fun x hx => h.outB_val x (by simp [hout, hx])
    simp only [hout, List.length_cons] at h4
    obtain rfl := Option.some.inj hs
    simp only [abNext]
    split
    · exact { h with
        outB_len := by simp only; omega
        join_b := by simp only; omega
        polls_le := by simp only; omega
        outB_val := hval
        ctx_ok := by simp only [Coord.isReturned, Bool.false_eq_true, false_or]; exact hctx
        ctx_ret := by simp [Coord.isReturned]
        m_pc := by
          refine ⟨by simp only; omega, by omega, by simp only; omega, ?_, p5, p6, p7, p8⟩
          subst p4
          simp [ha] }
    · exact { h with
        outB_len := by simp only; omega
        join_b := by simp only; omega
        polls_le := by simp only; omega
        outB_val := hval
        ctx_ok := by simp only [Coord.isReturned, Bool.false_eq_true, false_or]; exact hctx
        ctx_ret := by simp [Coord.isReturned]
        m_pc := by
          have hb : s.rcvA = 1 := by omega
          refine ⟨?_, hb, by simp only; omega, by simp only; omega, p5, p6, p7, rfl⟩
          subst p4
          simp [ha, hb] }
  · cases hs

theorem inv_abRecvErr {svc : Services} {data : Input} {s t : State}
    (h : Inv svc data s) (hs : step svc data s .abRecvErr = some t) : Inv svc data t := by
  obtain ⟨h1, h2, h3, h4, h5, h6, h7, h8, h9, h10, h11, h12⟩ := h.arith
  simp only [step] at hs
  split at hs
  next inputC count err rest hM herr =>
    have hpc := h.m_pc
    rw [hM] at hpc
    obtain ⟨p1, p2, p3, p4, p5, p6, p7, p8⟩ := hpc
    have hctx := h.ctx_ok
    simp only [hM, Coord.isReturned, Bool.false_eq_true, false_or] at hctx
    have he := h.errs_val err (by simp [herr])
    have hval : ∀ x ∈ rest, _ := fun x hx => h.errs_val x (by simp [herr, hx])
    simp only [herr, List.length_cons] at h5
    obtain rfl := Option.some.inj hs
    simp only [abFail, ret]
    exact { h with
      errs_len := by simp only; omega
      polls_le := by simp only; omega
      errs_val := hval
      ctx_ok := by
        simp only
        rcases hctx with hc | hc | ⟨hc, _⟩ <;> simp [hc, Coord.isReturned]
      ctx_ret := by simp
      c_idle := by simp
      m_pc := by
        refine Or.inl ⟨err, rfl, rfl, rfl, p5, p7, by simp only; omega, Or.inr ⟨by simp only; omega, ?_⟩⟩
        rcases he with he | he | he
        · exact Or.inl he
        · exact Or.inr he
        · omega }
  · cases hs

theorem inv_abDone {svc : Services} {data : Input} {s t : State}
    (h : Inv svc data s) (hs : step svc data s .abDone = some t) : Inv svc data t := by
  obtain ⟨h1, h2, h3, h4, h5, h6, h7, h8, h9, h10, h11, h12⟩ := h.arith
  simp only [step] at hs
  split at hs
  next inputC count e hM he =>
    have hpc := h.m_pc
    rw [hM] at hpc
    obtain ⟨p1, p2, p3, p4, p5, p6, p7, p8⟩ := hpc
    have hctx := h.ctx_ok
    simp only [hM, Coord.isReturned, Bool.false_eq_true, he,
      Option.some.injEq, reduceCtorEq, false_or] at hctx
    obtain rfl := Option.some.inj hs
    simp only [abFail, ret]
    exact { h with
      polls_le := by simp only; omega
      ctx_ok := by rcases hctx with hc | ⟨hc, _⟩ <;> simp [he, hc, Coord.isReturned]
      ctx_ret := by simp
      c_idle := by simp
      m_pc := Or.inl ⟨e, rfl, rfl, rfl, p5, p7, by simp only; omega,
        Or.inl ⟨p6, by simp [he], hctx⟩⟩ }
  · cases hs

theorem inv_handoff {svc : Services} {data : Input} {s t : State}
    (h : Inv svc data s) (hs : step svc data s .handoff = some t) : Inv svc data t := by
  obtain ⟨h1, h2, h3, h4, h5, h6, h7, h8, h9, h10, h11, h12⟩ := h.arith
  simp only [step, chanSend] at hs
  split at hs
  next inputC hM =>
    have hpc := h.m_pc
    rw [hM] at hpc
    obtain ⟨p1, p2, p3, p4, p5, p6, p7, p8⟩ := hpc
    have hctx := h.ctx_ok
    simp only [hM, Coord.isReturned, Bool.false_eq_true, false_or] at hctx
    split at hs
    · obtain rfl := Option.some.inj hs
      exact { h with
        inC_len := by simp only [List.length_append, List.length_singleton]; omega
        join_a := by simp only; omega
        join_b := by simp only; omega
        in_le := by simp only; omega
        inC_val := by
          intro x hx
          simp only [List.mem_append, List.mem_singleton] at hx
          rcases hx with hx | rfl
          · exact h.inC_val x hx
          · exact p1
        ctx_ok := by simp only [Coord.isReturned, Bool.false_eq_true, false_or]; exact hctx
        ctx_ret := by simp [Coord.isReturned]
        m_pc := ⟨p2, p3, p4, by simp only; omega, p6, p7, by simp only [p8, p1]⟩ }
    · cases hs
  · cases hs

theorem inv_wcRecvOut {svc : Services} {data : Input} {s t : State}
    (h : Inv svc data s) (hs : step svc data s .wcRecvOut = some t) : Inv svc data t := by
  obtain ⟨h1, h2, h3, h4, h5, h6, h7, h8, h9, h10, h11, h12⟩ := h.arith
  simp only [step] at hs
  split at hs
  next c rest hM hout =>
    have hpc := h.m_pc
    rw [hM] at hpc
    obtain ⟨p1, p2, p3, p4, p5, p6, p7⟩ := hpc
    have hctx := h.ctx_ok
    simp only [hM, Coord.isReturned, Bool.false_eq_true, false_or] at hctx
    have hc := h.outC_val c (by simp [hout])
    have hval : ∀ x ∈ rest, _ := fun x hx => h.outC_val x (by simp [hout, hx])
    simp only [hout, List.length_cons] at h7
    obtain rfl := Option.some.inj hs
    simp only [ret]
    exact { h with
      outC_len := by simp only; omega
      outC_val := hval
      ctx_ok := by
        simp only
        rcases hctx with hc | hc | ⟨hc, _⟩ <;> simp [hc, Coord.isReturned]
      ctx_ret := by simp
      c_idle := by simp
      m_pc := Or.inr ⟨p7, p1, p2, p3, p4, Or.inl ⟨rfl, by simp only; omega, p5, hc⟩⟩ }
  · cases hs

theorem inv_wcRecvErr {svc : Services} {data : Input} {s t : State}
    (h : Inv svc data s) (hs : step svc data s .wcRecvErr = some t) : Inv svc data t := by
  obtain ⟨h1, h2, h3, h4, h5, h6, h7, h8, h9, h10, h11, h12⟩ := h.arith
  simp only [step] at hs
  split at hs
  next err rest hM herr =>
    have hpc := h.m_pc
    rw [hM] at hpc
    obtain ⟨p1, p2, p3, p4, p5, p6, p7⟩ := hpc
    have hctx := h.ctx_ok
    simp only [hM, Coord.isReturned, Bool.false_eq_true, false_or] at hctx
    have he := h.errs_val err (by simp [herr])
    have hval : ∀ x ∈ rest, _ := fun x hx => h.errs_val x (by simp [herr, hx])
    have hA := h.a_ok (by omega)
    have hB := h.b_ok (by omega)
    simp only [herr, List.length_cons] at h5
    obtain rfl := Option.some.inj hs
    simp only [ret]
    exact { h with
      errs_len := by simp only; omega
      errs_val := hval
      ctx_ok := by
        simp only
        rcases hctx with hc | hc | ⟨hc, _⟩ <;> simp [hc, Coord.isReturned]
      ctx_ret := by simp
      c_idle := by simp
      m_pc := by
        refine Or.inr ⟨p7, p1, p2, p3, p4, Or.inr (Or.inl ⟨rfl, p6, by simp only; omega, ?_⟩)⟩
        rcases he with he | he | he
        · rw [hA] at he; cases he
        · rw [hB] at he; cases he
        · simp [he.2] }
  · cases hs

theorem inv_wcDone {svc : Services} {data : Input} {s t : State}
    (h : Inv svc data s) (hs : step svc data s .wcDone = some t) : Inv svc data t := by
  simp only [step] at hs
  split at hs
  next e hM he =>
    have hpc := h.m_pc
    rw [hM] at hpc
    obtain ⟨p1, p2, p3, p4, p5, p6, p7⟩ := hpc
    have hctx := h.ctx_ok
    simp only [hM, Coord.isReturned, Bool.false_eq_true, he,
      Option.some.injEq, reduceCtorEq, false_or] at hctx
    obtain rfl := Option.some.inj hs
    simp only [ret]
    exact { h with
      ctx_ok := by rcases hctx with hc | ⟨hc, _⟩ <;> simp [he, hc, Coord.isReturned]
      ctx_ret := by simp
      c_idle := by simp
      m_pc := Or.inr ⟨p7, p1, p2, p3, p4,
        Or.inr (Or.inr ⟨rfl, p6, p5, rfl, by
          rcases hctx with hc | ⟨hc, hcc⟩
          · exact Or.inl (by simp [he, hc])
          · exact Or.inr ⟨by simp [he, hc], hcc⟩⟩)⟩ }
  · cases hs

/-- Every scheduler action preserves the invariant. -/
theorem inv_step {svc : Services} {data : Input} {s t : State} {a : Action}
    (h : Inv svc data s) (hs : step svc data s a = some t) : Inv svc data t := by
  cases a
  · exact inv_deadline h hs
  · exact inv_callerCancel h hs
  · exact inv_callA h hs
  · exact inv_deliverA h hs
  · exact inv_callB h hs
  · exact inv_deliverB h hs
  · exact inv_cDone h hs
  · exact inv_cRecv h hs
  · exact inv_deliverC h hs
  · exact inv_abRecvA h hs
  · exact inv_abRecvB h hs
  · exact inv_abRecvErr h hs
  · exact inv_abDone h hs
  · exact inv_handoff h hs
  · exact inv_wcRecvOut h hs
  · exact inv_wcRecvErr h hs
  · exact inv_wcDone h hs

/-- The invariant holds along every schedule. -/
theorem inv_run {svc : Services} {data : Input} (as : List Action) {s t : State}
    (h : Inv svc data s) (hr : run svc data s as = some t) : Inv svc data t := by
  induction as generalizing s with
  | nil => simp only [run, Option.some.injEq] at hr; exact hr ▸ h
  | cons a as ih =>
    simp only [run] at hr
    cases hstep : step svc data s a with
    | none => rw [hstep] at hr; cases hr
    | some u => rw [hstep] at hr; exact ih (inv_step h hstep) hr

/-- Every state reached from the initial one satisfies the invariant. -/
theorem inv_reach {svc : Services} {data : Input} {as : List Action} {s : State}
    (hr : run svc data init as = some s) : Inv svc data s :=
  inv_run as (inv_init svc data) hr

end Ex01

namespace Ex01

theorem run_append (svc : Services) (data : Input) (as bs : List Action) (s : State) :
    run svc data s (as ++ bs) = (run svc data s as).bind fun t => run svc data t bs := by
  induction as generalizing s with
  | nil => simp [run]
  | cons a as ih =>
    simp only [List.cons_append, run]
    cases step svc data s a with
    | none => simp
    | some u => simpa using ih u

/-- A state reached from a reachable state is reachable. -/
theorem inv_ext {svc : Services} {data : Input} {as bs : List Action} {s t : State}
    (hr : run svc data init as = some s) (he : run svc data s bs = some t) :
    Inv svc data t :=
  inv_run bs (inv_reach hr) he

/-- What the invariant says once `waitForAB` has returned a joined value. -/
theorem Inv.joined_ok {svc : Services} {data : Input} {s : State} (h : Inv svc data s)
    {cin : CIn} (hj : s.joined = some (cin, none)) :
    cin = joinAB svc data ∧ s.rcvA = 1 ∧ s.rcvB = 1 ∧ s.polls = 2 ∧
    s.sentA = 1 ∧ s.sentB = 1 ∧ (resA svc data).2 = none ∧ (resB svc data).2 = none := by
  obtain ⟨h1, h2, h3, h4, h5, h6, h7, h8, h9, h10, h11, h12⟩ := h.arith
  have hm := h.m_pc
  have key : cin = joinAB svc data ∧ s.rcvA = 1 ∧ s.rcvB = 1 ∧ s.polls = 2 := by
    split at hm
    · rw [hm.2.2.2.2.2.2.2] at hj; cases hj
    · obtain ⟨p1, p2, p3, p4, p5, p6, p7, p8⟩ := hm
      rw [p8] at hj
      cases hj
      exact ⟨p1.symm, p2, p3, p4⟩
    · obtain ⟨p1, p2, p3, p4, p5, p6, p7⟩ := hm
      rw [p7] at hj
      cases hj
      exact ⟨rfl, p1, p2, p3⟩
    · rcases hm with ⟨e, p1, _⟩ | ⟨p1, p2, p3, p4, _⟩
      · rw [p1] at hj; cases hj
      · rw [p1] at hj
        cases hj
        exact ⟨rfl, p2, p3, p4⟩
  obtain ⟨k1, k2, k3, k4⟩ := key
  have hA : s.sentA = 1 := by omega
  have hB : s.sentB = 1 := by omega
  exact ⟨k1, k2, k3, k4, hA, hB, h.a_ok hA, h.b_ok hB⟩

/-- What the invariant says once `waitForAB` has returned an error. -/
theorem Inv.joined_err {svc : Services} {data : Input} {s : State} (h : Inv svc data s)
    {cin : CIn} {e : GoError} (hj : s.joined = some (cin, some e)) :
    cin = CIn.zero ∧ s.main = .returned COut.zero (some e) ∧ s.sentInC = 0 ∧
    s.rcvA + s.rcvB < 2 ∧ s.rcvOutC = 0 ∧
    ((s.rcvErr = 0 ∧ s.ctx = some e ∧
        (e = .deadlineExceeded ∨ (e = .canceled ∧ s.cancelled = true))) ∨
     (s.rcvErr = 1 ∧ ((resA svc data).2 = some e ∨ (resB svc data).2 = some e))) := by
  have hm := h.m_pc
  split at hm
  · rw [hm.2.2.2.2.2.2.2] at hj; cases hj
  · rw [hm.2.2.2.2.2.2.2] at hj; cases hj
  · rw [hm.2.2.2.2.2.2] at hj; cases hj
  next out err hM =>
    rcases hm with ⟨e', p1, p2, p3, p4, p5, p6, p7⟩ | ⟨p1, _⟩
    · rw [p1] at hj
      cases hj
      exact ⟨rfl, by rw [hM, p2, p3], p4, p6, p5, p7⟩
    · rw [p1] at hj; cases hj

/-- Once `GatherAndProcess` has returned, no action changes its result or what
`waitForAB` returned. -/
theorem returned_stable {svc : Services} {data : Input} {s t : State} {a : Action}
    {out : COut} {err : Option GoError} (hm : s.main = .returned out err)
    (hs : step svc data s a = some t) :
    t.main = .returned out err ∧ t.joined = s.joined := by
  cases a <;> simp only [step, chanSend, hm] at hs <;>
    first
    | exact Option.noConfusion hs
    | (split at hs <;> first
        | exact Option.noConfusion hs
        | (obtain rfl := Option.some.inj hs; exact ⟨rfl, rfl⟩)
        | (split at hs <;> first
            | exact Option.noConfusion hs
            | (obtain rfl := Option.some.inj hs; exact ⟨rfl, rfl⟩)))

theorem returned_stable_run {svc : Services} {data : Input} (as : List Action)
    {s t : State} {out : COut} {err : Option GoError} (hm : s.main = .returned out err)
    (hr : run svc data s as = some t) :
    t.main = .returned out err ∧ t.joined = s.joined := by
  induction as generalizing s with
  | nil => simp only [run, Option.some.injEq] at hr; subst hr; exact ⟨hm, rfl⟩
  | cons a as ih =>
    simp only [run] at hr
    cases hstep : step svc data s a with
    | none => rw [hstep] at hr; cases hr
    | some u =>
      rw [hstep] at hr
      obtain ⟨h1, h2⟩ := returned_stable hm hstep
      obtain ⟨h3, h4⟩ := ih h1 hr
      exact ⟨h3, h4.trans h2⟩

/-- Every action consumes fuel: no schedule is longer than `fuel init = 12`. -/
theorem fuel_step {svc : Services} {data : Input} {s t : State} {a : Action}
    (hs : step svc data s a = some t) : fuel t < fuel s := by
  cases a <;> simp only [step, chanSend] at hs <;> (repeat' split at hs) <;>
    first
    | exact Option.noConfusion hs
    | (obtain rfl := Option.some.inj hs
       simp only [fuel, stageFuel, coordFuel, abNext, abFail, ret, *]
       first
       | omega
       | (split <;> simp <;> omega)
       | (split_ifs <;> simp only [coordFuel, *] <;> omega))

theorem fuel_run {svc : Services} {data : Input} (as : List Action) {s t : State}
    (hr : run svc data s as = some t) : as.length + fuel t ≤ fuel s := by
  induction as generalizing s with
  | nil => simp only [run, Option.some.injEq] at hr; subst hr; simp
  | cons a as ih =>
    simp only [run] at hr
    cases hstep : step svc data s a with
    | none => rw [hstep] at hr; cases hr
    | some u =>
      rw [hstep] at hr
      have := ih hr
      have := fuel_step hstep
      simp only [List.length_cons]
      omega

/-- Whoever stands at a send can perform it: the buffer has a free slot. -/
theorem Inv.send_enabled {svc : Services} {data : Input} {s : State} (h : Inv svc data s) :
    (s.goA ≠ .ready ∧ s.goA ≠ .done → (step svc data s .deliverA).isSome) ∧
    (s.goB ≠ .ready ∧ s.goB ≠ .done → (step svc data s .deliverB).isSome) ∧
    (s.goC ≠ .ready ∧ s.goC ≠ .done → (step svc data s .deliverC).isSome) ∧
    (∀ inputC, s.main = .handoff inputC → (step svc data s .handoff).isSome) := by
  obtain ⟨h1, h2, h3, h4, h5, h6, h7, h8, h9, h10, h11, h12⟩ := h.arith
  have hA := h.a_pc
  have hB := h.b_pc
  have hC := h.c_pc
  refine ⟨?_, ?_, ?_, ?_⟩
  · rintro ⟨n1, n2⟩
    simp only [step, chanSend]
    split at hA
    · rename_i hg; exact absurd hg n1
    · rename_i a hg
      rw [hg]
      have : s.outA.length < 1 := by omega
      simp [this]
    · rename_i e hg
      rw [hg]
      have : s.errs.length < 2 := by omega
      simp [this]
    · rename_i hg; exact absurd hg n2
  · rintro ⟨n1, n2⟩
    simp only [step, chanSend]
    split at hB
    · rename_i hg; exact absurd hg n1
    · rename_i b hg
      rw [hg]
      have : s.outB.length < 1 := by omega
      simp [this]
    · rename_i e hg
      rw [hg]
      have : s.errs.length < 2 := by omega
      simp [this]
    · rename_i hg; exact absurd hg n2
  · rintro ⟨n1, n2⟩
    simp only [step, chanSend]
    split at hC
    · rename_i hg; exact absurd hg n1
    · rename_i c hg
      rw [hg]
      have : s.outC.length < 1 := by omega
      simp [this]
    · rename_i e hg
      rw [hg]
      have : s.errs.length < 2 := by omega
      simp [this]
    · rename_i hg; exact absurd hg n2
  · intro inputC hM
    have hm := h.m_pc
    rw [hM] at hm
    simp only [step, chanSend, hM]
    have : s.inC.length < 1 := by omega
    simp [this]

/-- Actions other than the deadline leave `ctx.Done()` open until the coordinator
returns. -/
theorem open_step {svc : Services} {data : Input} {s t : State} {a : Action}
    (hne : a ≠ .deadline) (hnc : a ≠ .callerCancel)
    (ho : s.ctx = none ∨ s.main.isReturned = true)
    (hs : step svc data s a = some t) : t.ctx = none ∨ t.main.isReturned = true := by
  rcases ho with ho | ho
  · cases a <;> simp only [step, chanSend] at hs <;> (repeat' split at hs) <;>
      first
      | exact Option.noConfusion hs
      | exact absurd rfl hne
      | exact absurd rfl hnc
      | (obtain rfl := Option.some.inj hs
         first
         | exact Or.inl ho
         | exact Or.inr rfl
         | (left; simp only [abNext]; split <;> exact ho))
  · cases hm : s.main with
    | returned out err => exact Or.inr (by rw [(returned_stable hm hs).1]; rfl)
    | waitForAB i c => rw [hm] at ho; cases ho
    | handoff i => rw [hm] at ho; cases ho
    | waitForC => rw [hm] at ho; cases ho

theorem open_run {svc : Services} {data : Input} (as : List Action) {s t : State}
    (hne : Action.deadline ∉ as) (hnc : Action.callerCancel ∉ as)
    (ho : s.ctx = none ∨ s.main.isReturned = true)
    (hr : run svc data s as = some t) : t.ctx = none ∨ t.main.isReturned = true := by
  induction as generalizing s with
  | nil => simp only [run, Option.some.injEq] at hr; subst hr; exact ho
  | cons a as ih =>
    simp only [run] at hr
    simp only [List.mem_cons, not_or] at hne hnc
    cases hstep : step svc data s a with
    | none => rw [hstep] at hr; cases hr
    | some u =>
      rw [hstep] at hr
      exact ih hne.2 hnc.2
        (open_step (fun h => hne.1 h.symm) (fun h => hnc.1 h.symm) ho hstep) hr

/-- With the three calls succeeding and `ctx.Done()` open, some goroutine can always move
until the coordinator has returned. -/
theorem progress {svc : Services} {data : Input} {s : State} (h : Inv svc data s)
    (hA : (resA svc data).2 = none) (hB : (resB svc data).2 = none)
    (hC : (resC svc data).2 = none) (hctx : s.ctx = none)
    (hm : s.main.isReturned = false) :
    ∃ a t, (a ≠ Action.deadline ∧ a ≠ Action.callerCancel) ∧
      step svc data s a = some t := by
  obtain ⟨h1, h2, h3, h4, h5, h6, h7, h8, h9, h10, h11, h12⟩ := h.arith
  obtain ⟨eA, eB, eC, eH⟩ := h.send_enabled
  have pA := h.a_pc
  have pB := h.b_pc
  have pC := h.c_pc
  have pM := h.m_pc
  have kA := h.a_ko
  have kB := h.b_ko
  have kC := h.c_ko
  by_cases gA1 : s.goA = .ready
  · refine ⟨.callA, ?_⟩
    simp only [step, gA1]
    split <;> exact ⟨_, ⟨by decide, by decide⟩, rfl⟩
  by_cases gA2 : s.goA = .done
  swap
  · have := eA ⟨gA1, gA2⟩
    obtain ⟨t, ht⟩ := Option.isSome_iff_exists.mp this
    exact ⟨.deliverA, t, ⟨by decide, by decide⟩, ht⟩
  by_cases gB1 : s.goB = .ready
  · refine ⟨.callB, ?_⟩
    simp only [step, gB1]
    split <;> exact ⟨_, ⟨by decide, by decide⟩, rfl⟩
  by_cases gB2 : s.goB = .done
  swap
  · have := eB ⟨gB1, gB2⟩
    obtain ⟨t, ht⟩ := Option.isSome_iff_exists.mp this
    exact ⟨.deliverB, t, ⟨by decide, by decide⟩, ht⟩
  rw [gA2] at pA
  rw [gB2] at pB
  simp only at pA pB
  have sA : s.sentA = 1 := by
    by_cases hx : s.errA = 1
    · exact absurd hA (kA hx)
    · omega
  have sB : s.sentB = 1 := by
    by_cases hx : s.errB = 1
    · exact absurd hB (kB hx)
    · omega
  cases hM : s.main with
  | returned out err => rw [hM] at hm; cases hm
  | handoff i =>
    obtain ⟨t, ht⟩ := Option.isSome_iff_exists.mp (eH i hM)
    exact ⟨.handoff, t, ⟨by decide, by decide⟩, ht⟩
  | waitForAB i c =>
    rw [hM] at pM
    obtain ⟨p1, p2, _⟩ := pM
    by_cases hr : s.rcvA = 0
    · cases hout : s.outA with
      | nil => rw [hout] at h3; simp only [List.length_nil] at h3; omega
      | cons x rest =>
        refine ⟨.abRecvA, ?_⟩
        simp only [step, hM, hout]
        exact ⟨_, ⟨by decide, by decide⟩, rfl⟩
    · cases hout : s.outB with
      | nil => rw [hout] at h4; simp only [List.length_nil] at h4; omega
      | cons x rest =>
        refine ⟨.abRecvB, ?_⟩
        simp only [step, hM, hout]
        exact ⟨_, ⟨by decide, by decide⟩, rfl⟩
  | waitForC =>
    rw [hM] at pM
    obtain ⟨p1, p2, p3, p4, p5, p6, p7⟩ := pM
    by_cases gC1 : s.goC = .ready
    · rw [gC1] at pC
      simp only at pC
      rw [pC] at h6
      cases hin : s.inC with
      | nil => rw [hin] at h6; simp only [List.length_nil] at h6; omega
      | cons x rest =>
        refine ⟨.cRecv, ?_⟩
        simp only [step, gC1, hin]
        split <;> exact ⟨_, ⟨by decide, by decide⟩, rfl⟩
    by_cases gC2 : s.goC = .done
    swap
    · obtain ⟨t, ht⟩ := Option.isSome_iff_exists.mp (eC ⟨gC1, gC2⟩)
      exact ⟨.deliverC, t, ⟨by decide, by decide⟩, ht⟩
    rw [gC2] at pC
    simp only at pC
    have hcalls : s.callsC ≠ [] := fun hnil => h.c_idle gC2 hnil hctx
    have hlen : 0 < s.callsC.length := List.length_pos.mpr hcalls
    have sC : s.sentOutC = 1 := by
      by_cases hx : s.errC = 1
      · exact absurd hC (kC hx)
      · omega
    cases hout : s.outC with
    | nil => rw [hout] at h7; simp only [List.length_nil] at h7; omega
    | cons x rest =>
      refine ⟨.wcRecvOut, ?_⟩
      simp only [step, hM, hout]
      exact ⟨_, ⟨by decide, by decide⟩, rfl⟩

/-- With the three calls succeeding, every state reached without the deadline firing can
be continued, without the deadline firing, until the coordinator has returned. -/
theorem exists_finish {svc : Services} {data : Input}
    (hA : (resA svc data).2 = none) (hB : (resB svc data).2 = none)
    (hC : (resC svc data).2 = none) (n : Nat) :
    ∀ s : State, fuel s ≤ n → Inv svc data s → (s.ctx = none ∨ s.main.isReturned = true) →
      ∃ bs t, (Action.deadline ∉ bs ∧ Action.callerCancel ∉ bs) ∧
        run svc data s bs = some t ∧ t.main.isReturned = true := by
  induction n with
  | zero =>
    intro s hf h ho
    by_cases hm : s.main.isReturned = true
    · exact ⟨[], s, ⟨by simp, by simp⟩, rfl, hm⟩
    · have hm' : s.main.isReturned = false := by simpa using hm
      have hctx : s.ctx = none := ho.resolve_right hm
      obtain ⟨a, t, _, hs⟩ := progress h hA hB hC hctx hm'
      have := fuel_step hs
      omega
  | succ n ih =>
    intro s hf h ho
    by_cases hm : s.main.isReturned = true
    · exact ⟨[], s, ⟨by simp, by simp⟩, rfl, hm⟩
    · have hm' : s.main.isReturned = false := by simpa using hm
      have hctx : s.ctx = none := ho.resolve_right hm
      obtain ⟨a, t, ⟨hne, hnc⟩, hs⟩ := progress h hA hB hC hctx hm'
      have hlt := fuel_step hs
      obtain ⟨bs, u, ⟨hbs, hbc⟩, hru, hu⟩ :=
        ih t (by omega) (inv_step h hs) (open_step hne hnc (Or.inl hctx) hs)
      refine ⟨a :: bs, u, ⟨?_, ?_⟩, ?_, hu⟩
      · simp only [List.mem_cons, not_or]
        exact ⟨fun h => hne h.symm, hbs⟩
      · simp only [List.mem_cons, not_or]
        exact ⟨fun h => hnc h.symm, hbc⟩
      · simp only [run, hs]
        exact hru

/-- Only the deadline makes `ctx.Err()` the deadline error. -/
theorem nodl_step {svc : Services} {data : Input} {s t : State} {a : Action}
    (hne : a ≠ .deadline) (ho : s.ctx ≠ some .deadlineExceeded)
    (hs : step svc data s a = some t) : t.ctx ≠ some .deadlineExceeded := by
  have key : (some (s.ctx.getD .canceled) : Option GoError) ≠ some .deadlineExceeded := by
    cases hc : s.ctx with
    | none => simp
    | some e => rw [hc] at ho; simpa using ho
  cases a <;> simp only [step, chanSend] at hs <;> (repeat' split at hs) <;>
    first
    | exact Option.noConfusion hs
    | exact absurd rfl hne
    | (obtain rfl := Option.some.inj hs
       first
       | exact ho
       | exact key
       | (simp only [abNext]; split <;> exact ho)
       | (intro hx; cases hx))

theorem nodl_run {svc : Services} {data : Input} (as : List Action) {s t : State}
    (hne : Action.deadline ∉ as) (ho : s.ctx ≠ some .deadlineExceeded)
    (hr : run svc data s as = some t) : t.ctx ≠ some .deadlineExceeded := by
  induction as generalizing s with
  | nil => simp only [run, Option.some.injEq] at hr; subst hr; exact ho
  | cons a as ih =>
    simp only [run] at hr
    simp only [List.mem_cons, not_or] at hne
    cases hstep : step svc data s a with
    | none => rw [hstep] at hr; cases hr
    | some u =>
      rw [hstep] at hr
      exact ih hne.2 (nodl_step (fun h => hne.1 h.symm) ho hstep) hr

/-- Each `select` of `waitForAB` is counted by `polls`. -/
theorem poll_step {svc : Services} {data : Input} {s t : State} {a : Action}
    (ha : a.isPoll = true) (hs : step svc data s a = some t) : t.polls = s.polls + 1 := by
  cases a <;> simp only [Action.isPoll, Bool.false_eq_true] at ha <;>
    simp only [step] at hs <;> split at hs <;>
    first
    | exact Option.noConfusion hs
    | (obtain rfl := Option.some.inj hs
       first
       | rfl
       | (simp only [abNext]; split <;> rfl))

/-- Once closed, `ctx.Done()` stays closed. -/
theorem closed_step {svc : Services} {data : Input} {s t : State} {a : Action}
    (ho : s.ctx ≠ none) (hs : step svc data s a = some t) : t.ctx ≠ none := by
  cases a <;> simp only [step, chanSend] at hs <;> (repeat' split at hs) <;>
    first
    | exact Option.noConfusion hs
    | (obtain rfl := Option.some.inj hs
       first
       | exact ho
       | exact Option.some_ne_none _
       | (simp only [abNext]; split <;> exact ho))

theorem closed_run {svc : Services} {data : Input} (as : List Action) {s t : State}
    (ho : s.ctx ≠ none) (hr : run svc data s as = some t) : t.ctx ≠ none := by
  induction as generalizing s with
  | nil => simp only [run, Option.some.injEq] at hr; subst hr; exact ho
  | cons a as ih =>
    simp only [run] at hr
    cases hstep : step svc data s a with
    | none => rw [hstep] at hr; cases hr
    | some u =>
      rw [hstep] at hr
      exact ih (closed_step ho hstep) hr

/-- Only the `callerCancel` action sets the history flag `cancelled`. -/
theorem cancelled_step {svc : Services} {data : Input} {s t : State} {a : Action}
    (hnc : a ≠ .callerCancel) (hs : step svc data s a = some t) :
    t.cancelled = s.cancelled := by
  cases a <;> simp only [step, chanSend] at hs <;> (repeat' split at hs) <;>
    first
    | exact Option.noConfusion hs
    | exact absurd rfl hnc
    | (obtain rfl := Option.some.inj hs
       first
       | rfl
       | (simp only [abNext]; split <;> rfl))

theorem cancelled_run {svc : Services} {data : Input} (as : List Action) {s t : State}
    (hnc : Action.callerCancel ∉ as) (hr : run svc data s as = some t) :
    t.cancelled = s.cancelled := by
  induction as generalizing s with
  | nil => simp only [run, Option.some.injEq] at hr; subst hr; rfl
  | cons a as ih =>
    simp only [run] at hr
    simp only [List.mem_cons, not_or] at hnc
    cases hstep : step svc data s a with
    | none => rw [hstep] at hr; cases hr
    | some u =>
      rw [hstep] at hr
      exact (ih hnc.2 hr).trans (cancelled_step (fun h => hnc.1 h.symm) hstep)

/-- Where a `select` step of `waitForAB` leaves the coordinator: in the loop with the
counter incremented, at the hand-off with the value `waitForAB` returned, or returned from
`GatherAndProcess` with the zero `COut` and the error `waitForAB` returned. -/
theorem poll_main {svc : Services} {data : Input} {s t : State} {a : Action}
    {inputC : CIn} {count : Nat} (ha : a.isPoll = true)
    (hM : s.main = .waitForAB inputC count) (hs : step svc data s a = some t) :
    (∃ i, t.main = .waitForAB i (count + 1) ∧ count + 1 < 2 ∧ t.joined = s.joined) ∨
    (∃ i, t.main = .handoff i ∧ t.joined = some (i, none)) ∨
    (∃ e, t.main = .returned COut.zero (some e) ∧ t.joined = some (CIn.zero, some e)) := by
  cases a <;> simp only [Action.isPoll, Bool.false_eq_true] at ha
  · simp only [step] at hs
    split at hs
    next i c a rest hM2 _ =>
      rw [hM] at hM2
      cases hM2
      obtain rfl := Option.some.inj hs
      simp only [abNext]
      split
      next hlt => exact Or.inl ⟨_, rfl, hlt, rfl⟩
      · exact Or.inr (Or.inl ⟨_, rfl, rfl⟩)
    · cases hs
  · simp only [step] at hs
    split at hs
    next i c b rest hM2 _ =>
      rw [hM] at hM2
      cases hM2
      obtain rfl := Option.some.inj hs
      simp only [abNext]
      split
      next hlt => exact Or.inl ⟨_, rfl, hlt, rfl⟩
      · exact Or.inr (Or.inl ⟨_, rfl, rfl⟩)
    · cases hs
  · simp only [step] at hs
    split at hs
    · obtain rfl := Option.some.inj hs
      exact Or.inr (Or.inr ⟨_, rfl, rfl⟩)
    · cases hs
  · simp only [step] at hs
    split at hs
    · obtain rfl := Option.some.inj hs
      exact Or.inr (Or.inr ⟨_, rfl, rfl⟩)
    · cases hs

/-- The value the coordinator holds at `p.inC <- inputC` is the join of the two stage
outputs, and it is what `waitForAB` returned. -/
theorem Inv.handoff_val {svc : Services} {data : Input} {s : State} (h : Inv svc data s)
    {i : CIn} (hM : s.main = .handoff i) :
    i = joinAB svc data ∧ s.joined = some (i, none) ∧ s.rcvA = 1 ∧ s.rcvB = 1 ∧
    (resA svc data).2 = none ∧ (resB svc data).2 = none := by
  have hm := h.m_pc
  rw [hM] at hm
  obtain ⟨p1, p2, p3, _, _, _, _, p8⟩ := hm
  obtain ⟨_, _, _, _, _, _, k7, k8⟩ := h.joined_ok p8
  exact ⟨p1.symm, p8, p2, p3, k7, k8⟩

/-- Once `waitForAB` has returned a value with a nil error, the coordinator holds that
value at the hand-off, or has sent exactly that value on `inC`. -/
theorem Inv.joined_handed {svc : Services} {data : Input} {s : State} (h : Inv svc data s)
    {cin : CIn} (hj : s.joined = some (cin, none)) :
    s.main = .handoff cin ∨
    (s.sentInC = 1 ∧ s.inC.length + s.callsC.length = 1 ∧
      (∀ x ∈ s.inC, x = cin) ∧ (∀ x ∈ s.callsC, x = cin)) := by
  obtain ⟨k1, _⟩ := h.joined_ok hj
  subst k1
  have hm := h.m_pc
  have hlen := h.inC_len
  have key : s.sentInC = 1 → s.sentInC = 1 ∧ s.inC.length + s.callsC.length = 1 ∧
      (∀ x ∈ s.inC, x = joinAB svc data) ∧ (∀ x ∈ s.callsC, x = joinAB svc data) :=
    fun h1 => ⟨h1, by omega, fun x hx => (h.inC_val x hx).symm,
      fun x hx => (h.calls x hx).symm⟩
  split at hm
  · rw [hm.2.2.2.2.2.2.2] at hj; cases hj
  next i hM =>
    obtain ⟨p1, _⟩ := hm
    exact Or.inl (by rw [hM, p1])
  · exact Or.inr (key hm.2.2.2.1)
  · rcases hm with ⟨e, p1, _⟩ | ⟨_, _, _, _, p5, _⟩
    · rw [p1] at hj; simp at hj
    · exact Or.inr (key p5)

/-- Once the deadline has closed `ctx.Done()`, `ctx.Err()` stays the deadline error. -/
theorem dl_keep_step {svc : Services} {data : Input} {s t : State} {a : Action}
    (ho : s.ctx = some .deadlineExceeded) (hs : step svc data s a = some t) :
    t.ctx = some .deadlineExceeded := by
  have key : (some (s.ctx.getD .canceled) : Option GoError) = some .deadlineExceeded := by
    rw [ho]; rfl
  cases a <;> simp only [step, chanSend] at hs <;> (repeat' split at hs) <;>
    first
    | exact Option.noConfusion hs
    | (obtain rfl := Option.some.inj hs
       first
       | exact ho
       | exact key
       | rfl
       | (simp only [abNext]; split <;> exact ho)
       | (rename_i hx; rw [ho] at hx; cases hx))

/-- A run in which the deadline fired ends with `ctx.Err()` the deadline error. -/
theorem dl_run {svc : Services} {data : Input} (as : List Action) {s t : State}
    (hd : Action.deadline ∈ as ∨ s.ctx = some .deadlineExceeded)
    (hr : run svc data s as = some t) : t.ctx = some .deadlineExceeded := by
  induction as generalizing s with
  | nil =>
    simp only [run, Option.some.injEq] at hr
    subst hr
    rcases hd with hd | hd
    · cases hd
    · exact hd
  | cons a as ih =>
    simp only [run] at hr
    cases hstep : step svc data s a with
    | none => rw [hstep] at hr; cases hr
    | some u =>
      rw [hstep] at hr
      rcases hd with hd | hd
      · rcases List.mem_cons.mp hd with hd | hd
        · subst hd
          refine ih (Or.inr ?_) hr
          simp only [step] at hstep
          split at hstep
          · obtain rfl := Option.some.inj hstep
            rfl
          · exact Option.noConfusion hstep
        · exact ih (Or.inl hd) hr
      · exact ih (Or.inr (dl_keep_step hd hstep)) hr

end Ex01

namespace Ex02

theorem inv2_init (svc : Services) (data : Input) : Inv svc data init := by
  constructor <;> simp [init, CIn.zero, Coord.isReturned]

/-- The counting part of the invariant, for arithmetic. -/
theorem Inv.arith2 {svc : Services} {data : Input} {s : State} (h : Inv svc data s) :
    s.sentA + s.errA ≤ 1 ∧ s.sentB + s.errB ≤ 1 ∧
    s.outA.length + s.rcvA = s.sentA ∧ s.outB.length + s.rcvB = s.sentB ∧
    s.errs.length + s.rcvErr = s.errA + s.errB :=
  ⟨h.a_le, h.b_le, h.outA_len, h.outB_len, h.errs_len⟩

theorem inv2_deadline {svc : Services} {data : Input} {s t : State}
    (h : Inv svc data s) (hs : step svc data s .deadline = some t) : Inv svc data t := by
  simp only [step] at hs
  split at hs
  next hctx =>
    obtain rfl := Option.some.inj hs
    have hm := h.m_pc
    have hr := h.ctx_ret
    exact { h with
      ctx_ok := by simp
      ctx_ret := by simp
      m_pc := by
        simp only
        split <;> rename_i hM <;> rw [hM] at hm hr
        · exact hm
        · exact hm
        · exact hm
        · exact absurd hctx (hr rfl) }
  · cases hs

theorem inv2_callerCancel {svc : Services} {data : Input} {s t : State}
    (h : Inv svc data s) (hs : step svc data s .callerCancel = some t) : Inv svc data t := by
  simp only [step] at hs
  split at hs
  next hctx =>
    obtain rfl := Option.some.inj hs
    have hm := h.m_pc
    have hr := h.ctx_ret
    exact { h with
      ctx_ok := by simp
      ctx_ret := by simp
      m_pc := by
        simp only
        split <;> rename_i hM <;> rw [hM] at hm hr
        · exact hm
        · exact hm
        · exact hm
        · exact absurd hctx (hr rfl) }
  · cases hs

theorem inv2_callA {svc : Services} {data : Input} {s t : State}
    (h : Inv svc data s) (hs : step svc data s .callA = some t) : Inv svc data t := by
  simp only [step] at hs
  split at hs
  next hA =>
    have hpc := h.a_pc
    rw [hA] at hpc
    split at hs
    next e he =>
      obtain rfl := Option.some.inj hs
      exact { h with a_pc := by simpa [he] using hpc }
    next a ha =>
      obtain rfl := Option.some.inj hs
      exact { h with a_pc := by simpa [ha] using hpc }
  · cases hs

theorem inv2_callB {svc : Services} {data : Input} {s t : State}
    (h : Inv svc data s) (hs : step svc data s .callB = some t) : Inv svc data t := by
  simp only [step] at hs
  split at hs
  next hB =>
    have hpc := h.b_pc
    rw [hB] at hpc
    split at hs
    next e he =>
      obtain rfl := Option.some.inj hs
      exact { h with b_pc := by simpa [he] using hpc }
    next b hb =>
      obtain rfl := Option.some.inj hs
      exact { h with b_pc := by simpa [hb] using hpc }
  · cases hs

theorem inv2_deliverA {svc : Services} {data : Input} {s t : State}
    (h : Inv svc data s) (hs : step svc data s .deliverA = some t) : Inv svc data t := by
  obtain ⟨h1, h2, h3, h4, h5⟩ := h.arith2
  simp only [step, chanSend] at hs
  split at hs
  next e hA =>
    have hpc := h.a_pc
    rw [hA] at hpc
    split at hs
    · obtain rfl := Option.some.inj hs
      exact { h with
        a_le := by simp only; omega
        errs_len := by simp only [List.length_append, List.length_singleton]; omega
        a_ko := by simp [hpc.2]
        a_ok := by simp only; omega
        errs_val := by
          intro x hx
          simp only [List.mem_append, List.mem_singleton] at hx
          rcases hx with hx | rfl
          · exact h.errs_val x hx
          · exact Or.inl hpc.2
        a_pc := by simp only; omega }
    · cases hs
  next a hA =>
    have hpc := h.a_pc
    rw [hA] at hpc
    split at hs
    · obtain rfl := Option.some.inj hs
      exact { h with
        a_le := by simp only; omega
        outA_len := by simp only [List.length_append, List.length_singleton]; omega
        a_ok := by simp [hpc.2]
        a_ko := by simp only; omega
        outA_val := by
          intro x hx
          simp only [List.mem_append, List.mem_singleton] at hx
          rcases hx with hx | rfl
          · exact h.outA_val x hx
          · simp [hpc.2]
        a_pc := by simp only; omega }
    · cases hs
  · cases hs

theorem inv2_deliverB {svc : Services} {data : Input} {s t : State}
    (h : Inv svc data s) (hs : step svc data s .deliverB = some t) : Inv svc data t := by
  obtain ⟨h1, h2, h3, h4, h5⟩ := h.arith2
  simp only [step, chanSend] at hs
  split at hs
  next e hB =>
    have hpc := h.b_pc
    rw [hB] at hpc
    split at hs
    · obtain rfl := Option.some.inj hs
      exact { h with
        b_le := by simp only; omega
        errs_len := by simp only [List.length_append, List.length_singleton]; omega
        b_ko := by simp [hpc.2]
        b_ok := by simp only; omega
        errs_val := by
          intro x hx
          simp only [List.mem_append, List.mem_singleton] at hx
          rcases hx with hx | rfl
          · exact h.errs_val x hx
          · exact Or.inr hpc.2
        b_pc := by simp only; omega }
    · cases hs
  next b hB =>
    have hpc := h.b_pc
    rw [hB] at hpc
    split at hs
    · obtain rfl := Option.some.inj hs
      exact { h with
        b_le := by simp only; omega
        outB_len := by simp only [List.length_append, List.length_singleton]; omega
        b_ok := by simp [hpc.2]
        b_ko := by simp only; omega
        outB_val := by
          intro x hx
          simp only [List.mem_append, List.mem_singleton] at hx
          rcases hx with hx | rfl
          · exact h.outB_val x hx
          · simp [hpc.2]
        b_pc := by simp only; omega }
    · cases hs
  · cases hs

theorem inv2_abRecvA {svc : Services} {data : Input} {s t : State}
    (h : Inv svc data s) (hs : step svc data s .abRecvA = some t) : Inv svc data t := by
  obtain ⟨h1, h2, h3, h4, h5⟩ := h.arith2
  simp only [step] at hs
  split at hs
  next inputC count a rest hM hout =>
    have hpc := h.m_pc
    rw [hM] at hpc
    obtain ⟨p1, p2, p4, p6, p8, p9⟩ := hpc
    have hctx := h.ctx_ok
    simp only [hM, Coord.isReturned, Bool.false_eq_true, false_or] at hctx
    have ha : (resA svc data).1 = a := h.outA_val a (by simp [hout])
    have hval : ∀ x ∈ rest, (resA svc data).1 = x :=
      fun x hx => h.outA_val x (by simp [hout, hx])
    simp only [hout, List.length_cons] at h3
    obtain rfl := Option.some.inj hs
    simp only [abNext]
    split
    · exact { h with
        outA_len := by simp only; omega
        outA_val := hval
        ctx_ok := by simp only [Coord.isReturned, Bool.false_eq_true, false_or]; exact hctx
        ctx_ret := by simp [Coord.isReturned]
        m_pc := by
          refine ⟨by simp only; omega, by omega, ?_, p6, p8, p9⟩
          subst p4
          simp [ha] }
    · exact { h with
        outA_len := by simp only; omega
        outA_val := hval
        ctx_ok := by simp only [Coord.isReturned, Bool.false_eq_true, false_or]; exact hctx
        ctx_ret := by simp [Coord.isReturned]
        m_pc := by
          have hb : s.rcvB = 1 := by omega
          refine ⟨?_, by simp only; omega, hb, p6, rfl, p9⟩
          subst p4
          simp [ha, hb] }
  · cases hs

theorem inv2_abRecvB {svc : Services} {data : Input} {s t : State}
    (h : Inv svc data s) (hs : step svc data s .abRecvB = some t) : Inv svc data t := by
  obtain ⟨h1, h2, h3, h4, h5⟩ := h.arith2
  simp only [step] at hs
  split at hs
  next inputC count b rest hM hout =>
    have hpc := h.m_pc
    rw [hM] at hpc
    obtain ⟨p1, p2, p4, p6, p8, p9⟩ := hpc
    have hctx := h.ctx_ok
    simp only [hM, Coord.isReturned, Bool.false_eq_true, false_or] at hctx
    have hb : (resB svc data).1 = b := h.outB_val b (by simp [hout])
    have hval : ∀ x ∈ rest, (resB svc data).1 = x :=
      fun x hx => h.outB_val x (by simp [hout, hx])
    simp only [hout, List.length_cons] at h4
    obtain rfl := Option.some.inj hs
    simp only [abNext]
    split
    · exact { h with
        outB_len := by simp only; omega
        outB_val := hval
        ctx_ok := by simp only [Coord.isReturned, Bool.false_eq_true, false_or]; exact hctx
        ctx_ret := by simp [Coord.isReturned]
        m_pc := by
          refine ⟨by simp only; omega, by omega, ?_, p6, p8, p9⟩
          subst p4
          simp [hb] }
    · exact { h with
        outB_len := by simp only; omega
        outB_val := hval
        ctx_ok := by simp only [Coord.isReturned, Bool.false_eq_true, false_or]; exact hctx
        ctx_ret := by simp [Coord.isReturned]
        m_pc := by
          have ha : s.rcvA = 1 := by omega
          refine ⟨?_, ha, by simp only; omega, p6, rfl, p9⟩
          subst p4
          simp [ha, hb] }
  · cases hs

theorem inv2_abRecvErr {svc : Services} {data : Input} {s t : State}
    (h : Inv svc data s) (hs : step svc data s .abRecvErr = some t) : Inv svc data t := by
  obtain ⟨h1, h2, h3, h4, h5⟩ := h.arith2
  simp only [step] at hs
  split at hs
  next inputC count err rest hM herr =>
    have hpc := h.m_pc
    rw [hM] at hpc
    obtain ⟨p1, p2, p4, p6, p8, p9⟩ := hpc
    have hctx := h.ctx_ok
    simp only [hM, Coord.isReturned, Bool.false_eq_true, false_or] at hctx
    have he := h.errs_val err (by simp [herr])
    have hval : ∀ x ∈ rest, _ := fun x hx => h.errs_val x (by simp [herr, hx])
    simp only [herr, List.length_cons] at h5
    obtain rfl := Option.some.inj hs
    simp only [abFail, ret]
    exact { h with
      errs_len := by simp only; omega
      errs_val := hval
      ctx_ok := by
        simp only
        rcases hctx with hc | hc | ⟨hc, _⟩ <;> simp [hc, Coord.isReturned]
      ctx_ret := by simp
      m_pc := Or.inl ⟨err, rfl, rfl, rfl, by simp only; omega, p9,
        Or.inr ⟨by simp only; omega, he⟩⟩ }
  · cases hs

theorem inv2_abDone {svc : Services} {data : Input} {s t : State}
    (h : Inv svc data s) (hs : step svc data s .abDone = some t) : Inv svc data t := by
  obtain ⟨h1, h2, h3, h4, h5⟩ := h.arith2
  simp only [step] at hs
  split at hs
  next inputC count e hM he =>
    have hpc := h.m_pc
    rw [hM] at hpc
    obtain ⟨p1, p2, p4, p6, p8, p9⟩ := hpc
    have hctx := h.ctx_ok
    simp only [hM, Coord.isReturned, Bool.false_eq_true, he,
      Option.some.injEq, reduceCtorEq, false_or] at hctx
    obtain rfl := Option.some.inj hs
    simp only [abFail, ret]
    exact { h with
      ctx_ok := by rcases hctx with hc | ⟨hc, _⟩ <;> simp [he, hc, Coord.isReturned]
      ctx_ret := by simp
      m_pc := Or.inl ⟨e, rfl, rfl, rfl, by simp only; omega, p9,
        Or.inl ⟨p6, by simp [he], hctx⟩⟩ }
  · cases hs

theorem inv2_spawnC {svc : Services} {data : Input} {s t : State}
    (h : Inv svc data s) (hs : step svc data s .spawnC = some t) : Inv svc data t := by
  simp only [step] at hs
  split at hs
  next c hM =>
    have hpc := h.m_pc
    rw [hM] at hpc
    obtain ⟨p1, p2, p3, p4, p5, p6⟩ := hpc
    have hctx := h.ctx_ok
    simp only [hM, Coord.isReturned, Bool.false_eq_true, false_or] at hctx
    obtain rfl := Option.some.inj hs
    exact { h with
      res_val := by simp
      w_pc := by simp [p1]
      ctx_ok := by simp only [Coord.isReturned, Bool.false_eq_true, false_or]; exact hctx
      ctx_ret := by simp [Coord.isReturned]
      m_pc := ⟨p2, p3, p4, by simp only [p5, p1], by simp⟩ }
  · cases hs

theorem inv2_workerSend {svc : Services} {data : Input} {s t : State}
    (h : Inv svc data s) (hs : step svc data s .workerSend = some t) : Inv svc data t := by
  simp only [step, chanSend] at hs
  split at hs
  next v hC =>
    have hpc := h.w_pc
    rw [hC] at hpc
    have hm := h.m_pc
    split at hs
    · obtain rfl := Option.some.inj hs
      exact { h with
        res_val := by
          intro x hx
          simp only [List.mem_append, List.mem_singleton] at hx
          rcases hx with hx | rfl
          · exact h.res_val x hx
          · exact hpc.1
        w_pc := by simp
        m_pc := by
          simp only
          split <;> rename_i hM <;> rw [hM] at hm <;> simp_all }
    · cases hs
  · cases hs

theorem inv2_selDone {svc : Services} {data : Input} {s t : State}
    (h : Inv svc data s) (hs : step svc data s .selDone = some t) : Inv svc data t := by
  simp only [step] at hs
  split at hs
  next e hM he =>
    have hpc := h.m_pc
    rw [hM] at hpc
    obtain ⟨p1, p2, p3, p4, p5⟩ := hpc
    have hctx := h.ctx_ok
    simp only [hM, Coord.isReturned, Bool.false_eq_true, he,
      Option.some.injEq, reduceCtorEq, false_or] at hctx
    obtain rfl := Option.some.inj hs
    simp only [ret]
    exact { h with
      ctx_ok := by rcases hctx with hc | ⟨hc, _⟩ <;> simp [he, hc, Coord.isReturned]
      ctx_ret := by simp
      m_pc := Or.inr ⟨p4, p1, p2, p3, Or.inr ⟨e, rfl, rfl, by simp [he], hctx⟩⟩ }
  · cases hs

theorem inv2_selRecv {svc : Services} {data : Input} {s t : State}
    (h : Inv svc data s) (hs : step svc data s .selRecv = some t) : Inv svc data t := by
  simp only [step] at hs
  split at hs
  next r rest hM hres =>
    have hpc := h.m_pc
    rw [hM] at hpc
    obtain ⟨p1, p2, p3, p4, p5⟩ := hpc
    have hctx := h.ctx_ok
    simp only [hM, Coord.isReturned, Bool.false_eq_true, false_or] at hctx
    have hr := h.res_val r (by simp [hres])
    have hval : ∀ x ∈ rest, _ := fun x hx => h.res_val x (by simp [hres, hx])
    have hw := h.w_pc
    obtain rfl := Option.some.inj hs
    simp only [ret]
    exact { h with
      res_val := hval
      w_pc := by
        simp only
        split <;> rename_i hC <;> rw [hC] at hw <;> simp_all
      ctx_ok := by
        simp only
        rcases hctx with hc | hc | ⟨hc, _⟩ <;> simp [hc, Coord.isReturned]
      ctx_ret := by simp
      m_pc := Or.inr ⟨p4, p1, p2, p3, Or.inl ⟨rfl, hr.symm⟩⟩ }
  · cases hs

/-- Every scheduler action preserves the invariant. -/
theorem inv2_step {svc : Services} {data : Input} {s t : State} {a : Action}
    (h : Inv svc data s) (hs : step svc data s a = some t) : Inv svc data t := by
  cases a
  · exact inv2_deadline h hs
  · exact inv2_callerCancel h hs
  · exact inv2_callA h hs
  · exact inv2_deliverA h hs
  · exact inv2_callB h hs
  · exact inv2_deliverB h hs
  · exact inv2_abRecvA h hs
  · exact inv2_abRecvB h hs
  · exact inv2_abRecvErr h hs
  · exact inv2_abDone h hs
  · exact inv2_spawnC h hs
  · exact inv2_workerSend h hs
  · exact inv2_selDone h hs
  · exact inv2_selRecv h hs

/-- The invariant holds along every schedule. -/
theorem inv2_run {svc : Services} {data : Input} (as : List Action) {s t : State}
    (h : Inv svc data s) (hr : run svc data s as = some t) : Inv svc data t := by
  induction as generalizing s with
  | nil => simp only [run, Option.some.injEq] at hr; exact hr ▸ h
  | cons a as ih =>
    simp only [run] at hr
    cases hstep : step svc data s a with
    | none => rw [hstep] at hr; cases hr
    | some u => rw [hstep] at hr; exact ih (inv2_step h hstep) hr

/-- Every state reached from the initial one satisfies the invariant. -/
theorem inv2_reach {svc : Services} {data : Input} {as : List Action} {s : State}
    (hr : run svc data init as = some s) : Inv svc data s :=
  inv2_run as (inv2_init svc data) hr

/-- Only the deadline makes `ctx.Err()` the deadline error. -/
theorem nodl2_step {svc : Services} {data : Input} {s t : State} {a : Action}
    (hne : a ≠ .deadline) (ho : s.ctx ≠ some .deadlineExceeded)
    (hs : step svc data s a = some t) : t.ctx ≠ some .deadlineExceeded := by
  have key : (some (s.ctx.getD .canceled) : Option GoError) ≠ some .deadlineExceeded := by
    cases hc : s.ctx with
    | none => simp
    | some e => rw [hc] at ho; simpa using ho
  cases a <;> simp only [step, chanSend] at hs <;> (repeat' split at hs) <;>
    first
    | exact Option.noConfusion hs
    | exact absurd rfl hne
    | (obtain rfl := Option.some.inj hs
       first
       | exact ho
       | exact key
       | (simp only [abNext]; split <;> exact ho)
       | (intro hx; cases hx))

theorem nodl2_run {svc : Services} {data : Input} (as : List Action) {s t : State}
    (hne : Action.deadline ∉ as) (ho : s.ctx ≠ some .deadlineExceeded)
    (hr : run svc data s as = some t) : t.ctx ≠ some .deadlineExceeded := by
  induction as generalizing s with
  | nil => simp only [run, Option.some.injEq] at hr; subst hr; exact ho
  | cons a as ih =>
    simp only [run] at hr
    simp only [List.mem_cons, not_or] at hne
    cases hstep : step svc data s a with
    | none => rw [hstep] at hr; cases hr
    | some u =>
      rw [hstep] at hr
      exact ih hne.2 (nodl2_step (fun h => hne.1 h.symm) ho hstep) hr

/-- Only the `callerCancel` action sets the history flag `cancelled`. -/
theorem cancelled2_step {svc : Services} {data : Input} {s t : State} {a : Action}
    (hnc : a ≠ .callerCancel) (hs : step svc data s a = some t) :
    t.cancelled = s.cancelled := by
  cases a <;> simp only [step, chanSend] at hs <;> (repeat' split at hs) <;>
    first
    | exact Option.noConfusion hs
    | exact absurd rfl hnc
    | (obtain rfl := Option.some.inj hs
       first
       | rfl
       | (simp only [abNext]; split <;> rfl))

theorem cancelled2_run {svc : Services} {data : Input} (as : List Action) {s t : State}
    (hnc : Action.callerCancel ∉ as) (hr : run svc data s as = some t) :
    t.cancelled = s.cancelled := by
  induction as generalizing s with
  | nil => simp only [run, Option.some.injEq] at hr; subst hr; rfl
  | cons a as ih =>
    simp only [run] at hr
    simp only [List.mem_cons, not_or] at hnc
    cases hstep : step svc data s a with
    | none => rw [hstep] at hr; cases hr
    | some u =>
      rw [hstep] at hr
      exact (ih hnc.2 hr).trans (cancelled2_step (fun h => hnc.1 h.symm) hstep)

/-- Once the deadline has closed `ctx.Done()`, `ctx.Err()` stays the deadline error. -/
theorem dl2_keep_step {svc : Services} {data : Input} {s t : State} {a : Action}
    (ho : s.ctx = some .deadlineExceeded) (hs : step svc data s a = some t) :
    t.ctx = some .deadlineExceeded := by
  have key : (some (s.ctx.getD .canceled) : Option GoError) = some .deadlineExceeded := by
    rw [ho]; rfl
  cases a <;> simp only [step, chanSend] at hs <;> (repeat' split at hs) <;>
    first
    | exact Option.noConfusion hs
    | (obtain rfl := Option.some.inj hs
       first
       | exact ho
       | exact key
       | rfl
       | (simp only [abNext]; split <;> exact ho)
       | (rename_i hx; rw [ho] at hx; cases hx))

/-- A run in which the deadline fired ends with `ctx.Err()` the deadline error. -/
theorem dl2_run {svc : Services} {data : Input} (as : List Action) {s t : State}
    (hd : Action.deadline ∈ as ∨ s.ctx = some .deadlineExceeded)
    (hr : run svc data s as = some t) : t.ctx = some .deadlineExceeded := by
  induction as generalizing s with
  | nil =>
    simp only [run, Option.some.injEq] at hr
    subst hr
    rcases hd with hd | hd
    · cases hd
    · exact hd
  | cons a as ih =>
    simp only [run] at hr
    cases hstep : step svc data s a with
    | none => rw [hstep] at hr; cases hr
    | some u =>
      rw [hstep] at hr
      rcases hd with hd | hd
      · rcases List.mem_cons.mp hd with hd | hd
        · subst hd
          refine ih (Or.inr ?_) hr
          simp only [step] at hstep
          split at hstep
          · obtain rfl := Option.some.inj hstep
            rfl
          · exact Option.noConfusion hstep
        · exact ih (Or.inl hd) hr
      · exact ih (Or.inr (dl2_keep_step hd hstep)) hr

end Ex02

namespace Ex03

theorem inv3_init (eager : Bool) (svc : Services) (data : Input) :
    Inv eager svc data init := by
  constructor <;> simp [init, CIn.zero, timeout]

/-- The counting part of the invariant, for arithmetic. -/
theorem Inv.arith3 {eager : Bool} {svc : Services} {data : Input} {s : State}
    (h : Inv eager svc data s) :
    s.outA.length + s.rcvA = s.sentA ∧ s.outB.length + s.rcvB = s.sentB ∧
    s.inC.length + s.callsC.length = s.sentInC ∧
    s.outC.length + s.rcvOutC = s.sentOutC ∧
    s.sentOutC ≤ s.callsC.length ∧
    s.sentInC ≤ s.rcvA ∧ s.sentInC ≤ s.rcvB ∧ s.sentInC ≤ 1 ∧ s.lastRcv ≤ s.now :=
  ⟨h.outA_len, h.outB_len, h.inC_len, h.outC_len, h.c_le, h.join_a, h.join_b, h.in_le,
    h.rcv_le⟩

theorem inv3_tick {eager : Bool} {svc : Services} {data : Input} {s t : State}
    (h : Inv eager svc data s) (hs : step eager svc data s .tick = some t) :
    Inv eager svc data t := by
  obtain ⟨h1, h2, h3, h4, h5, h6, h7, h8, h9⟩ := h.arith3
  simp only [step] at hs
  split at hs
  · cases hs
  next hen =>
    obtain rfl := Option.some.inj hs
    have hm := h.m_pc
    exact { h with
      rcv_le := by simp only; omega
      m_pc := by
        simp only
        split
        next i c timer hM =>
          rw [hM] at hm
          obtain ⟨p1, p2, p3, p4, p5, p6, p7, p8, p9, p10⟩ := hm
          refine ⟨p1, p2, p3, p4, p5, p6, p7, p8, p9, fun he => ⟨?_, (p10 he).2⟩⟩
          have := (p10 he).1
          simp only [he, coordEnabled, hM, Bool.true_and, Bool.or_eq_true, decide_eq_true_eq,
            not_or, not_le] at hen
          omega
        next i hM => rw [hM] at hm; exact hm
        next hM => rw [hM] at hm; exact hm
        next timer hM =>
          rw [hM] at hm
          obtain ⟨p1, p2, p3, p4, p5, p6, p7⟩ := hm
          refine ⟨p1, p2, p3, p4, p5, p6, fun he => ?_⟩
          have := p7 he
          simp only [he, coordEnabled, hM, Bool.true_and, Bool.or_eq_true, decide_eq_true_eq,
            not_or, not_le] at hen
          omega
        next out err hM => rw [hM] at hm; exact hm }

theorem inv3_sendA {eager : Bool} {svc : Services} {data : Input} {s t : State}
    (h : Inv eager svc data s) (hs : step eager svc data s .sendA = some t) :
    Inv eager svc data t := by
  obtain ⟨h1, h2, h3, h4, h5, h6, h7, h8, h9⟩ := h.arith3
  simp only [step, chanSend] at hs
  split at hs
  next hA =>
    have hpc := h.a_pc
    rw [hA] at hpc
    split at hs
    · obtain rfl := Option.some.inj hs
      exact { h with
        outA_len := by simp only [List.length_append, List.length_singleton]; omega
        outA_val := by
          intro x hx
          simp only [List.mem_append, List.mem_singleton] at hx
          rcases hx with hx | rfl
          · exact h.outA_val x hx
          · rfl
        a_pc := by simp only; omega }
    · cases hs
  · cases hs

theorem inv3_sendB {eager : Bool} {svc : Services} {data : Input} {s t : State}
    (h : Inv eager svc data s) (hs : step eager svc data s .sendB = some t) :
    Inv eager svc data t := by
  obtain ⟨h1, h2, h3, h4, h5, h6, h7, h8, h9⟩ := h.arith3
  simp only [step, chanSend] at hs
  split at hs
  next hB =>
    have hpc := h.b_pc
    rw [hB] at hpc
    split at hs
    · obtain rfl := Option.some.inj hs
      exact { h with
        outB_len := by simp only [List.length_append, List.length_singleton]; omega
        outB_val := by
          intro x hx
          simp only [List.mem_append, List.mem_singleton] at hx
          rcases hx with hx | rfl
          · exact h.outB_val x hx
          · rfl
        b_pc := by simp only; omega }
    · cases hs
  · cases hs

theorem inv3_abRecvA {eager : Bool} {svc : Services} {data : Input} {s t : State}
    (h : Inv eager svc data s) (hs : step eager svc data s .abRecvA = some t) :
    Inv eager svc data t := by
  obtain ⟨h1, h2, h3, h4, h5, h6, h7, h8, h9⟩ := h.arith3
  have hA := h.a_pc
  simp only [step] at hs
  split at hs
  next inputC count timer a rest hM hout =>
    have hpc := h.m_pc
    rw [hM] at hpc
    obtain ⟨p1, p2, p3, p4, p5, p6, p7, p8, p9, p10⟩ := hpc
    have ha : svc.callWebServiceA data.A = a := h.outA_val a (by simp [hout])
    have hval : ∀ x ∈ rest, svc.callWebServiceA data.A = x :=
      fun x hx => h.outA_val x (by simp [hout, hx])
    simp only [hout, List.length_cons] at h1
    have hsent : s.sentA ≤ 1 := by split at hA <;> omega
    obtain rfl := Option.some.inj hs
    simp only [abNext]
    split
    · exact { h with
        outA_len := by simp only; omega
        join_a := by simp only; omega
        rcv_le := by simp
        outA_val := hval
        m_pc := by
          refine ⟨by simp only; omega, by omega, ?_, p4, p5, p6, p7, rfl, by simp,
            fun he => ⟨by simp, ?_⟩⟩
          · subst p3
            simp [ha]
          · have := p10 he
            have := p9 (by omega)
            simp only
            omega }
    · exact { h with
        outA_len := by simp only; omega
        join_a := by simp only; omega
        rcv_le := by simp
        outA_val := hval
        m_pc := by
          have hb : s.rcvB = 1 := by omega
          refine ⟨?_, by simp only; omega, hb, p4, p5, rfl, p7⟩
          subst p3
          simp [ha, hb] }
  · cases hs

theorem inv3_abRecvB {eager : Bool} {svc : Services} {data : Input} {s t : State}
    (h : Inv eager svc data s) (hs : step eager svc data s .abRecvB = some t) :
    Inv eager svc data t := by
  obtain ⟨h1, h2, h3, h4, h5, h6, h7, h8, h9⟩ := h.arith3
  have hB := h.b_pc
  simp only [step] at hs
  split at hs
  next inputC count timer b rest hM hout =>
    have hpc := h.m_pc
    rw [hM] at hpc
    obtain ⟨p1, p2, p3, p4, p5, p6, p7, p8, p9, p10⟩ := hpc
    have hb : svc.callWebServiceB data.B = b := h.outB_val b (by simp [hout])
    have hval : ∀ x ∈ rest, svc.callWebServiceB data.B = x :=
      fun x hx => h.outB_val x (by simp [hout, hx])
    simp only [hout, List.length_cons] at h2
    have hsent : s.sentB ≤ 1 := by split at hB <;> omega
    obtain rfl := Option.some.inj hs
    simp only [abNext]
    split
    · exact { h with
        outB_len := by simp only; omega
        join_b := by simp only; omega
        rcv_le := by simp
        outB_val := hval
        m_pc := by
          refine ⟨by simp only; omega, by omega, ?_, p4, p5, p6, p7, rfl, by simp,
            fun he => ⟨by simp, ?_⟩⟩
          · subst p3
            simp [hb]
          · have := p10 he
            have := p9 (by omega)
            simp only
            omega }
    · exact { h with
        outB_len := by simp only; omega
        join_b := by simp only; omega
        rcv_le := by simp
        outB_val := hval
        m_pc := by
          have ha : s.rcvA = 1 := by omega
          refine ⟨?_, ha, by simp only; omega, p4, p5, rfl, p7⟩
          subst p3
          simp [ha, hb] }
  · cases hs

theorem inv3_abTimeout {eager : Bool} {svc : Services} {data : Input} {s t : State}
    (h : Inv eager svc data s) (hs : step eager svc data s .abTimeout = some t) :
    Inv eager svc data t := by
  obtain ⟨h1, h2, h3, h4, h5, h6, h7, h8, h9⟩ := h.arith3
  simp only [step] at hs
  split at hs
  next inputC count timer hM =>
    have hpc := h.m_pc
    rw [hM] at hpc
    obtain ⟨p1, p2, p3, p4, p5, p6, p7, p8, p9, p10⟩ := hpc
    split at hs
    next hle =>
      obtain rfl := Option.some.inj hs
      simp only [ret]
      exact { h with
        m_pc := Or.inl ⟨rfl, rfl, rfl, p4, p5, by simp only; omega, p7,
          fun h0 => p9 (by simp only at h0; omega), by simp only; omega,
          by simp only; omega,
          fun he => ⟨by have := p10 he; simp only; omega, (p10 he).2⟩⟩ }
    · cases hs
  · cases hs

theorem inv3_handoff {eager : Bool} {svc : Services} {data : Input} {s t : State}
    (h : Inv eager svc data s) (hs : step eager svc data s .handoff = some t) :
    Inv eager svc data t := by
  obtain ⟨h1, h2, h3, h4, h5, h6, h7, h8, h9⟩ := h.arith3
  simp only [step, chanSend] at hs
  split at hs
  next inputC hM =>
    have hpc := h.m_pc
    rw [hM] at hpc
    obtain ⟨p1, p2, p3, p4, p5, p6, p7⟩ := hpc
    have hc := h.c_pc
    rw [p7] at hc
    split at hs
    · obtain rfl := Option.some.inj hs
      exact { h with
        inC_len := by simp only [List.length_append, List.length_singleton]; omega
        join_a := by simp only; omega
        join_b := by simp only; omega
        in_le := by simp only; omega
        inC_val := by
          intro x hx
          simp only [List.mem_append, List.mem_singleton] at hx
          rcases hx with hx | rfl
          · exact h.inC_val x hx
          · exact p1
        c_pc := by
          simp only [p7]
          refine ⟨hc.1, ?_⟩
          simp only [List.length_append, List.length_singleton]
          omega
        m_pc := ⟨p2, p3, by simp only; omega, p5, by simp only [p6, p1], p7⟩ }
    · cases hs
  · cases hs

theorem inv3_spawn {eager : Bool} {svc : Services} {data : Input} {s t : State}
    (h : Inv eager svc data s) (hs : step eager svc data s .spawn = some t) :
    Inv eager svc data t := by
  simp only [step] at hs
  split at hs
  next hM =>
    have hpc := h.m_pc
    rw [hM] at hpc
    obtain ⟨p1, p2, p3, p4, p5, p6⟩ := hpc
    have hc := h.c_pc
    rw [p6] at hc
    obtain rfl := Option.some.inj hs
    exact { h with
      c_pc := ⟨hc.1, p3⟩
      m_pc := ⟨p1, p2, p3, p4, p5, by simp, fun _ => by simp⟩ }
  · cases hs

theorem inv3_cRecv {eager : Bool} {svc : Services} {data : Input} {s t : State}
    (h : Inv eager svc data s) (hs : step eager svc data s .cRecv = some t) :
    Inv eager svc data t := by
  obtain ⟨h1, h2, h3, h4, h5, h6, h7, h8, h9⟩ := h.arith3
  have hm := h.m_pc
  simp only [step] at hs
  split at hs
  next inputC rest hC hin =>
    have hpc := h.c_pc
    rw [hC] at hpc
    obtain ⟨c1, c2⟩ := hpc
    have hJ : joinAB svc data = inputC := h.inC_val inputC (by simp [hin])
    have hval : ∀ x ∈ rest, joinAB svc data = x := fun x hx => h.inC_val x (by simp [hin, hx])
    simp only [c1, hin, List.length_nil, List.length_cons] at h3 h5
    obtain rfl := Option.some.inj hs
    exact { h with
      inC_len := by simp only [c1, List.length_cons, List.length_nil]; omega
      c_le := by simp only [List.length_cons]; omega
      inC_val := hval
      calls := by simp [c1, hJ]
      c_pc := ⟨by simp [c1], by simp only; omega, by simp [joinedData, ← hJ]⟩
      m_pc := by
        simp only
        split <;> rename_i hM <;> rw [hM] at hm <;> simp_all }
  · cases hs

theorem inv3_cSend {eager : Bool} {svc : Services} {data : Input} {s t : State}
    (h : Inv eager svc data s) (hs : step eager svc data s .cSend = some t) :
    Inv eager svc data t := by
  obtain ⟨h1, h2, h3, h4, h5, h6, h7, h8, h9⟩ := h.arith3
  have hm := h.m_pc
  simp only [step, chanSend] at hs
  split at hs
  next c hC =>
    have hpc := h.c_pc
    rw [hC] at hpc
    obtain ⟨c1, c2, c3⟩ := hpc
    split at hs
    · obtain rfl := Option.some.inj hs
      exact { h with
        outC_len := by simp only [List.length_append, List.length_singleton]; omega
        c_le := by simp only; omega
        outC_val := by
          intro x hx
          simp only [List.mem_append, List.mem_singleton] at hx
          rcases hx with hx | rfl
          · exact h.outC_val x hx
          · exact c3
        c_pc := ⟨c1, by simp only; omega⟩
        m_pc := by
          simp only
          split <;> rename_i hM <;> rw [hM] at hm <;> simp_all }
    · cases hs
  · cases hs

theorem inv3_wcRecv {eager : Bool} {svc : Services} {data : Input} {s t : State}
    (h : Inv eager svc data s) (hs : step eager svc data s .wcRecv = some t) :
    Inv eager svc data t := by
  obtain ⟨h1, h2, h3, h4, h5, h6, h7, h8, h9⟩ := h.arith3
  simp only [step] at hs
  split at hs
  next timer c rest hM hout =>
    have hpc := h.m_pc
    rw [hM] at hpc
    obtain ⟨p1, p2, p3, p4, p5, p6, p7⟩ := hpc
    have hc := h.outC_val c (by simp [hout])
    have hval : ∀ x ∈ rest, _ := fun x hx => h.outC_val x (by simp [hout, hx])
    simp only [hout, List.length_cons] at h4
    obtain rfl := Option.some.inj hs
    simp only [ret]
    exact { h with
      outC_len := by simp only; omega
      outC_val := hval
      m_pc := Or.inr ⟨p5, p1, p2, p3, p6, Or.inl ⟨rfl, hc.symm, by simp only; omega⟩⟩ }
  · cases hs

theorem inv3_wcTimeout {eager : Bool} {svc : Services} {data : Input} {s t : State}
    (h : Inv eager svc data s) (hs : step eager svc data s .wcTimeout = some t) :
    Inv eager svc data t := by
  simp only [step] at hs
  split at hs
  next timer hM =>
    have hpc := h.m_pc
    rw [hM] at hpc
    obtain ⟨p1, p2, p3, p4, p5, p6, p7⟩ := hpc
    split at hs
    · obtain rfl := Option.some.inj hs
      simp only [ret]
      exact { h with
        m_pc := Or.inr ⟨p5, p1, p2, p3, p6, Or.inr ⟨rfl, rfl, p4⟩⟩ }
    · cases hs
  · cases hs

/-- Every scheduler action preserves the invariant. -/
theorem inv3_step {eager : Bool} {svc : Services} {data : Input} {s t : State} {a : Action}
    (h : Inv eager svc data s) (hs : step eager svc data s a = some t) :
    Inv eager svc data t := by
  cases a
  · exact inv3_tick h hs
  · exact inv3_sendA h hs
  · exact inv3_sendB h hs
  · exact inv3_abRecvA h hs
  · exact inv3_abRecvB h hs
  · exact inv3_abTimeout h hs
  · exact inv3_handoff h hs
  · exact inv3_spawn h hs
  · exact inv3_cRecv h hs
  · exact inv3_cSend h hs
  · exact inv3_wcRecv h hs
  · exact inv3_wcTimeout h hs

/-- The invariant holds along every schedule. -/
theorem inv3_run {eager : Bool} {svc : Services} {data : Input} (as : List Action)
    {s t : State} (h : Inv eager svc data s) (hr : run eager svc data s as = some t) :
    Inv eager svc data t := by
  induction as generalizing s with
  | nil => simp only [run, Option.some.injEq] at hr; exact hr ▸ h
  | cons a as ih =>
    simp only [run] at hr
    cases hstep : step eager svc data s a with
    | none => rw [hstep] at hr; cases hr
    | some u => rw [hstep] at hr; exact ih (inv3_step h hstep) hr

/-- Every state reached from the initial one satisfies the invariant. -/
theorem inv3_reach {eager : Bool} {svc : Services} {data : Input} {as : List Action}
    {s : State} (hr : run eager svc data init as = some s) : Inv eager svc data s :=
  inv3_run as (inv3_init eager svc data) hr

end Ex03

namespace Ex03

end Ex03

/-! The claims. -/

/-- Claim C1 (`example01.go`).  Let stage A return `a` and stage B return `b` without error
and let stage C be the `callWebServiceC` of the file.  In every run in which the deadline
does not fire (and the caller's context, `context.Background()` in `main`, is not
cancelled): if `GatherAndProcess` has returned, it returned a nil error and
`COut{name: a.name, subject: b.subject, score: b.score}`, in whatever order the joiner
received `outA` and `outB`; the run can always be continued, still with `ctx.Done()` left
open, to such a return, and no run has more than 12 actions, so a run that is continued as
long as some goroutine can move ends in that return; the two schedules
`scheduleAB` (A received first) and `scheduleBA` (B received first) both end in that
return. -/
theorem C1_all_succeed_returns_projection (svc : Services) (data : Ex01.Input)
    (a : AOut) (b : BOut) (as : List Ex01.Action) (s : Ex01.State)
    (hA : svc.callWebServiceA data.A = (a, none))
    (hB : svc.callWebServiceB data.B = (b, none))
    (hC : svc.callWebServiceC = Ex01.callWebServiceC)
    (hr : Ex01.run svc data Ex01.init as = some s)
    (hd : Ex01.Action.deadline ∉ as) (hc : Ex01.Action.callerCancel ∉ as) :
    (∀ out err, s.main = .returned out err →
      err = none ∧ out = ⟨a.name, b.subject, b.score⟩) ∧
    (∃ bs t, (Ex01.Action.deadline ∉ bs ∧ Ex01.Action.callerCancel ∉ bs) ∧
      Ex01.run svc data s bs = some t ∧
      t.main = .returned ⟨a.name, b.subject, b.score⟩ none) ∧
    as.length ≤ 12 ∧
    (Ex01.after svc data Ex01.scheduleAB).main = .returned ⟨a.name, b.subject, b.score⟩ none ∧
    (Ex01.after svc data Ex01.scheduleBA).main = .returned ⟨a.name, b.subject, b.score⟩ none := by
  have rA : (Ex01.resA svc data).2 = none := by simp [Ex01.resA, hA]
  have rB : (Ex01.resB svc data).2 = none := by simp [Ex01.resB, hB]
  have rC : Ex01.resC svc data = (⟨a.name, b.subject, b.score⟩, none) := by
    simp [Ex01.resC, Ex01.joinAB, hA, hB, hC, Ex01.callWebServiceC, joinedData]
  have key : ∀ (cs : List Ex01.Action) (u : Ex01.State),
      Ex01.run svc data Ex01.init cs = some u → Ex01.Action.deadline ∉ cs →
      Ex01.Action.callerCancel ∉ cs →
      ∀ out err, u.main = .returned out err →
        err = none ∧ out = ⟨a.name, b.subject, b.score⟩ := by
    intro cs u hu hcs hcc out err hM
    have h := Ex01.inv_reach hu
    have hctx := Ex01.nodl_run cs hcs (by simp [Ex01.init]) hu
    have hcan : u.cancelled ≠ true := by
      rw [Ex01.cancelled_run cs hcc hu]
      simp [Ex01.init]
    have hm := h.m_pc
    rw [hM] at hm
    rcases hm with ⟨e, _, _, _, _, _, _, hh⟩ | ⟨_, _, _, _, _, hh⟩
    · rcases hh with ⟨_, h3, h4 | ⟨_, h4⟩⟩ | ⟨_, h2 | h2⟩
      · subst h4; exact absurd h3 hctx
      · exact absurd h4 hcan
      · rw [rA] at h2; cases h2
      · rw [rB] at h2; cases h2
    · rcases hh with ⟨h1, _, _, h4⟩ | ⟨_, _, _, h4, h5⟩ | ⟨_, _, _, _, h5 | ⟨_, h5⟩⟩
      · rw [rC] at h4
        exact ⟨h1, (Prod.mk.inj h4).1.symm⟩
      · rw [rC] at h5
        exact absurd h5 h4
      · exact absurd h5 hctx
      · exact absurd h5 hcan
  refine ⟨key as s hr hd hc, ?_, ?_, ?_, ?_⟩
  · have ho := Ex01.open_run as hd hc (Or.inl rfl) hr
    obtain ⟨bs, t, ⟨hbs, hbc⟩, hrt, ht⟩ :=
      Ex01.exists_finish rA rB (by rw [rC]) (Ex01.fuel s) s le_rfl (Ex01.inv_reach hr) ho
    refine ⟨bs, t, ⟨hbs, hbc⟩, hrt, ?_⟩
    have hall : Ex01.run svc data Ex01.init (as ++ bs) = some t := by
      rw [Ex01.run_append, hr]
      exact hrt
    have hnd : Ex01.Action.deadline ∉ as ++ bs := by
      simp only [List.mem_append, not_or]
      exact ⟨hd, hbs⟩
    have hnc : Ex01.Action.callerCancel ∉ as ++ bs := by
      simp only [List.mem_append, not_or]
      exact ⟨hc, hbc⟩
    cases hM : t.main with
    | returned out err =>
      obtain ⟨h1, h2⟩ := key _ t hall hnd hnc out err hM
      rw [h1, h2]
    | waitForAB i c => rw [hM] at ht; cases ht
    | handoff i => rw [hM] at ht; cases ht
    | waitForC => rw [hM] at ht; cases ht
  · have hf := Ex01.fuel_run as hr
    have h0 : Ex01.fuel Ex01.init = 12 := by decide
    omega
  · simp [Ex01.after, Ex01.scheduleAB, Ex01.run, Ex01.step, Ex01.init, hA, hB, hC, chanSend,
      Ex01.abNext, Ex01.ret, Ex01.callWebServiceC, joinedData]
  · simp [Ex01.after, Ex01.scheduleBA, Ex01.run, Ex01.step, Ex01.init, hA, hB, hC, chanSend,
      Ex01.abNext, Ex01.ret, Ex01.callWebServiceC, joinedData]

/-- Witness for C1: the reference scenario of the specification, with the stubs of the
file, `Input{A:"x", B:"y", C:"z"}` and the schedule that has received B first and is
about to receive A. -/
theorem C1_all_succeed_returns_projection_witness :
    (Ex01.callWebServiceA "x" = (⟨"grey", 20⟩, none) ∧
      Ex01.callWebServiceB "y" = (⟨"Physics", score96_5⟩, none) ∧
      Ex01.run Ex01.refServices Ex01.refInput Ex01.init Ex01.scheduleBA
        = some (Ex01.after Ex01.refServices Ex01.refInput Ex01.scheduleBA) ∧
      Ex01.Action.deadline ∉ Ex01.scheduleBA ∧
      Ex01.Action.callerCancel ∉ Ex01.scheduleBA) ∧
    (Ex01.after Ex01.refServices Ex01.refInput Ex01.scheduleBA).main
      = .returned ⟨"grey", "Physics", score96_5⟩ none ∧
    (Ex01.after Ex01.refServices Ex01.refInput Ex01.scheduleAB).main
      = .returned ⟨"grey", "Physics", score96_5⟩ none :=
  ⟨⟨rfl, rfl, by decide, by decide, by decide⟩, by decide,
    (C1_all_succeed_returns_projection Ex01.refServices Ex01.refInput ⟨"grey", 20⟩
      ⟨"Physics", score96_5⟩ Ex01.scheduleBA
      (Ex01.after Ex01.refServices Ex01.refInput Ex01.scheduleBA) rfl rfl rfl (by decide)
      (by decide) (by decide)).2.2.2.1⟩

/-- Counterexample to C3 as stated: with the stubs of the file, the deadline elapses
before stage A or stage B has delivered anything; both then deliver before the joiner
polls, its `select` takes the two value branches, the stage-C goroutine takes its `inC`
branch, `callWebServiceC` is invoked, and `GatherAndProcess` returns a value with a nil
error. -/
theorem C3_counterexample :
    (Ex01.run Ex01.refServices Ex01.refInput Ex01.init [.deadline]).map
        (fun s => (s.ctx, s.goA, s.goB, s.sentA, s.sentB, s.sentErrs))
      = some (some .deadlineExceeded, .ready, .ready, 0, 0, 0) ∧
    (Ex01.run Ex01.refServices Ex01.refInput Ex01.init (.deadline :: Ex01.scheduleAB)).map
        (fun s => (s.main, s.callsC))
      = some (.returned ⟨"grey", "Physics", score96_5⟩ none,
          [⟨⟨"grey", 20⟩, ⟨"Physics", score96_5⟩⟩]) :=
  ⟨by decide, by decide⟩

/-- Claim C3, amended (`example01.go`).  In every reachable state in which neither the
stage-A nor the stage-B goroutine has delivered its outcome yet: while the coordinator is
in `waitForAB` the only `select` branch it can take is `ctx.Done()`, and once `ctx.Done()`
is closed that branch is enabled and returns the zero `COut` with `ctx.Err()`, which is
`context.DeadlineExceeded` when the deadline has elapsed and `context.Canceled` only when
the caller's context was cancelled before; if the coordinator has returned, it returned
exactly that, and in every continuation of the run nothing is sent on `inC` and
`callWebServiceC` is never invoked, although the stage-C goroutine was launched. -/
theorem C3_no_outcome_deadline_in_join (svc : Services) (data : Ex01.Input)
    (as : List Ex01.Action) (s : Ex01.State)
    (hr : Ex01.run svc data Ex01.init as = some s)
    (hA : s.goA ≠ .done) (hB : s.goB ≠ .done) :
    (Ex01.Action.deadline ∈ as → s.ctx = some .deadlineExceeded) ∧
    (∀ inputC count, s.main = .waitForAB inputC count →
      (∀ a t, a.isPoll = true → Ex01.step svc data s a = some t → a = .abDone) ∧
      (∀ e, s.ctx = some e →
        (∃ t, Ex01.step svc data s .abDone = some t ∧
          t.main = .returned COut.zero (some e)) ∧
        ((e = .deadlineExceeded ∧ Ex01.Action.deadline ∈ as) ∨
         (e = .canceled ∧ Ex01.Action.callerCancel ∈ as)))) ∧
    (∀ out err, s.main = .returned out err →
      out = COut.zero ∧ err = s.ctx ∧
      ((err = some .deadlineExceeded ∧ Ex01.Action.deadline ∈ as) ∨
       (err = some .canceled ∧ Ex01.Action.callerCancel ∈ as)) ∧
      ∀ bs t, Ex01.run svc data s bs = some t →
        t.main = .returned out err ∧ t.sentInC = 0 ∧ t.callsC = [] ∧ t.sentOutC = 0) := by
  have h := Ex01.inv_reach hr
  obtain ⟨h1, h2, h3, h4, h5, h6, h7, h8, h9, h10, h11, h12⟩ := h.arith
  have pA := h.a_pc
  have pB := h.b_pc
  have zA : s.sentA + s.errA = 0 := by
    split at pA
    · exact pA
    · exact pA.1
    · exact pA.1
    · rename_i hg; exact absurd hg hA
  have zB : s.sentB + s.errB = 0 := by
    split at pB
    · exact pB
    · exact pB.1
    · exact pB.1
    · rename_i hg; exact absurd hg hB
  have zE : s.errs.length = 0 := by omega
  have zOA : s.outA.length = 0 := by omega
  have zOB : s.outB.length = 0 := by omega
  have hdl : s.ctx = some .deadlineExceeded → Ex01.Action.deadline ∈ as := by
    intro hc
    by_contra hn
    exact Ex01.nodl_run as hn (by simp [Ex01.init]) hr hc
  have hcc : s.cancelled = true → Ex01.Action.callerCancel ∈ as := by
    intro hc
    by_contra hn
    rw [Ex01.cancelled_run as hn hr] at hc
    simp [Ex01.init] at hc
  refine ⟨fun hd => Ex01.dl_run as (Or.inl hd) hr,
    fun inputC count hM => ⟨?_, ?_⟩, fun out err hM => ?_⟩
  · intro a t ha hs
    cases a <;> simp only [Ex01.Action.isPoll, Bool.false_eq_true] at ha
    · simp only [Ex01.step, hM, List.length_eq_zero.mp zOA] at hs
      cases hs
    · simp only [Ex01.step, hM, List.length_eq_zero.mp zOB] at hs
      cases hs
    · simp only [Ex01.step, hM, List.length_eq_zero.mp zE] at hs
      cases hs
    · rfl
  · intro e hctx
    refine ⟨⟨Ex01.abFail s e, ?_, rfl⟩, ?_⟩
    · simp only [Ex01.step, hM, hctx]
    · rcases h.ctx_ok with q | q | ⟨q, q2 | q2⟩
      · rw [q] at hctx; cases hctx
      · have he : e = .deadlineExceeded := by
          rw [q] at hctx; exact (Option.some.inj hctx).symm
        exact Or.inl ⟨he, hdl q⟩
      · rw [hM] at q2; cases q2
      · have he : e = .canceled := by
          rw [q] at hctx; exact (Option.some.inj hctx).symm
        exact Or.inr ⟨he, hcc q2⟩
  · have hm := h.m_pc
    rw [hM] at hm
    rcases hm with ⟨e, q1, q2, q3, q4, q5, q6, q7⟩ | ⟨_, q2, _⟩
    · have he : s.ctx = some e ∧
          (e = .deadlineExceeded ∨ (e = .canceled ∧ s.cancelled = true)) := by
        rcases q7 with ⟨_, q, q8⟩ | ⟨q, _⟩
        · exact ⟨q, q8⟩
        · omega
      refine ⟨q2, q3.trans he.1.symm, ?_, fun bs t ht => ?_⟩
      · rcases he.2 with k | ⟨k, k2⟩
        · subst k
          exact Or.inl ⟨q3, hdl he.1⟩
        · subst k
          exact Or.inr ⟨q3, hcc k2⟩
      · obtain ⟨s1, s2⟩ := Ex01.returned_stable_run bs hM ht
        have ht2 := Ex01.inv_ext hr ht
        obtain ⟨t1, t2, t3, t4, t5, t6, t7, t8, t9, t10, t11, t12⟩ := ht2.arith
        rw [q1] at s2
        obtain ⟨_, _, j3, _⟩ := ht2.joined_err s2
        refine ⟨s1, j3, ?_, by omega⟩
        exact List.length_eq_zero.mp (by omega)
    · omega

/-- Witness for C3 (amended): the deadline elapses while both stages hang, the joiner
takes the `ctx.Done()` branch. -/
theorem C3_no_outcome_deadline_in_join_witness :
    (Ex01.run Ex01.refServices Ex01.refInput Ex01.init [.deadline, .abDone]
        = some (Ex01.after Ex01.refServices Ex01.refInput [.deadline, .abDone]) ∧
      (Ex01.after Ex01.refServices Ex01.refInput [.deadline, .abDone]).goA ≠ .done ∧
      (Ex01.after Ex01.refServices Ex01.refInput [.deadline, .abDone]).goB ≠ .done ∧
      (Ex01.after Ex01.refServices Ex01.refInput [.deadline, .abDone]).main
        = .returned COut.zero (some .deadlineExceeded)) ∧
    (∀ bs t,
      Ex01.run Ex01.refServices Ex01.refInput
        (Ex01.after Ex01.refServices Ex01.refInput [.deadline, .abDone]) bs = some t →
      t.main = .returned COut.zero (some .deadlineExceeded) ∧ t.sentInC = 0 ∧
        t.callsC = [] ∧ t.sentOutC = 0) ∧
    (∃ t, Ex01.step Ex01.refServices Ex01.refInput
        (Ex01.after Ex01.refServices Ex01.refInput [.callA, .callerCancel]) .abDone = some t ∧
      t.main = .returned COut.zero (some .canceled)) :=
  ⟨⟨by decide, by decide, by decide, by decide⟩,
    ((C3_no_outcome_deadline_in_join Ex01.refServices Ex01.refInput [.deadline, .abDone]
      (Ex01.after Ex01.refServices Ex01.refInput [.deadline, .abDone])
      (by decide) (by decide) (by decide)).2.2 COut.zero (some .deadlineExceeded)
      (by decide)).2.2.2,
    (((C3_no_outcome_deadline_in_join Ex01.refServices Ex01.refInput [.callA, .callerCancel]
      (Ex01.after Ex01.refServices Ex01.refInput [.callA, .callerCancel])
      (by decide) (by decide) (by decide)).2.1 CIn.zero 0 (by decide)).2 .canceled
      (by decide)).1⟩

/-- Claim C7 (`example01.go`).  In every reachable state `waitForAB` has received at most
once from `outA` and at most once from `outB`, and while it loops its counter is the number
of values received and its partial `CIn` holds exactly the values received so far.  When
`waitForAB` has returned a `CIn` with a nil error, which the coordinator then holds for the
hand-off `p.inC <- inputC`, that `CIn` is the value recorded as the outcome of the join, it
received exactly once from each channel, stage A and stage B each sent exactly one value,
the `A` field is the value stage A's call returned and sent and the `B` field the one of
stage B, so the returned `CIn` is the same value `joinAB` for every arrival order; and the
outcome recorded with a nil error is the value the coordinator holds for the hand-off or,
after the hand-off, the one value that was sent on `inC`. -/
theorem C7_waitForAB_joins_both (svc : Services) (data : Ex01.Input)
    (as : List Ex01.Action) (s : Ex01.State)
    (hr : Ex01.run svc data Ex01.init as = some s) :
    s.rcvA ≤ 1 ∧ s.rcvB ≤ 1 ∧
    (∀ cin : CIn, s.joined = some (cin, none) →
      s.rcvA = 1 ∧ s.rcvB = 1 ∧ s.sentA = 1 ∧ s.sentB = 1 ∧
      svc.callWebServiceA data.A = (cin.A, none) ∧
      svc.callWebServiceB data.B = (cin.B, none) ∧
      cin = Ex01.joinAB svc data) ∧
    (∀ inputC count, s.main = .waitForAB inputC count →
      count = s.rcvA + s.rcvB ∧ count < 2 ∧ s.joined = none ∧
      inputC.A = (if s.rcvA = 0 then AOut.zero else (svc.callWebServiceA data.A).1) ∧
      inputC.B = (if s.rcvB = 0 then BOut.zero else (svc.callWebServiceB data.B).1)) ∧
    (∀ inputC, s.main = .handoff inputC →
      s.joined = some (inputC, none) ∧
      s.rcvA = 1 ∧ s.rcvB = 1 ∧ s.sentA = 1 ∧ s.sentB = 1 ∧
      svc.callWebServiceA data.A = (inputC.A, none) ∧
      svc.callWebServiceB data.B = (inputC.B, none) ∧
      inputC = Ex01.joinAB svc data) ∧
    (∀ cin : CIn, s.joined = some (cin, none) →
      s.main = .handoff cin ∨
      (s.sentInC = 1 ∧ s.inC.length + s.callsC.length = 1 ∧
        (∀ x ∈ s.inC, x = cin) ∧ (∀ x ∈ s.callsC, x = cin))) ∧
    (∀ a t inputC count, a.isPoll = true → s.main = .waitForAB inputC count →
      Ex01.step svc data s a = some t →
      ∀ i, t.main = .handoff i →
        t.joined = some (i, none) ∧ t.rcvA = 1 ∧ t.rcvB = 1 ∧
        svc.callWebServiceA data.A = (i.A, none) ∧
        svc.callWebServiceB data.B = (i.B, none)) := by
  have h := Ex01.inv_reach hr
  obtain ⟨h1, h2, h3, h4, h5, h6, h7, h8, h9, h10, h11, h12⟩ := h.arith
  have key : ∀ u : Ex01.State, Ex01.Inv svc data u → ∀ cin : CIn,
      u.joined = some (cin, none) →
      u.rcvA = 1 ∧ u.rcvB = 1 ∧ u.sentA = 1 ∧ u.sentB = 1 ∧
      svc.callWebServiceA data.A = (cin.A, none) ∧
      svc.callWebServiceB data.B = (cin.B, none) ∧
      cin = Ex01.joinAB svc data := by
    intro u hu cin hj
    obtain ⟨k1, k2, k3, _, k5, k6, k7, k8⟩ := hu.joined_ok hj
    subst k1
    exact ⟨k2, k3, k5, k6, Prod.ext rfl k7, Prod.ext rfl k8, rfl⟩
  refine ⟨by omega, by omega, key s h, ?_, ?_, fun cin hj => h.joined_handed hj, ?_⟩
  · intro inputC count hM
    have hm := h.m_pc
    rw [hM] at hm
    obtain ⟨p1, p2, _, p4, _, _, _, p8⟩ := hm
    subst p4
    exact ⟨p1.symm, p2, p8, rfl, rfl⟩
  · intro inputC hM
    obtain ⟨_, k2, _⟩ := h.handoff_val hM
    exact ⟨k2, key s h inputC k2⟩
  · intro a t inputC count ha hM hs i hT
    have ht := Ex01.inv_step h hs
    obtain ⟨_, k2, _⟩ := ht.handoff_val hT
    obtain ⟨q1, q2, _, _, q5, q6, _⟩ := key t ht i k2
    exact ⟨k2, q1, q2, q5, q6⟩

/-- Witness for C7: the stubs of the file, stage B's output received before stage A's; the
coordinator holds the joined value for the hand-off. -/
theorem C7_waitForAB_joins_both_witness :
    Ex01.run Ex01.refServices Ex01.refInput Ex01.init
        [.callA, .deliverA, .callB, .deliverB, .abRecvB, .abRecvA]
      = some (Ex01.after Ex01.refServices Ex01.refInput
          [.callA, .deliverA, .callB, .deliverB, .abRecvB, .abRecvA]) ∧
    (Ex01.after Ex01.refServices Ex01.refInput
        [.callA, .deliverA, .callB, .deliverB, .abRecvB, .abRecvA]).main
      = .handoff ⟨⟨"grey", 20⟩, ⟨"Physics", score96_5⟩⟩ ∧
    (Ex01.after Ex01.refServices Ex01.refInput
        [.callA, .deliverA, .callB, .deliverB, .abRecvB, .abRecvA]).joined
      = some (⟨⟨"grey", 20⟩, ⟨"Physics", score96_5⟩⟩, none) ∧
    (Ex01.after Ex01.refServices Ex01.refInput
        [.callA, .deliverA, .callB, .deliverB, .abRecvB, .abRecvA]).rcvA = 1 ∧
    (Ex01.after Ex01.refServices Ex01.refInput
        [.callA, .deliverA, .callB, .deliverB, .abRecvB, .abRecvA]).rcvB = 1 :=
  ⟨by decide, by decide,
    ((C7_waitForAB_joins_both Ex01.refServices Ex01.refInput
      [.callA, .deliverA, .callB, .deliverB, .abRecvB, .abRecvA]
      (Ex01.after Ex01.refServices Ex01.refInput
        [.callA, .deliverA, .callB, .deliverB, .abRecvB, .abRecvA]) (by decide)).2.2.2.2.1
      ⟨⟨"grey", 20⟩, ⟨"Physics", score96_5⟩⟩ (by decide)).1,
    ((C7_waitForAB_joins_both Ex01.refServices Ex01.refInput
      [.callA, .deliverA, .callB, .deliverB, .abRecvB, .abRecvA]
      (Ex01.after Ex01.refServices Ex01.refInput
        [.callA, .deliverA, .callB, .deliverB, .abRecvB, .abRecvA]) (by decide)).2.2.1
      ⟨⟨"grey", 20⟩, ⟨"Physics", score96_5⟩⟩ (by decide)).1,
    ((C7_waitForAB_joins_both Ex01.refServices Ex01.refInput
      [.callA, .deliverA, .callB, .deliverB, .abRecvB, .abRecvA]
      (Ex01.after Ex01.refServices Ex01.refInput
        [.callA, .deliverA, .callB, .deliverB, .abRecvB, .abRecvA]) (by decide)).2.2.1
      ⟨⟨"grey", 20⟩, ⟨"Physics", score96_5⟩⟩ (by decide)).2.1⟩

/-- Claim C8 (`example01.go`).  In every reachable state, also after the coordinator has
returned, at most one value has ever been sent on each of `outA`, `outB`, `inC`, `outC`
and at most two failures on `errs`, although three goroutines can write to `errs`; no
buffer exceeds its capacity; and every goroutine that stands at a send, and the
coordinator at `p.inC <- inputC`, can perform it: the send finds a free slot. -/
theorem C8_sends_never_block (svc : Services) (data : Ex01.Input)
    (as : List Ex01.Action) (s : Ex01.State)
    (hr : Ex01.run svc data Ex01.init as = some s) :
    (s.sentA ≤ 1 ∧ s.sentB ≤ 1 ∧ s.sentInC ≤ 1 ∧ s.sentOutC ≤ 1 ∧ s.sentErrs ≤ 2) ∧
    (s.outA.length ≤ 1 ∧ s.outB.length ≤ 1 ∧ s.inC.length ≤ 1 ∧ s.outC.length ≤ 1 ∧
      s.errs.length ≤ 2) ∧
    ((s.goA ≠ .ready ∧ s.goA ≠ .done → (Ex01.step svc data s .deliverA).isSome) ∧
     (s.goB ≠ .ready ∧ s.goB ≠ .done → (Ex01.step svc data s .deliverB).isSome) ∧
     (s.goC ≠ .ready ∧ s.goC ≠ .done → (Ex01.step svc data s .deliverC).isSome) ∧
     (∀ inputC, s.main = .handoff inputC → (Ex01.step svc data s .handoff).isSome)) := by
  have h := Ex01.inv_reach hr
  obtain ⟨h1, h2, h3, h4, h5, h6, h7, h8, h9, h10, h11, h12⟩ := h.arith
  refine ⟨⟨by omega, by omega, h11, by omega, ?_⟩, ⟨by omega, by omega, by omega, by omega,
    by omega⟩, h.send_enabled⟩
  simp only [Ex01.State.sentErrs]
  omega

/-- Witness for C8: both producers fail, the coordinator has returned on the first
failure and stopped reading, and the second failure still fits the buffer of `errs`. -/
theorem C8_sends_never_block_witness :
    Ex01.run Ex01.failingServices Ex01.refInput Ex01.init
        [.callA, .deliverA, .abRecvErr, .callB]
      = some (Ex01.after Ex01.failingServices Ex01.refInput
          [.callA, .deliverA, .abRecvErr, .callB]) ∧
    (Ex01.after Ex01.failingServices Ex01.refInput
        [.callA, .deliverA, .abRecvErr, .callB]).main.isReturned = true ∧
    (Ex01.step Ex01.failingServices Ex01.refInput
      (Ex01.after Ex01.failingServices Ex01.refInput [.callA, .deliverA, .abRecvErr, .callB])
      .deliverB).isSome :=
  ⟨by decide, by decide,
    (C8_sends_never_block Ex01.failingServices Ex01.refInput
      [.callA, .deliverA, .abRecvErr, .callB]
      (Ex01.after Ex01.failingServices Ex01.refInput [.callA, .deliverA, .abRecvErr, .callB])
      (by decide)).2.2.2.1
      ⟨by decide, by decide⟩⟩

/-- Claim C9 (`example01.go`).  Take a reachable state in which `ctx.Done()` is closed and
the coordinator is in `waitForAB` (also with `count = 0`, before the first poll).  There
`outA` and `outB` have each carried at most one value, and `count` is the number of
`select` statements executed so far.  The `ctx.Done()` branch is enabled and makes
`waitForAB` return the context error, with which `GatherAndProcess` returns.  Every
`select` step that is taken either makes `waitForAB` return the zero `CIn` with an error,
with which `GatherAndProcess` returns, or is a value receipt after which `waitForAB` either
has returned to the coordinator the fully joined value with a nil error or loops with
`count + 1 < 2`.  In every continuation `ctx.Done()` stays closed (so the same holds at the
next poll), `waitForAB` executes at most two `select` statements in all (so at most three),
receives at most two values, and what it returns is an error with the zero `CIn`, upon
which the coordinator has returned that error, or the fully joined value with a nil error,
which the coordinator holds for the hand-off or has sent on `inC`. -/
theorem C9_waitForAB_returns_after_deadline (svc : Services) (data : Ex01.Input)
    (as : List Ex01.Action) (s : Ex01.State) (inputC : CIn) (count : Nat)
    (hr : Ex01.run svc data Ex01.init as = some s)
    (hctx : s.ctx ≠ none) (hM : s.main = .waitForAB inputC count) :
    (s.sentA ≤ 1 ∧ s.sentB ≤ 1 ∧ s.polls = count ∧ s.rcvA + s.rcvB = count) ∧
    (∃ e t, s.ctx = some e ∧ Ex01.step svc data s .abDone = some t ∧
      t.joined = some (CIn.zero, some e) ∧ t.main = .returned COut.zero (some e)) ∧
    (∀ a t, a.isPoll = true → Ex01.step svc data s a = some t →
      t.polls = count + 1 ∧
      ((∃ e, t.joined = some (CIn.zero, some e) ∧
          t.main = .returned COut.zero (some e)) ∨
       (t.rcvA + t.rcvB = count + 1 ∧
         ((t.joined = some (Ex01.joinAB svc data, none) ∧
             t.main = .handoff (Ex01.joinAB svc data) ∧
             (svc.callWebServiceA data.A).2 = none ∧
             (svc.callWebServiceB data.B).2 = none) ∨
          ∃ i, t.main = .waitForAB i (count + 1) ∧ count + 1 < 2)))) ∧
    (∀ bs t, Ex01.run svc data s bs = some t →
      t.ctx ≠ none ∧ t.polls ≤ 2 ∧ t.polls ≤ 3 ∧ t.rcvA + t.rcvB ≤ 2 ∧
      (∀ cin err, t.joined = some (cin, err) →
        (err ≠ none ∧ cin = CIn.zero ∧ t.main = .returned COut.zero err) ∨
        (err = none ∧ cin = Ex01.joinAB svc data ∧
          (svc.callWebServiceA data.A).2 = none ∧ (svc.callWebServiceB data.B).2 = none ∧
          (t.main = .handoff cin ∨
            (t.sentInC = 1 ∧ (∀ x ∈ t.inC, x = cin) ∧ (∀ x ∈ t.callsC, x = cin))))) ∧
      (∀ i, t.main = .handoff i →
        i = Ex01.joinAB svc data ∧ t.joined = some (i, none) ∧
        (svc.callWebServiceA data.A).2 = none ∧
        (svc.callWebServiceB data.B).2 = none)) := by
  have h := Ex01.inv_reach hr
  obtain ⟨h1, h2, h3, h4, h5, h6, h7, h8, h9, h10, h11, h12⟩ := h.arith
  have hm := h.m_pc
  rw [hM] at hm
  obtain ⟨p1, p2, p3, _⟩ := hm
  refine ⟨⟨by omega, by omega, p3, p1⟩, ?_, ?_, ?_⟩
  · obtain ⟨e, he⟩ := Option.ne_none_iff_exists'.mp hctx
    refine ⟨e, Ex01.abFail s e, he, ?_, rfl, rfl⟩
    simp only [Ex01.step, hM, he]
  · intro a t ha hs
    have hp := Ex01.poll_step ha hs
    have ht := Ex01.inv_step h hs
    obtain ⟨t1, t2, t3, t4, t5, t6, t7, t8, t9, t10, t11, t12⟩ := ht.arith
    refine ⟨by omega, ?_⟩
    rcases Ex01.poll_main ha hM hs with ⟨i, hT, q2, _⟩ | ⟨i, hT, hj⟩ | ⟨e, hT, hj⟩
    · have tm := ht.m_pc
      rw [hT] at tm
      exact Or.inr ⟨tm.1, Or.inr ⟨i, hT, q2⟩⟩
    · obtain ⟨k1, k2, k3, k4, k5, k6⟩ := ht.handoff_val hT
      subst k1
      have tm := ht.m_pc
      rw [hT] at tm
      obtain ⟨_, _, _, q4, _⟩ := tm
      exact Or.inr ⟨by omega, Or.inl ⟨k2, hT, k5, k6⟩⟩
    · exact Or.inl ⟨e, hj, hT⟩
  · intro bs t hbs
    have ht := Ex01.inv_ext hr hbs
    obtain ⟨t1, t2, t3, t4, t5, t6, t7, t8, t9, t10, t11, t12⟩ := ht.arith
    refine ⟨Ex01.closed_run bs hctx hbs, t12, by omega, by omega, fun cin err hj => ?_,
      fun i hT => ?_⟩
    · cases err with
      | none =>
        obtain ⟨k1, _, _, _, _, _, k7, k8⟩ := ht.joined_ok hj
        refine Or.inr ⟨rfl, k1, k7, k8, ?_⟩
        rcases ht.joined_handed hj with q | ⟨q1, _, q3, q4⟩
        · exact Or.inl q
        · exact Or.inr ⟨q1, q3, q4⟩
      | some e =>
        obtain ⟨k1, k2, _⟩ := ht.joined_err hj
        exact Or.inl ⟨by simp, k1, k2⟩
    · obtain ⟨k1, k2, _, _, k5, k6⟩ := ht.handoff_val hT
      exact ⟨k1, k2, k5, k6⟩

/-- Witness for C9: the deadline elapses before the first poll while stage A's output is
already buffered. -/
theorem C9_waitForAB_returns_after_deadline_witness :
    (Ex01.run Ex01.refServices Ex01.refInput Ex01.init [.callA, .deliverA, .deadline]
        = some (Ex01.after Ex01.refServices Ex01.refInput [.callA, .deliverA, .deadline]) ∧
      (Ex01.after Ex01.refServices Ex01.refInput [.callA, .deliverA, .deadline]).ctx ≠ none ∧
      (Ex01.after Ex01.refServices Ex01.refInput [.callA, .deliverA, .deadline]).main
        = .waitForAB CIn.zero 0) ∧
    ∃ e t,
      (Ex01.after Ex01.refServices Ex01.refInput [.callA, .deliverA, .deadline]).ctx = some e ∧
      Ex01.step Ex01.refServices Ex01.refInput
        (Ex01.after Ex01.refServices Ex01.refInput [.callA, .deliverA, .deadline]) .abDone
        = some t ∧
      t.joined = some (CIn.zero, some e) ∧ t.main = .returned COut.zero (some e) :=
  ⟨⟨by decide, by decide, by decide⟩,
    (C9_waitForAB_returns_after_deadline Ex01.refServices Ex01.refInput
      [.callA, .deliverA, .deadline]
      (Ex01.after Ex01.refServices Ex01.refInput [.callA, .deliverA, .deadline]) CIn.zero 0
      (by decide) (by decide) (by decide)).2.1⟩

/-- Counterexample to C2 as stated, in both files: stage A's call fails and stage B's call
fails too; stage B's failure reaches `errs` first, the joiner receives it, and the
coordinator returns stage B's failure, which is not stage A's. -/
theorem C2_counterexample :
    ((Ex01.failingServices.callWebServiceA Ex01.refInput.A).2 = some (.errorsNew "A failed") ∧
      (Ex01.run Ex01.failingServices Ex01.refInput Ex01.init
          [.callB, .deliverB, .callA, .deliverA, .abRecvErr]).map (fun s => s.main)
        = some (.returned COut.zero (some (.errorsNew "B failed"))) ∧
      GoError.errorsNew "B failed" ≠ GoError.errorsNew "A failed") ∧
    ((Ex02.failingServices.callWebServiceA Ex02.refInput.A).2 = some (.errorsNew "A failed") ∧
      (Ex02.run Ex02.failingServices Ex02.refInput Ex02.init
          [.callB, .deliverB, .callA, .deliverA, .abRecvErr]).map (fun s => s.main)
        = some (.returned COut.zero (some (.errorsNew "B failed")))) :=
  ⟨⟨by decide, by decide, by decide⟩, by decide, by decide⟩

/-- Claim C2, amended (`example01.go` and `example02.go`).  When stage A's call returns an
error `eA`: `waitForAB` never returns a joined value; whenever the coordinator has
returned, the `COut` is the zero value and the error is the first failure the joiner
observed, which is `eA`, or stage B's error when stage B failed too, or `ctx.Err()`, which
is `context.DeadlineExceeded` only in a run in which the deadline fired and
`context.Canceled` only in a run in which the caller's context was cancelled; hence it is
`eA` when stage B does not fail, the deadline does not fire and the caller does not
cancel.  The schedule in which stage A fails and the joiner polls next returns `eA`. -/
theorem C2_stageA_failure_first_error_wins (eA : GoError) :
    (∀ (svc : Services) (data : Ex01.Input) (as : List Ex01.Action) (s : Ex01.State),
      (svc.callWebServiceA data.A).2 = some eA →
      Ex01.run svc data Ex01.init as = some s →
      (∀ cin, s.joined ≠ some (cin, none)) ∧
      (∀ out err, s.main = .returned out err →
        out = COut.zero ∧
        (err = some eA ∨ (err ≠ none ∧ err = (svc.callWebServiceB data.B).2) ∨
          (err = some .deadlineExceeded ∧ Ex01.Action.deadline ∈ as) ∨
          (err = some .canceled ∧ Ex01.Action.callerCancel ∈ as))) ∧
      (Ex01.after svc data [.callA, .deliverA, .abRecvErr]).main
        = .returned COut.zero (some eA)) ∧
    (∀ (svc : Ex02.Services) (data : Ex02.Input) (as : List Ex02.Action) (s : Ex02.State),
      (svc.callWebServiceA data.A).2 = some eA →
      Ex02.run svc data Ex02.init as = some s →
      (∀ cin, s.joined ≠ some (cin, none)) ∧
      (∀ out err, s.main = .returned out err →
        out = COut.zero ∧
        (err = some eA ∨ (err ≠ none ∧ err = (svc.callWebServiceB data.B).2) ∨
          (err = some .deadlineExceeded ∧ Ex02.Action.deadline ∈ as) ∨
          (err = some .canceled ∧ Ex02.Action.callerCancel ∈ as))) ∧
      (Ex02.after svc data [.callA, .deliverA, .abRecvErr]).main
        = .returned COut.zero (some eA)) := by
  constructor
  · intro svc data as s hA hr
    have h := Ex01.inv_reach hr
    obtain ⟨h1, h2, h3, h4, h5, h6, h7, h8, h9, h10, h11, h12⟩ := h.arith
    have hsent : s.sentA ≠ 1 := fun hx => by
      have := h.a_ok hx
      rw [Ex01.resA, hA] at this
      cases this
    refine ⟨fun cin hj => ?_, fun out err hM => ?_, ?_⟩
    · obtain ⟨_, k2, _⟩ := h.joined_ok hj
      omega
    · have hm := h.m_pc
      rw [hM] at hm
      rcases hm with ⟨e, _, q2, q3, _, _, _, q7⟩ | ⟨_, q2, _⟩
      · refine ⟨q2, ?_⟩
        rcases q7 with ⟨_, qc, q | ⟨q, qk⟩⟩ | ⟨_, q | q⟩
        · right; right; left
          subst q
          refine ⟨q3, ?_⟩
          by_contra hd
          exact Ex01.nodl_run as hd (by simp [Ex01.init]) hr qc
        · right; right; right
          subst q
          refine ⟨q3, ?_⟩
          by_contra hd
          rw [Ex01.cancelled_run as hd hr] at qk
          simp [Ex01.init] at qk
        · left
          rw [Ex01.resA, hA] at q
          rw [q3, ← q]
        · right; left
          exact ⟨by rw [q3]; simp, by rw [q3, ← q]⟩
      · omega
    · obtain ⟨x, hx⟩ : ∃ x, svc.callWebServiceA data.A = (x, some eA) :=
        ⟨(svc.callWebServiceA data.A).1, Prod.ext rfl hA⟩
      simp [Ex01.after, Ex01.run, Ex01.step, Ex01.init, hx, chanSend, Ex01.abFail, Ex01.ret]
  · intro svc data as s hA hr
    have h := Ex02.inv2_reach hr
    obtain ⟨h1, h2, h3, h4, h5⟩ := h.arith2
    have hsent : s.sentA ≠ 1 := fun hx => by
      have := h.a_ok hx
      rw [Ex02.resA, hA] at this
      cases this
    have hm := h.m_pc
    refine ⟨fun cin hj => ?_, fun out err hM => ?_, ?_⟩
    · split at hm
      · rw [hm.2.2.2.2.1] at hj; cases hj
      · omega
      · omega
      · rcases hm with ⟨e, q1, _⟩ | ⟨_, q2, _⟩
        · rw [q1] at hj; cases hj
        · omega
    · rw [hM] at hm
      rcases hm with ⟨e, _, q2, q3, _, _, q7⟩ | ⟨_, q2, _⟩
      · refine ⟨q2, ?_⟩
        rcases q7 with ⟨_, qc, q | ⟨q, qk⟩⟩ | ⟨_, q | q⟩
        · right; right; left
          subst q
          refine ⟨q3, ?_⟩
          by_contra hd
          exact Ex02.nodl2_run as hd (by simp [Ex02.init]) hr qc
        · right; right; right
          subst q
          refine ⟨q3, ?_⟩
          by_contra hd
          rw [Ex02.cancelled2_run as hd hr] at qk
          simp [Ex02.init] at qk
        · left
          rw [Ex02.resA, hA] at q
          rw [q3, ← q]
        · right; left
          exact ⟨by rw [q3]; simp, by rw [q3, ← q]⟩
      · omega
    · obtain ⟨x, hx⟩ : ∃ x, svc.callWebServiceA data.A = (x, some eA) :=
        ⟨(svc.callWebServiceA data.A).1, Prod.ext rfl hA⟩
      simp [Ex02.after, Ex02.run, Ex02.step, Ex02.init, hx, chanSend, Ex02.abFail, Ex02.ret]

/-- Witness for C2 (amended): stage A fails and stage B succeeds, in both files; the
joiner receives stage B's output, then stage A's failure. -/
theorem C2_stageA_failure_first_error_wins_witness :
    ((Ex01.failingAServices.callWebServiceA Ex01.refInput.A).2
        = some (.errorsNew "A failed") ∧
      Ex01.run Ex01.failingAServices Ex01.refInput Ex01.init Ex01.scheduleFailA
        = some (Ex01.after Ex01.failingAServices Ex01.refInput Ex01.scheduleFailA) ∧
      (Ex01.after Ex01.failingAServices Ex01.refInput Ex01.scheduleFailA).main
        = .returned COut.zero (some (.errorsNew "A failed"))) ∧
    ((Ex02.failingAServices.callWebServiceA Ex02.refInput.A).2
        = some (.errorsNew "A failed") ∧
      Ex02.run Ex02.failingAServices Ex02.refInput Ex02.init Ex02.scheduleFailA
        = some (Ex02.after Ex02.failingAServices Ex02.refInput Ex02.scheduleFailA) ∧
      (Ex02.after Ex02.failingAServices Ex02.refInput Ex02.scheduleFailA).main
        = .returned COut.zero (some (.errorsNew "A failed"))) ∧
    (∀ cin, (Ex01.after Ex01.failingAServices Ex01.refInput Ex01.scheduleFailA).joined
      ≠ some (cin, none)) ∧
    (∀ cin, (Ex02.after Ex02.failingAServices Ex02.refInput Ex02.scheduleFailA).joined
      ≠ some (cin, none)) :=
  ⟨⟨by decide, by decide, by decide⟩, ⟨by decide, by decide, by decide⟩,
    ((C2_stageA_failure_first_error_wins (.errorsNew "A failed")).1
      Ex01.failingAServices Ex01.refInput Ex01.scheduleFailA
      (Ex01.after Ex01.failingAServices Ex01.refInput Ex01.scheduleFailA)
      (by decide) (by decide)).1,
    ((C2_stageA_failure_first_error_wins (.errorsNew "A failed")).2
      Ex02.failingAServices Ex02.refInput Ex02.scheduleFailA
      (Ex02.after Ex02.failingAServices Ex02.refInput Ex02.scheduleFailA)
      (by decide) (by decide)).1⟩

/-- Counterexample to C4 as stated.  In `example02.go`: when the deadline elapses during
the A/B join the coordinator returns `ctx.Err()`; when A and B are joined and the deadline
elapses while stage C has delivered nothing, `callWebServiceC` returns `ctx.Err()` as
well, so the two returns carry the same error value, which names no phase.  In
`example01.go`, moreover, a stage C that has delivered nothing when the deadline elapses
can still deliver before the coordinator polls, and `waitForC` can then take the value
branch and return a result with a nil error. -/
theorem C4_counterexample :
    (Ex02.run Ex02.refServices Ex02.refInput Ex02.init [.deadline, .abDone]).map
        (fun s => (s.joined, s.main))
      = some (some (CIn.zero, some .deadlineExceeded),
          .returned COut.zero (some .deadlineExceeded)) ∧
    (Ex02.run Ex02.refServices Ex02.refInput Ex02.init
        (Ex02.scheduleHangC ++ [.selDone])).map (fun s => (s.joined, s.main))
      = some (some (⟨⟨"grey", 20⟩, ⟨"Physics", score96_5⟩⟩, none),
          .returned COut.zero (some .deadlineExceeded)) ∧
    (Ex01.run Ex01.refServices Ex01.refInput Ex01.init Ex01.scheduleHangC).map
        (fun s => (s.ctx, s.main, s.sentOutC, s.errC))
      = some (some .deadlineExceeded, .waitForC, 0, 0) ∧
    (Ex01.run Ex01.refServices Ex01.refInput Ex01.init
        (Ex01.scheduleHangC ++ [.cRecv, .deliverC, .wcRecvOut])).map (fun s => s.main)
      = some (.returned ⟨"grey", "Physics", score96_5⟩ none) :=
  ⟨by decide, by decide, by decide, by decide⟩

/-- Claim C4, amended.  In `example01.go`, in a reachable state in which A and B are joined,
the coordinator is in `waitForC` and stage C has delivered neither a result nor a failure:
the value and failure branches are not enabled, and once `ctx.Done()` is closed the
coordinator returns the zero `COut` with `errors.New("timeout while waiting for C")`,
which differs from the `ctx.Err()` it returns when `ctx.Done()` ends the A/B join.  In
`example03.go` likewise with the timers: the dispatching timeout returns
`errors.New("timeout exceed in waitForC")`, the joining timeout
`errors.New("timeout exceed in waitForAB")`, two different values.  In `example02.go` the
dispatching timeout returns `ctx.Err()`, the same value as the joining timeout.  In both
context-based files `ctx.Err()` is `context.DeadlineExceeded` or `context.Canceled`, and it
is `context.DeadlineExceeded` in every run in which the deadline has elapsed. -/
theorem C4_dispatch_timeout_error :
    (∀ (svc : Services) (data : Ex01.Input) (as : List Ex01.Action) (s : Ex01.State),
      Ex01.run svc data Ex01.init as = some s →
      (s.main = .waitForC → s.sentOutC = 0 → s.errC = 0 →
        s.joined = some (Ex01.joinAB svc data, none) ∧
        Ex01.step svc data s .wcRecvOut = none ∧ Ex01.step svc data s .wcRecvErr = none ∧
        (s.ctx ≠ none → ∃ t, Ex01.step svc data s .wcDone = some t ∧
          t.main = .returned COut.zero (some (.errorsNew "timeout while waiting for C")))) ∧
      (∀ inputC count e, s.main = .waitForAB inputC count → s.ctx = some e →
        (∃ t, Ex01.step svc data s .abDone = some t ∧
          t.main = .returned COut.zero (some e)) ∧
        GoError.errorsNew "timeout while waiting for C" ≠ e) ∧
      (∀ e, s.ctx = some e → e = .deadlineExceeded ∨ e = .canceled) ∧
      (Ex01.Action.deadline ∈ as → s.ctx = some .deadlineExceeded)) ∧
    (∀ (eager : Bool) (svc : Ex03.Services) (data : Ex03.Input) (as : List Ex03.Action)
        (s : Ex03.State),
      Ex03.run eager svc data Ex03.init as = some s →
      (∀ timer, s.main = .waitForC timer → s.sentOutC = 0 →
        s.joined = some (Ex03.joinAB svc data, none) ∧
        Ex03.step eager svc data s .wcRecv = none ∧
        (timer ≤ s.now → ∃ t, Ex03.step eager svc data s .wcTimeout = some t ∧
          t.main = .returned COut.zero (some Ex03.errWaitForC))) ∧
      (∀ inputC count timer, s.main = .waitForAB inputC count timer → timer ≤ s.now →
        ∃ t, Ex03.step eager svc data s .abTimeout = some t ∧
          t.main = .returned COut.zero (some Ex03.errWaitForAB) ∧
          Ex03.errWaitForC ≠ Ex03.errWaitForAB)) ∧
    (∀ (svc : Ex02.Services) (data : Ex02.Input) (as : List Ex02.Action) (s : Ex02.State),
      Ex02.run svc data Ex02.init as = some s →
      (s.main = .selectC → s.resultChan = [] →
        s.joined = some (Ex02.joinAB svc data, none) ∧
        Ex02.step svc data s .selRecv = none ∧
        (∀ e, s.ctx = some e → ∃ t, Ex02.step svc data s .selDone = some t ∧
          t.main = .returned COut.zero (some e))) ∧
      (∀ inputC count e, s.main = .waitForAB inputC count → s.ctx = some e →
        ∃ t, Ex02.step svc data s .abDone = some t ∧
          t.main = .returned COut.zero (some e)) ∧
      (∀ e, s.ctx = some e → e = .deadlineExceeded ∨ e = .canceled) ∧
      (Ex02.Action.deadline ∈ as → s.ctx = some .deadlineExceeded)) := by
  refine ⟨fun svc data as s hr => ?_, fun eager svc data as s hr => ?_,
    fun svc data as s hr => ?_⟩
  · have h := Ex01.inv_reach hr
    obtain ⟨h1, h2, h3, h4, h5, h6, h7, h8, h9, h10, h11, h12⟩ := h.arith
    have hm := h.m_pc
    have hctx := h.ctx_ok
    have hcls : ∀ e, s.ctx = some e → e = .deadlineExceeded ∨ e = .canceled := by
      intro e he
      rcases hctx with q | q | ⟨q, _⟩
      · rw [q] at he; cases he
      · rw [q] at he; exact Or.inl (Option.some.inj he).symm
      · rw [q] at he; exact Or.inr (Option.some.inj he).symm
    refine ⟨?_, ?_, hcls, fun hd => Ex01.dl_run as (Or.inl hd) hr⟩
    · intro hM z1 z2
      rw [hM] at hm
      obtain ⟨p1, p2, _, _, p5, p6, p7⟩ := hm
      have zO : s.outC = [] := List.length_eq_zero.mp (by omega)
      have zE : s.errs = [] := List.length_eq_zero.mp (by omega)
      refine ⟨p7, by simp only [Ex01.step, hM, zO], by simp only [Ex01.step, hM, zE], ?_⟩
      intro hc
      obtain ⟨e, he⟩ := Option.ne_none_iff_exists'.mp hc
      refine ⟨Ex01.ret s COut.zero (some (.errorsNew "timeout while waiting for C")), ?_, rfl⟩
      simp only [Ex01.step, hM, he]
    · intro inputC count e hM he
      refine ⟨⟨Ex01.abFail s e, ?_, rfl⟩, ?_⟩
      · simp only [Ex01.step, hM, he]
      · rcases hcls e he with k | k <;> subst k <;> decide
  · have h := Ex03.inv3_reach hr
    obtain ⟨h1, h2, h3, h4, h5, h6, h7, h8, h9⟩ := h.arith3
    have hm := h.m_pc
    constructor
    · intro timer hM z1
      rw [hM] at hm
      obtain ⟨_, _, _, p4, p5, _⟩ := hm
      have zO : s.outC = [] := List.length_eq_zero.mp (by omega)
      refine ⟨p5, by simp only [Ex03.step, hM, zO], fun hle => ?_⟩
      refine ⟨Ex03.ret s COut.zero (some Ex03.errWaitForC), ?_, rfl⟩
      simp only [Ex03.step, hM, hle, if_true]
    · intro inputC count timer hM hle
      refine ⟨Ex03.ret { s with joined := some (CIn.zero, some Ex03.errWaitForAB) } COut.zero
        (some Ex03.errWaitForAB), ?_, rfl, by decide⟩
      simp only [Ex03.step, hM, hle, if_true]
  · have h := Ex02.inv2_reach hr
    have hm := h.m_pc
    have hctx := h.ctx_ok
    have hcls : ∀ e, s.ctx = some e → e = .deadlineExceeded ∨ e = .canceled := by
      intro e he
      rcases hctx with q | q | ⟨q, _⟩
      · rw [q] at he; cases he
      · rw [q] at he; exact Or.inl (Option.some.inj he).symm
      · rw [q] at he; exact Or.inr (Option.some.inj he).symm
    refine ⟨?_, ?_, hcls, fun hd => Ex02.dl2_run as (Or.inl hd) hr⟩
    · intro hM zR
      rw [hM] at hm
      obtain ⟨_, _, _, p4, _⟩ := hm
      refine ⟨p4, by simp only [Ex02.step, hM, zR], fun e he => ?_⟩
      refine ⟨Ex02.ret s COut.zero (some e), ?_, rfl⟩
      simp only [Ex02.step, hM, he]
    · intro inputC count e hM he
      refine ⟨Ex02.abFail s e, ?_, rfl⟩
      simp only [Ex02.step, hM, he]

/-- Witness for C4 (amended): in each file A and B are joined, stage C hangs and the
deadline (the `waitForC` timer in `example03.go`) elapses. -/
theorem C4_dispatch_timeout_error_witness :
    (Ex01.run Ex01.refServices Ex01.refInput Ex01.init
        Ex01.scheduleHangC
      = some (Ex01.after Ex01.refServices Ex01.refInput
          Ex01.scheduleHangC) ∧
     Ex03.run true Ex03.refServices Ex03.refInput Ex03.init
        Ex03.scheduleHangC
      = some (Ex03.after true Ex03.refServices Ex03.refInput
          Ex03.scheduleHangC) ∧
     Ex02.run Ex02.refServices Ex02.refInput Ex02.init
        Ex02.scheduleHangC
      = some (Ex02.after Ex02.refServices Ex02.refInput
          Ex02.scheduleHangC)) ∧
    (∃ t, Ex01.step Ex01.refServices Ex01.refInput
        (Ex01.after Ex01.refServices Ex01.refInput
          Ex01.scheduleHangC)
        .wcDone = some t ∧
      t.main = .returned COut.zero (some (.errorsNew "timeout while waiting for C"))) ∧
    (∃ t, Ex03.step true Ex03.refServices Ex03.refInput
        (Ex03.after true Ex03.refServices Ex03.refInput
          Ex03.scheduleHangC)
        .wcTimeout = some t ∧
      t.main = .returned COut.zero (some Ex03.errWaitForC)) ∧
    (∃ t, Ex02.step Ex02.refServices Ex02.refInput
        (Ex02.after Ex02.refServices Ex02.refInput
          Ex02.scheduleHangC)
        .selDone = some t ∧
      t.main = .returned COut.zero (some .deadlineExceeded)) ∧
    ((∃ t, Ex01.step Ex01.refServices Ex01.refInput
        (Ex01.after Ex01.refServices Ex01.refInput [.deadline]) .abDone = some t ∧
      t.main = .returned COut.zero (some .deadlineExceeded)) ∧
      GoError.errorsNew "timeout while waiting for C" ≠ .deadlineExceeded) ∧
    (∃ t, Ex03.step true Ex03.refServices Ex03.refInput
        (Ex03.after true Ex03.refServices Ex03.refInput (List.replicate 50 .tick))
        .abTimeout = some t ∧
      t.main = .returned COut.zero (some Ex03.errWaitForAB) ∧
      Ex03.errWaitForC ≠ Ex03.errWaitForAB) ∧
    (∃ t, Ex02.step Ex02.refServices Ex02.refInput
        (Ex02.after Ex02.refServices Ex02.refInput [.deadline]) .abDone = some t ∧
      t.main = .returned COut.zero (some .deadlineExceeded)) :=
  ⟨⟨by decide, by decide, by decide⟩,
    ((C4_dispatch_timeout_error.1 Ex01.refServices Ex01.refInput
      Ex01.scheduleHangC
      (Ex01.after Ex01.refServices Ex01.refInput
        Ex01.scheduleHangC)
      (by decide)).1 (by decide) (by decide) (by decide)).2.2.2 (by decide),
    ((C4_dispatch_timeout_error.2.1 true Ex03.refServices Ex03.refInput
      Ex03.scheduleHangC
      (Ex03.after true Ex03.refServices Ex03.refInput
        Ex03.scheduleHangC)
      (by decide)).1 50 (by decide) (by decide)).2.2 (by decide),
    ((C4_dispatch_timeout_error.2.2 Ex02.refServices Ex02.refInput
      Ex02.scheduleHangC
      (Ex02.after Ex02.refServices Ex02.refInput
        Ex02.scheduleHangC)
      (by decide)).1 (by decide) (by decide)).2.2 .deadlineExceeded (by decide),
    (C4_dispatch_timeout_error.1 Ex01.refServices Ex01.refInput [.deadline]
      (Ex01.after Ex01.refServices Ex01.refInput [.deadline]) (by decide)).2.1 CIn.zero 0
      .deadlineExceeded (by decide) (by decide),
    (C4_dispatch_timeout_error.2.1 true Ex03.refServices Ex03.refInput
      (List.replicate 50 .tick)
      (Ex03.after true Ex03.refServices Ex03.refInput (List.replicate 50 .tick))
      (by decide)).2 CIn.zero 0 50 (by decide) (by decide),
    (C4_dispatch_timeout_error.2.2 Ex02.refServices Ex02.refInput [.deadline]
      (Ex02.after Ex02.refServices Ex02.refInput [.deadline]) (by decide)).2.1 CIn.zero 0
      .deadlineExceeded (by decide) (by decide)⟩

/-- Counterexample to C5 as stated (`example03.go`, coordinator reacting without latency):
stage A never completes, stage B's result arrives at 40 ms; its receipt starts a new
iteration of the loop of `waitForAB`, whose `select` arms a new 50 ms timer, and
`gatherAndProcess` returns the joining-phase timeout error at 90 ms, later than 50 ms. -/
theorem C5_counterexample :
    (Ex03.run true Ex03.refServices Ex03.refInput Ex03.init Ex03.scheduleLateB).map
        (fun s => (s.goA, s.main, s.lastRcv, s.retAt))
      = some (.ready, .returned COut.zero (some Ex03.errWaitForAB), 40, 90) ∧
    ¬ (Ex03.after true Ex03.refServices Ex03.refInput Ex03.scheduleLateB).retAt ≤ 50 :=
  ⟨by decide, by decide⟩

/-- Claim C5, amended (`example03.go`, clock in milliseconds from the invocation, coordinator
reacting without latency).  In every reachable state in which stage A has not completed:
nothing is handed to stage C; while the coordinator is in `waitForAB`, the clock has not
passed the timer of the current `select`, which was armed 50 ms after the latest receipt
(`lastRcv`, 0 when nothing was received), that receipt happened within the first 50 ms,
and the timeout branch is enabled as soon as the timer is due and returns the
joining-phase timeout error; if `gatherAndProcess` has returned, it returned the zero
`COut` and the joining-phase timeout error, exactly 50 ms after the latest receipt: at
50 ms when stage B's result was not received, at most at 100 ms in all cases.  The timer is
restarted by the arrival of a partial result. -/
theorem C5_join_timeout_latency (svc : Ex03.Services) (data : Ex03.Input)
    (as : List Ex03.Action) (s : Ex03.State)
    (hr : Ex03.run true svc data Ex03.init as = some s) (hA : s.goA = .ready) :
    s.sentInC = 0 ∧
    (∀ inputC count timer, s.main = .waitForAB inputC count timer →
      s.now ≤ timer ∧ timer = s.lastRcv + 50 ∧ s.lastRcv ≤ 50 ∧ timer ≤ 100 ∧
      (s.rcvB = 0 → timer = 50) ∧
      (timer ≤ s.now → ∃ t, Ex03.step true svc data s .abTimeout = some t ∧
        t.main = .returned COut.zero (some Ex03.errWaitForAB) ∧ t.retAt = s.now)) ∧
    (∀ out err, s.main = .returned out err →
      out = COut.zero ∧ err = some Ex03.errWaitForAB ∧
      s.retAt = s.lastRcv + 50 ∧ s.lastRcv ≤ 50 ∧ 50 ≤ s.retAt ∧ s.retAt ≤ 100 ∧
      (s.rcvB = 0 → s.retAt = 50)) := by
  have h := Ex03.inv3_reach hr
  obtain ⟨h1, h2, h3, h4, h5, h6, h7, h8, h9⟩ := h.arith3
  have pA := h.a_pc
  rw [hA] at pA
  simp only at pA
  have zA : s.rcvA = 0 := by omega
  have hm := h.m_pc
  refine ⟨by omega, fun inputC count timer hM => ?_, fun out err hM => ?_⟩
  · rw [hM] at hm
    obtain ⟨p1, p2, _, _, _, _, _, p8, p9, p10⟩ := hm
    obtain ⟨q1, q2⟩ := p10 rfl
    simp only [Ex03.timeout] at p8 q2
    refine ⟨q1, p8, q2, by omega, fun hb => ?_, fun hle => ?_⟩
    · have := p9 (by omega)
      omega
    · refine ⟨Ex03.ret { s with joined := some (CIn.zero, some Ex03.errWaitForAB) } COut.zero
        (some Ex03.errWaitForAB), ?_, rfl, rfl⟩
      simp only [Ex03.step, hM, hle, if_true]
  · rw [hM] at hm
    rcases hm with ⟨_, p2, p3, _, _, _, _, p8, _, _, p11⟩ | ⟨_, p2, _⟩
    · obtain ⟨q1, q2⟩ := p11 rfl
      simp only [Ex03.timeout] at q1 q2
      refine ⟨p2, p3, q1, q2, by omega, by omega, fun hb => ?_⟩
      have := p8 (by omega)
      omega
    · omega

/-- Witness for C5 (amended): the run of the counterexample, where the return happens at
`40 + 50` ms, and its state when stage B's result has just been received. -/
theorem C5_join_timeout_latency_witness :
    (Ex03.run true Ex03.refServices Ex03.refInput Ex03.init Ex03.scheduleLateB
        = some (Ex03.after true Ex03.refServices Ex03.refInput Ex03.scheduleLateB) ∧
      (Ex03.after true Ex03.refServices Ex03.refInput Ex03.scheduleLateB).goA = .ready ∧
      Ex03.run true Ex03.refServices Ex03.refInput Ex03.init
          (List.replicate 40 .tick ++ [.sendB, .abRecvB])
        = some (Ex03.after true Ex03.refServices Ex03.refInput
            (List.replicate 40 .tick ++ [.sendB, .abRecvB])) ∧
      (Ex03.after true Ex03.refServices Ex03.refInput
          (List.replicate 40 .tick ++ [.sendB, .abRecvB])).main
        = .waitForAB ⟨AOut.zero, ⟨"Physics", score96_5⟩⟩ 1 90) ∧
    (Ex03.after true Ex03.refServices Ex03.refInput Ex03.scheduleLateB).retAt
      = (Ex03.after true Ex03.refServices Ex03.refInput Ex03.scheduleLateB).lastRcv + 50 ∧
    (Ex03.after true Ex03.refServices Ex03.refInput Ex03.scheduleLateB).retAt ≤ 100 ∧
    (Ex03.after true Ex03.refServices Ex03.refInput
        (List.replicate 40 .tick ++ [.sendB, .abRecvB])).now ≤ 90 :=
  ⟨⟨by decide, by decide, by decide, by decide⟩,
    ((C5_join_timeout_latency Ex03.refServices Ex03.refInput Ex03.scheduleLateB
      (Ex03.after true Ex03.refServices Ex03.refInput Ex03.scheduleLateB)
      (by decide) (by decide)).2.2 COut.zero (some Ex03.errWaitForAB) (by decide)).2.2.1,
    ((C5_join_timeout_latency Ex03.refServices Ex03.refInput Ex03.scheduleLateB
      (Ex03.after true Ex03.refServices Ex03.refInput Ex03.scheduleLateB)
      (by decide) (by decide)).2.2 COut.zero (some Ex03.errWaitForAB)
      (by decide)).2.2.2.2.2.1,
    ((C5_join_timeout_latency Ex03.refServices Ex03.refInput
      (List.replicate 40 .tick ++ [.sendB, .abRecvB])
      (Ex03.after true Ex03.refServices Ex03.refInput
        (List.replicate 40 .tick ++ [.sendB, .abRecvB]))
      (by decide) (by decide)).2.1 ⟨AOut.zero, ⟨"Physics", score96_5⟩⟩ 1 90 (by decide)).1⟩

/-- Claim C6 (all three files).  Whenever the coordinator has returned `(out, err)`, exactly
one of two cases holds: `err` is nil, stages A and B succeeded, `waitForAB` returned their
join and `out` is what stage C computed from that join (in `example02.go` and
`example03.go`, and with the `callWebServiceC` of `example01.go`, the projection
`joinedData`); or `err` is non-nil and `out` is the zero `COut`. -/
theorem C6_result_or_error :
    (∀ (svc : Services) (data : Ex01.Input) (as : List Ex01.Action) (s : Ex01.State)
        (out : COut) (err : Option GoError),
      Ex01.run svc data Ex01.init as = some s → s.main = .returned out err →
      (err = none ∧ (svc.callWebServiceA data.A).2 = none ∧
        (svc.callWebServiceB data.B).2 = none ∧
        s.joined = some (Ex01.joinAB svc data, none) ∧
        svc.callWebServiceC (Ex01.joinAB svc data) = (out, none) ∧
        (svc.callWebServiceC = Ex01.callWebServiceC →
          out = joinedData (Ex01.joinAB svc data))) ∨
      (err ≠ none ∧ out = COut.zero)) ∧
    (∀ (svc : Ex02.Services) (data : Ex02.Input) (as : List Ex02.Action) (s : Ex02.State)
        (out : COut) (err : Option GoError),
      Ex02.run svc data Ex02.init as = some s → s.main = .returned out err →
      (err = none ∧ (svc.callWebServiceA data.A).2 = none ∧
        (svc.callWebServiceB data.B).2 = none ∧
        s.joined = some (Ex02.joinAB svc data, none) ∧
        out = joinedData (Ex02.joinAB svc data)) ∨
      (err ≠ none ∧ out = COut.zero)) ∧
    (∀ (eager : Bool) (svc : Ex03.Services) (data : Ex03.Input) (as : List Ex03.Action)
        (s : Ex03.State) (out : COut) (err : Option GoError),
      Ex03.run eager svc data Ex03.init as = some s → s.main = .returned out err →
      (err = none ∧ s.joined = some (Ex03.joinAB svc data, none) ∧
        out = joinedData (Ex03.joinAB svc data)) ∨
      (err ≠ none ∧ out = COut.zero)) := by
  refine ⟨fun svc data as s out err hr hM => ?_, fun svc data as s out err hr hM => ?_,
    fun eager svc data as s out err hr hM => ?_⟩
  · have h := Ex01.inv_reach hr
    have hm := h.m_pc
    rw [hM] at hm
    rcases hm with ⟨e, _, q2, q3, _⟩ | ⟨q1, _, _, _, _, hh⟩
    · exact Or.inr ⟨by rw [q3]; simp, q2⟩
    · obtain ⟨_, _, _, _, _, _, k7, k8⟩ := h.joined_ok q1
      rcases hh with ⟨r1, _, _, r4⟩ | ⟨r1, _, _, r4, _⟩ | ⟨r1, _, _, r4, _⟩
      · refine Or.inl ⟨r1, k7, k8, q1, r4, fun hC => ?_⟩
        simp only [Ex01.resC, hC, Ex01.callWebServiceC] at r4
        exact (Prod.mk.inj r4).1.symm
      · exact Or.inr ⟨r4, r1⟩
      · exact Or.inr ⟨by rw [r4]; simp, r1⟩
  · have h := Ex02.inv2_reach hr
    obtain ⟨h1, h2, h3, h4, h5⟩ := h.arith2
    have hm := h.m_pc
    rw [hM] at hm
    rcases hm with ⟨e, _, q2, q3, _⟩ | ⟨q1, q2, q3, _, hh⟩
    · exact Or.inr ⟨by rw [q3]; simp, q2⟩
    · rcases hh with ⟨r1, r2⟩ | ⟨e, r1, r2, _⟩
      · exact Or.inl ⟨r1, h.a_ok (by omega), h.b_ok (by omega), q1, r2⟩
      · exact Or.inr ⟨by rw [r2]; simp, r1⟩
  · have h := Ex03.inv3_reach hr
    have hm := h.m_pc
    rw [hM] at hm
    rcases hm with ⟨_, q2, q3, _⟩ | ⟨q1, _, _, _, _, hh⟩
    · exact Or.inr ⟨by rw [q3]; simp, q2⟩
    · rcases hh with ⟨r1, r2, _⟩ | ⟨r1, r2, _⟩
      · exact Or.inl ⟨r1, q1, r2⟩
      · exact Or.inr ⟨by rw [r2]; simp, r1⟩

/-- Witness for C6: a successful run of each file with its stubs. -/
theorem C6_result_or_error_witness :
    (Ex01.run Ex01.refServices Ex01.refInput Ex01.init Ex01.scheduleAB
        = some (Ex01.after Ex01.refServices Ex01.refInput Ex01.scheduleAB) ∧
      (Ex01.after Ex01.refServices Ex01.refInput Ex01.scheduleAB).main
        = .returned ⟨"grey", "Physics", score96_5⟩ none ∧
      Ex02.run Ex02.refServices Ex02.refInput Ex02.init
          Ex02.scheduleAll
        = some (Ex02.after Ex02.refServices Ex02.refInput
            Ex02.scheduleAll) ∧
      (Ex02.after Ex02.refServices Ex02.refInput
          Ex02.scheduleAll).main
        = .returned ⟨"grey", "Physics", score96_5⟩ none ∧
      Ex03.run true Ex03.refServices Ex03.refInput Ex03.init Ex03.scheduleAll
        = some (Ex03.after true Ex03.refServices Ex03.refInput Ex03.scheduleAll) ∧
      (Ex03.after true Ex03.refServices Ex03.refInput Ex03.scheduleAll).main
        = .returned ⟨"grey", "Physics", score96_5⟩ none) ∧
    (((none : Option GoError) = none ∧
        (Ex01.refServices.callWebServiceA Ex01.refInput.A).2 = none ∧
        (Ex01.refServices.callWebServiceB Ex01.refInput.B).2 = none ∧
        (Ex01.after Ex01.refServices Ex01.refInput Ex01.scheduleAB).joined
          = some (Ex01.joinAB Ex01.refServices Ex01.refInput, none) ∧
        Ex01.refServices.callWebServiceC (Ex01.joinAB Ex01.refServices Ex01.refInput)
          = (⟨"grey", "Physics", score96_5⟩, none) ∧
        (Ex01.refServices.callWebServiceC = Ex01.callWebServiceC →
          (⟨"grey", "Physics", score96_5⟩ : COut)
            = joinedData (Ex01.joinAB Ex01.refServices Ex01.refInput))) ∨
      ((none : Option GoError) ≠ none ∧
        (⟨"grey", "Physics", score96_5⟩ : COut) = COut.zero)) ∧
    (((none : Option GoError) = none ∧
        (Ex02.refServices.callWebServiceA Ex02.refInput.A).2 = none ∧
        (Ex02.refServices.callWebServiceB Ex02.refInput.B).2 = none ∧
        (Ex02.after Ex02.refServices Ex02.refInput
            Ex02.scheduleAll).joined
          = some (Ex02.joinAB Ex02.refServices Ex02.refInput, none) ∧
        (⟨"grey", "Physics", score96_5⟩ : COut)
          = joinedData (Ex02.joinAB Ex02.refServices Ex02.refInput)) ∨
      ((none : Option GoError) ≠ none ∧
        (⟨"grey", "Physics", score96_5⟩ : COut) = COut.zero)) ∧
    (((none : Option GoError) = none ∧
        (Ex03.after true Ex03.refServices Ex03.refInput Ex03.scheduleAll).joined
          = some (Ex03.joinAB Ex03.refServices Ex03.refInput, none) ∧
        (⟨"grey", "Physics", score96_5⟩ : COut)
          = joinedData (Ex03.joinAB Ex03.refServices Ex03.refInput)) ∨
      ((none : Option GoError) ≠ none ∧
        (⟨"grey", "Physics", score96_5⟩ : COut) = COut.zero)) :=
  ⟨⟨by decide, by decide, by decide, by decide, by decide, by decide⟩,
    C6_result_or_error.1 Ex01.refServices Ex01.refInput Ex01.scheduleAB
      (Ex01.after Ex01.refServices Ex01.refInput Ex01.scheduleAB) _ _ (by decide) (by decide),
    C6_result_or_error.2.1 Ex02.refServices Ex02.refInput
      Ex02.scheduleAll
      (Ex02.after Ex02.refServices Ex02.refInput
        Ex02.scheduleAll) _ _ (by decide) (by decide),
    C6_result_or_error.2.2 true Ex03.refServices Ex03.refInput Ex03.scheduleAll
      (Ex03.after true Ex03.refServices Ex03.refInput Ex03.scheduleAll) _ _ (by decide)
      (by decide)⟩

end LearningGo
